import Mathlib

/-!
A verification development for the KallistiOS ramdisk file system
(`kernel/fs/fs_ramdisk.c`).  The C module is modelled as a state machine:
the heap-allocated tree of `rd_file_t` nodes becomes an arena of records
addressed by natural-number ids (fresh malloc results are modelled by fresh
ids, which a live heap never reuses), the static handle table `fh` becomes a
list of handle records, and every VFS operation becomes a function from
states to (result, state) pairs.  Paths and names are byte strings modelled
as `List Char`; the intrusive sibling lists of the C source are modelled by
each directory node carrying the list of its children's ids in list order
(insertion at the head, exactly as `LIST_INSERT_HEAD` produces).

All sizes, cursors and counters are modelled as unbounded naturals.  The C
fields are `uint32`; no operation of the module can overflow them in a real
execution (sizes are bounded by allocated memory), and the one place where a
`uint32` subtraction could underflow (`ramdisk_read` with a cursor beyond the
logical size) is out-of-bounds undefined behavior in C and is noted at its
definition.
-/

set_option maxHeartbeats 1000000

namespace Ramdisk

/-- Error codes stored into `errno` by the C implementation. -/
inductive Errno where
  | ebadf
  | einval
  | enoent
deriving DecidableEq, Repr, Inhabited

/-- The access-mode part of the open flags (`mode & O_MODE_MASK`). -/
inductive RW where
  | rdonly
  | wronly
  | rdwr
deriving DecidableEq, Repr, Inhabited

/-- Open flags passed to `ramdisk_open`: the access mode together with the
`O_DIR`, `O_APPEND` and `O_TRUNC` bits. -/
structure OMode where
  rw : RW
  dir : Bool
  append : Bool
  trunc : Bool
deriving DecidableEq, Repr, Inhabited

/-- `O_RDONLY` (also the zeroed mode of a fresh handle slot). -/
@[reducible] def rdonlyMode : OMode :=
  { rw := RW.rdonly, dir := false, append := false, trunc := false }

/-- `O_WRONLY | O_TRUNC`, the mode `fs_ramdisk_attach` opens with. -/
@[reducible] def attachMode : OMode :=
  { rw := RW.wronly, dir := false, append := false, trunc := true }

/-- Lock constant `OPENFOR_NOTHING`. -/
def OPENFOR_NOTHING : Nat := 0

/-- Lock constant `OPENFOR_READ`. -/
def OPENFOR_READ : Nat := 1

/-- Lock constant `OPENFOR_WRITE`. -/
def OPENFOR_WRITE : Nat := 2

/-- Modelled from the spec: `FS_RAMDISK_MAX_FILES`, the compile-time capacity
of the handle table (`kos/opts.h` is not part of this tree; the exact value is
irrelevant to every claim). -/
def FS_RAMDISK_MAX_FILES : Nat := 8

/-- A ramdisk node (`rd_file_t`).  For a file, `data`/`datasize` are the
content buffer and its allocation size; for a directory the C `data` field
points at the child list head, modelled here by `children` (ids of the child
nodes, most recently inserted first).  `isDir` models
`type == STAT_TYPE_DIR`. -/
structure RdFile where
  name : List Char
  size : Nat
  isDir : Bool
  openfor : Nat
  usage : Nat
  data : List Nat
  datasize : Nat
  children : List Nat
deriving DecidableEq, Repr, Inhabited

/-- A directory entry as filled in by `ramdisk_readdir` (`dirent_t`).  `attr`
is `true` when the C code stores the `O_DIR` bit and `false` when it stores
0. -/
structure Dirent where
  name : List Char
  time : Nat
  attr : Bool
  size : Int
deriving DecidableEq, Repr, Inhabited

/-- A slot of the handle table.  The C slot has a single `ptr` word that is a
byte offset for file handles and a pointer to the next child to yield for
directory handles; the model splits that union into `ptr` and `dptr` (only
one of which is ever consulted, according to `dir`). -/
structure FHandle where
  file : Option Nat
  dir : Bool
  ptr : Nat
  dptr : Option Nat
  dirent : Dirent
  omode : OMode
deriving DecidableEq, Repr, Inhabited

/-- The `struct stat` fields filled in by `ramdisk_stat`/`ramdisk_fstat`. -/
structure StatBuf where
  st_dev : Nat
  st_mode : Nat
  st_size : Int
  st_nlink : Nat
  st_blksize : Nat
  st_blocks : Nat
deriving DecidableEq, Repr, Inhabited

/-- Modelled from the spec: POSIX directory type bit (libc header not in tree). -/
def S_IFDIR : Nat := 0o040000

/-- Modelled from the spec: POSIX regular-file type bit. -/
def S_IFREG : Nat := 0o100000

/-- Modelled from the spec: POSIX user read permission bit. -/
def S_IRUSR : Nat := 0o400

/-- Modelled from the spec: POSIX user write permission bit. -/
def S_IWUSR : Nat := 0o200

/-- Modelled from the spec: POSIX user execute permission bit. -/
def S_IXUSR : Nat := 0o100

/-- Modelled from the spec: POSIX group read permission bit. -/
def S_IRGRP : Nat := 0o40

/-- Modelled from the spec: POSIX group write permission bit. -/
def S_IWGRP : Nat := 0o20

/-- Modelled from the spec: POSIX group execute permission bit. -/
def S_IXGRP : Nat := 0o10

/-- Modelled from the spec: POSIX other read permission bit. -/
def S_IROTH : Nat := 0o4

/-- Modelled from the spec: POSIX other write permission bit. -/
def S_IWOTH : Nat := 0o2

/-- Modelled from the spec: POSIX other execute permission bit. -/
def S_IXOTH : Nat := 0o1

/-- Modelled from the spec: POSIX `S_IRWXU` (user rwx). -/
def S_IRWXU : Nat := 0o700

/-- Modelled from the spec: POSIX `S_IRWXG` (group rwx). -/
def S_IRWXG : Nat := 0o70

/-- Modelled from the spec: POSIX `S_IRWXO` (other rwx). -/
def S_IRWXO : Nat := 0o7

/-- The stat device tag `'r' | ('a' << 8) | ('m' << 16)`. -/
def RAM_DEV : Nat := 114 + 97 * 256 + 109 * 65536

/-- The global mutable state of the module: the node arena (root is id 0), a
counter supplying fresh ids, and the handle table `fh`. -/
structure RState where
  files : List (Nat × RdFile)
  nextId : Nat
  fh : List FHandle
deriving DecidableEq, Repr, Inhabited

/-- Arena lookup: dereference a node id. -/
def flookup : List (Nat × RdFile) → Nat → Option RdFile
  | [], _ => none
  | p :: ps, i => if p.1 = i then some p.2 else flookup ps i

/-- Overwrite the node stored under id `i` (in-place mutation of a live
`rd_file_t`). -/
def updAssoc (l : List (Nat × RdFile)) (i : Nat) (f : RdFile) :
    List (Nat × RdFile) :=
  l.map (fun p => if p.1 = i then (i, f) else p)

def setNode (s : RState) (i : Nat) (f : RdFile) : RState :=
  { s with files := updAssoc s.files i f }

/-- Read handle slot `fd` (the C array access `fh[fd]`, used only after a
bounds check). -/
def fhGet (s : RState) (fd : Nat) : FHandle := s.fh.getD fd default

def setFh (s : RState) (fd : Nat) (h : FHandle) : RState :=
  { s with fh := s.fh.set fd h }

/-- Lower-case image of a name: `strncasecmp` equality of equal-length names
is equality of lowered names. -/
def lowName (n : List Char) : List Char := n.map Char.toLower

/-- Split a path at every '/'.  The C resolver consumes one
`strchr`-delimited piece per loop iteration; this list is exactly the
sequence of pieces it walks. -/
def splitSegs : List Char → List (List Char)
  | [] => [[]]
  | c :: rest =>
    if c = '/' then [] :: splitSegs rest
    else
      match splitSegs rest with
      | [] => [[c]]
      | sg :: ss => (c :: sg) :: ss

/-- Split a path at its last '/' (`strrchr`), if any, into the part before
and the part after. -/
def lastSlashSplit : List Char → Option (List Char × List Char)
  | [] => none
  | c :: rest =>
    match lastSlashSplit rest with
    | some (p, l) => some (c :: p, l)
    | none => if c = '/' then some ([], rest) else none

/-- Body of `ramdisk_find`: `LIST_FOREACH` over a sibling list looking for a
case-insensitive name match, returning the first hit. -/
def findInList (s : RState) : List Nat → List Char → Option Nat
  | [], _ => none
  | c :: cs, nm =>
    match flookup s.files c with
    | none => findInList s cs nm
    | some g => if lowName g.name = lowName nm then some c else findInList s cs nm

/-- `ramdisk_find`: search the directory node `parent` for `nm`. -/
def ramdisk_find (s : RState) (parent : Nat) (nm : List Char) : Option Nat :=
  match flookup s.files parent with
  | none => none
  | some d => findInList s d.children nm

/-- The loop of `ramdisk_find_path` over the list of path pieces.  `f`
tracks the most recently found intermediate directory (the C local `f`),
`parent` the directory currently searched. -/
def findPathLoop (s : RState) (dirb : Bool) :
    Nat → Option Nat → List (List Char) → Option Nat
  | _, _, [] => none
  | parent, f, seg :: rest =>
    match rest with
    | [] =>
      -- no '/' remains: `seg` is the terminal piece
      if seg = [] then (if dirb then f else none)
      else
        match ramdisk_find s parent seg with
        | none => none
        | some g =>
          match flookup s.files g with
          | none => none
          | some gf =>
            if (¬dirb ∧ gf.isDir) ∨ (dirb ∧ ¬gf.isDir) then none else some g
    | _ :: _ =>
      -- a '/' remains: `seg` is an intermediate piece (skipped when empty)
      if seg = [] then findPathLoop s dirb parent f rest
      else
        match ramdisk_find s parent seg with
        | none => none
        | some g =>
          match flookup s.files g with
          | none => none
          | some gf =>
            if gf.isDir then findPathLoop s dirb g (some g) rest else none

/-- `ramdisk_find_path`: resolve `fn` starting from the directory node
`parent`; `dirb` tells whether a directory is expected at the end. -/
def ramdisk_find_path (s : RState) (parent : Nat) (fn : List Char)
    (dirb : Bool) : Option Nat :=
  findPathLoop s dirb parent none (splitSegs fn)

/-- `ramdisk_get_parent`: split off the leaf name and resolve the remainder
as a directory. -/
def ramdisk_get_parent (s : RState) (parent : Nat) (fn : List Char) :
    Option (Nat × List Char) :=
  match lastSlashSplit fn with
  | none => some (parent, fn)
  | some (pname, leaf) =>
    match ramdisk_find_path s parent pname true with
    | none => none
    | some d => some (d, leaf)

/-- `ramdisk_create_file`: allocate a fresh node under the parent directory of
`fn` and insert it at the head of that directory's child list.  Files start
with a 1024-byte buffer (malloc'd contents modelled as zeros). -/
def ramdisk_create_file (s : RState) (parent : Nat) (fn : List Char)
    (dirb : Bool) : Option (Nat × RState) :=
  match ramdisk_get_parent s parent fn with
  | none => none
  | some (pdir, leaf) =>
    let nf : RdFile :=
      { name := leaf, size := 0, isDir := dirb,
        openfor := OPENFOR_NOTHING, usage := 0,
        data := if dirb then [] else List.replicate 1024 0,
        datasize := if dirb then 0 else 1024, children := [] }
    match flookup s.files pdir with
    | none => none
    | some pf =>
      some (s.nextId,
        { files := (s.nextId, nf) ::
            updAssoc s.files pdir { pf with children := s.nextId :: pf.children },
          nextId := s.nextId + 1, fh := s.fh })

/-- Strip one leading '/' (the first statement of `ramdisk_open`). -/
def stripSlash : List Char → List Char
  | '/' :: rest => rest
  | l => l

/-- First free handle slot, scanning from index 1 (slot 0 is never used). -/
def findFreeFd (s : RState) : Option Nat :=
  (List.range' 1 (FS_RAMDISK_MAX_FILES - 1)).find?
    (fun fd => (fhGet s fd).file.isNone)

/-- The lookup phase of `ramdisk_open` (after the leading-slash strip): the
empty path is the root, otherwise the path is resolved, and a failed
resolution creates the file when the mode is writable and not a directory
open. -/
def openLookup (s : RState) (fn : List Char) (mode : OMode) :
    Option (Nat × RState) :=
  if fn = [] then some (0, s)
  else
    match ramdisk_find_path s 0 fn mode.dir with
    | some i => some (i, s)
    | none =>
      if mode.rw ≠ RW.rdonly ∧ ¬mode.dir then
        ramdisk_create_file s 0 fn mode.dir
      else none

/-- The commit phase of `ramdisk_open`, entered with the resolved node
`(i, f)` and a free slot `fd`: enforce the per-node read/write exclusion and
fill the slot.  The C code fills `file`/`dir`/`omode` before the read gate
and resets only `file` on its failure. -/
def openCommit (s1 : RState) (i : Nat) (f : RdFile) (fd : Nat)
    (mode : OMode) : Option Nat × RState :=
  -- "Is the file already open for write?"
  if f.openfor = OPENFOR_WRITE then (none, s1)
  else
    let h0 : FHandle :=
      { fhGet s1 fd with file := some i, dir := mode.dir, omode := mode }
    if mode.rw = RW.rdonly then
      -- read-only (and directory) opens; a directory open stores the first
      -- child in the cursor
      let h1 := { h0 with
        ptr := 0,
        dptr := if mode.dir then f.children.head? else h0.dptr }
      (some fd, setNode (setFh s1 fd h1) i
        { f with openfor := OPENFOR_READ, usage := f.usage + 1 })
    else
      -- writable open: refused if currently open for reading
      if f.openfor = OPENFOR_READ then
        (none, setFh s1 fd { h0 with file := none })
      else if mode.append then
        (some fd, setNode (setFh s1 fd { h0 with ptr := f.size }) i
          { f with openfor := OPENFOR_WRITE, usage := f.usage + 1 })
      else if mode.trunc then
        (some fd, setNode (setFh s1 fd { h0 with ptr := 0 }) i
          { f with
            openfor := OPENFOR_WRITE,
            data := List.replicate 1024 0, datasize := 1024, size := 0,
            usage := f.usage + 1 })
      else
        (some fd, setNode (setFh s1 fd { h0 with ptr := 0 }) i
          { f with openfor := OPENFOR_WRITE, usage := f.usage + 1 })

/-- `ramdisk_open`.  Returns the handle (the C code returns the index cast to
a pointer, `NULL` on failure) and the successor state. -/
def ramdisk_open (s : RState) (fn0 : List Char) (mode : OMode) :
    Option Nat × RState :=
  let fn := stripSlash fn0
  -- "Are we trying to do something stupid?"
  if mode.dir ∧ mode.rw ≠ RW.rdonly then (none, s)
  else
    match openLookup s fn mode with
    | none => (none, s)
    | some (i, s1) =>
      match flookup s1.files i with
      | none => (none, s1)
      | some f =>
        -- "Check for more stupid things"
        if f.isDir ∧ (¬mode.dir ∨ mode.rw ≠ RW.rdonly) then (none, s1)
        else
          match findFreeFd s1 with
          | none => (none, s1)
          | some fd => openCommit s1 i f fd mode

/-- `ramdisk_close`.  Always returns 0; unknown handles are tolerated. -/
def ramdisk_close (s : RState) (fd : Nat) : Int × RState :=
  if fd < FS_RAMDISK_MAX_FILES then
    match (fhGet s fd).file with
    | none => (0, s)
    | some i =>
      let s1 := setFh s fd { fhGet s fd with file := none }
      match flookup s.files i with
      | none => (0, s1)
      | some f =>
        let f1 := { f with usage := f.usage - 1 }
        (0, setNode s1 i
          (if f1.usage = 0 then { f1 with openfor := OPENFOR_NOTHING } else f1))
  else (0, s)

/-- `ramdisk_read`.  Returns the C return value, the bytes copied out and the
state.  When the cursor exceeds the logical size (impossible under the cursor
invariant) the C `uint32` subtraction `size - ptr` underflows and the
`memcpy` reads out of bounds — undefined behavior; the model clamps the count
to zero there. -/
def ramdisk_read (s : RState) (fd : Nat) (bytes : Nat) :
    Int × List Nat × RState :=
  if fd < FS_RAMDISK_MAX_FILES ∧ (fhGet s fd).file.isSome ∧ ¬(fhGet s fd).dir then
    match (fhGet s fd).file with
    | none => (-1, [], s)
    | some i =>
      match flookup s.files i with
      | none => (-1, [], s)
      | some f =>
        let h := fhGet s fd
        let n := if h.ptr + bytes > f.size then f.size - h.ptr else bytes
        (Int.ofNat n, (f.data.drop h.ptr).take n,
          setFh s fd { h with ptr := h.ptr + n })
  else (-1, [], s)

/-- `realloc` of a content buffer to `newCap` bytes: the old prefix is
preserved, fresh bytes are indeterminate (modelled as zeros). -/
def reallocBytes (d : List Nat) (newCap : Nat) : List Nat :=
  (d ++ List.replicate (newCap - d.length) 0).take newCap

/-- `memcpy(d + pos, src, src.length)`. -/
def memcpyAt (d : List Nat) (pos : Nat) (src : List Nat) : List Nat :=
  d.take pos ++ src ++ d.drop (pos + src.length)

/-- The unconditional tail of `ramdisk_write`: copy the bytes at the cursor,
advance the cursor, and raise the logical size if the cursor passed it. -/
def writeCommit (s : RState) (fd i : Nat) (f : RdFile) (buf : List Nat) :
    Int × RState :=
  let h := fhGet s fd
  let newPtr := h.ptr + buf.length
  let f1 := { f with
    data := memcpyAt f.data h.ptr buf,
    size := if f.size < newPtr then newPtr else f.size }
  (Int.ofNat buf.length, setFh (setNode s i f1) fd { h with ptr := newPtr })

/-- `ramdisk_write`, writing `buf.length` bytes from `buf`.  `allocOk` tells
whether the `realloc`, if one is needed, succeeds; on failure the C code
returns −1 having changed nothing. -/
def ramdisk_write (s : RState) (fd : Nat) (buf : List Nat) (allocOk : Bool) :
    Int × RState :=
  if fd < FS_RAMDISK_MAX_FILES ∧ (fhGet s fd).file.isSome ∧ ¬(fhGet s fd).dir then
    match (fhGet s fd).file with
    | none => (-1, s)
    | some i =>
      match flookup s.files i with
      | none => (-1, s)
      | some f =>
        if f.openfor = OPENFOR_WRITE then
          let h := fhGet s fd
          if h.ptr + buf.length > f.datasize then
            if allocOk then
              let cap := h.ptr + buf.length + 4096
              writeCommit s fd i
                { f with data := reallocBytes f.data cap, datasize := cap } buf
            else (-1, s)
          else writeCommit s fd i f buf
        else (-1, s)
  else (-1, s)

/-- `ramdisk_seek`. -/
def ramdisk_seek (s : RState) (fd : Nat) (offset : Int) (whence : Nat) :
    Except Errno Nat × RState :=
  if fd ≥ FS_RAMDISK_MAX_FILES ∨ (fhGet s fd).file.isNone ∨ (fhGet s fd).dir then
    (Except.error Errno.ebadf, s)
  else
    match (fhGet s fd).file with
    | none => (Except.error Errno.ebadf, s)
    | some i =>
      match flookup s.files i with
      | none => (Except.error Errno.ebadf, s)
      | some f =>
        let h := fhGet s fd
        let newPtr : Except Errno Nat :=
          if whence = 0 then
            -- SEEK_SET
            if offset < 0 then Except.error Errno.einval
            else Except.ok offset.toNat
          else if whence = 1 then
            -- SEEK_CUR
            if offset < 0 ∧ (-offset).toNat > h.ptr then Except.error Errno.einval
            else Except.ok ((h.ptr : Int) + offset).toNat
          else if whence = 2 then
            -- SEEK_END
            if offset < 0 ∧ (-offset).toNat > f.size then Except.error Errno.einval
            else Except.ok ((f.size : Int) + offset).toNat
          else Except.error Errno.einval
        match newPtr with
        | Except.error e => (Except.error e, s)
        | Except.ok p0 =>
          -- "Check bounds": clamp to the logical size
          let p1 := if p0 > f.size then f.size else p0
          (Except.ok p1, setFh s fd { h with ptr := p1 })

/-- `ramdisk_tell`. -/
def ramdisk_tell (s : RState) (fd : Nat) : Int :=
  if fd < FS_RAMDISK_MAX_FILES ∧ (fhGet s fd).file.isSome ∧ ¬(fhGet s fd).dir then
    Int.ofNat (fhGet s fd).ptr
  else -1

/-- `ramdisk_total`: the logical size of the open file (−1 models the
`(size_t)-1` the C code produces on a bad handle). -/
def ramdisk_total (s : RState) (fd : Nat) : Int :=
  if fd < FS_RAMDISK_MAX_FILES ∧ (fhGet s fd).file.isSome ∧ ¬(fhGet s fd).dir then
    match (fhGet s fd).file with
    | some i =>
      match flookup s.files i with
      | some f => Int.ofNat f.size
      | none => -1
    | none => -1
  else -1

/-- `LIST_NEXT` on a well-formed sibling list: the element following the
first occurrence of `x`. -/
def listNext : List Nat → Nat → Option Nat
  | [], _ => none
  | a :: rest, x => if a = x then rest.head? else listNext rest x

/-- The directory entry `ramdisk_readdir` builds for a child node:
`attr` carries the directory bit, `size` is −1 for directories and the
logical size otherwise. -/
def direntOf (g : RdFile) : Dirent :=
  { name := g.name, time := 0, attr := g.isDir,
    size := if g.isDir then -1 else Int.ofNat g.size }

/-- `ramdisk_readdir`: yield the child the cursor points at, advance the
cursor to the next sibling, and store the entry in the per-handle scratch
`dirent`. -/
def ramdisk_readdir (s : RState) (fd : Nat) : Except Errno Dirent × RState :=
  if fd < FS_RAMDISK_MAX_FILES ∧ (fhGet s fd).file.isSome ∧
      (fhGet s fd).dptr.isSome ∧ (fhGet s fd).dir then
    match (fhGet s fd).file, (fhGet s fd).dptr with
    | some d, some c =>
      match flookup s.files c, flookup s.files d with
      | some g, some df =>
        let ent : Dirent := direntOf g
        (Except.ok ent,
          setFh s fd { fhGet s fd with dptr := listNext df.children c, dirent := ent })
      | _, _ => (Except.error Errno.ebadf, s)
    | _, _ => (Except.error Errno.ebadf, s)
  else (Except.error Errno.ebadf, s)

/-- `ramdisk_rewinddir`: reset the directory cursor to the first child. -/
def ramdisk_rewinddir (s : RState) (fd : Nat) : Except Errno Unit × RState :=
  if fd ≥ FS_RAMDISK_MAX_FILES ∨ (fhGet s fd).file.isNone ∨ ¬(fhGet s fd).dir then
    (Except.error Errno.ebadf, s)
  else
    match (fhGet s fd).file with
    | some d =>
      match flookup s.files d with
      | some df =>
        (Except.ok (), setFh s fd { fhGet s fd with dptr := df.children.head? })
      | none => (Except.error Errno.ebadf, s)
    | none => (Except.error Errno.ebadf, s)

/-- Remove a node from the arena and excise its id from every sibling list
(`LIST_REMOVE` plus the `free` calls of `ramdisk_unlink`). -/
def removeNode (s : RState) (i : Nat) : RState :=
  { s with
    files := (s.files.filter (fun p => p.1 != i)).map
      (fun p => (p.1, { p.2 with children := p.2.children.erase i })) }

/-- `ramdisk_unlink`: resolve as a file, succeed only when unused. -/
def ramdisk_unlink (s : RState) (fn : List Char) : Int × RState :=
  match ramdisk_find_path s 0 fn false with
  | none => (-1, s)
  | some i =>
    match flookup s.files i with
    | none => (-1, s)
    | some f => if f.usage = 0 then (0, removeNode s i) else (-1, s)

/-- `ramdisk_mmap`: borrow the content buffer of an open file handle. -/
def ramdisk_mmap (s : RState) (fd : Nat) : Option (List Nat) :=
  if fd < FS_RAMDISK_MAX_FILES ∧ (fhGet s fd).file.isSome ∧ ¬(fhGet s fd).dir then
    match (fhGet s fd).file with
    | some i =>
      match flookup s.files i with
      | some f => some f.data
      | none => none
    | none => none
  else none

/-- The stat record `ramdisk_stat` builds for a resolved node: note that
`st_size` is the allocation size `datasize`, not the logical size, and that
directories additionally get the execute bits. -/
def statOf (f : RdFile) : StatBuf :=
  { st_dev := RAM_DEV,
    st_mode := (S_IRUSR ||| S_IWUSR ||| S_IRGRP ||| S_IWGRP ||| S_IROTH ||| S_IWOTH) |||
      (if f.isDir then S_IFDIR ||| S_IXUSR ||| S_IXGRP ||| S_IXOTH else S_IFREG),
    st_size := if f.isDir then -1 else Int.ofNat f.datasize,
    st_nlink := if f.isDir then 2 else 1,
    st_blksize := 1024,
    st_blocks := f.datasize / 1024 + (if f.datasize % 1024 ≠ 0 then 1 else 0) }

/-- The stat record for the root path, built without any traversal (the other
fields stay zero from the `memset`). -/
def rootStat : StatBuf :=
  { st_dev := RAM_DEV,
    st_mode := S_IFDIR ||| S_IRWXU ||| S_IRWXG ||| S_IRWXO,
    st_size := -1,
    st_nlink := 2,
    st_blksize := 0,
    st_blocks := 0 }

/-- `ramdisk_stat`.  The root path is answered specially; everything else is
resolved with `dir = 0`. -/
def ramdisk_stat (s : RState) (path : List Char) : Except Errno StatBuf :=
  if path = [] ∨ path = ['/'] then Except.ok rootStat
  else
    match ramdisk_find_path s 0 path false with
    | none => Except.error Errno.enoent
    | some i =>
      match flookup s.files i with
      | none => Except.error Errno.enoent
      | some f => Except.ok (statOf f)

/-- The stat record `ramdisk_fstat` builds: unlike `ramdisk_stat` it does not
add the execute bits for directories. -/
def fstatOf (f : RdFile) : StatBuf :=
  { st_dev := RAM_DEV,
    st_mode := (S_IRUSR ||| S_IWUSR ||| S_IRGRP ||| S_IWGRP ||| S_IROTH ||| S_IWOTH) |||
      (if f.isDir then S_IFDIR else S_IFREG),
    st_size := if f.isDir then -1 else Int.ofNat f.datasize,
    st_nlink := if f.isDir then 2 else 1,
    st_blksize := 1024,
    st_blocks := f.datasize / 1024 + (if f.datasize % 1024 ≠ 0 then 1 else 0) }

/-- `ramdisk_fstat`. -/
def ramdisk_fstat (s : RState) (fd : Nat) : Except Errno StatBuf :=
  if fd ≥ FS_RAMDISK_MAX_FILES ∨ (fhGet s fd).file.isNone then
    Except.error Errno.ebadf
  else
    match (fhGet s fd).file with
    | none => Except.error Errno.ebadf
    | some i =>
      match flookup s.files i with
      | none => Except.error Errno.ebadf
      | some f => Except.ok (fstatOf f)

/-- `fs_ramdisk_attach`: open write-only with truncation, replace the fresh
buffer by the caller's `obj` of `size` bytes, close. -/
def fs_ramdisk_attach (s : RState) (fn : List Char) (obj : List Nat)
    (size : Nat) : Int × RState :=
  match ramdisk_open s fn attachMode with
  | (none, s') => (-1, s')
  | (some fd, s1) =>
    match (fhGet s1 fd).file with
    | none => (-1, s1)
    | some i =>
      match flookup s1.files i with
      | none => (-1, s1)
      | some f =>
        let s2 := setNode s1 i { f with data := obj, datasize := size, size := size }
        (0, (ramdisk_close s2 fd).2)

/-- `fs_ramdisk_detach`: open read-only, hand the buffer and logical size to
the caller, install a 64-byte placeholder, close, unlink. -/
def fs_ramdisk_detach (s : RState) (fn : List Char) :
    Int × Option (List Nat × Nat) × RState :=
  match ramdisk_open s fn rdonlyMode with
  | (none, s') => (-1, none, s')
  | (some fd, s1) =>
    match (fhGet s1 fd).file with
    | none => (-1, none, s1)
    | some i =>
      match flookup s1.files i with
      | none => (-1, none, s1)
      | some f =>
        let res := (f.data, f.size)
        let s2 := setNode s1 i
          { f with data := List.replicate 64 0, datasize := 64, size := 64 }
        let s3 := (ramdisk_close s2 fd).2
        (0, some res, (ramdisk_unlink s3 fn).2)

/-- The root node allocated by `fs_ramdisk_init`. -/
def rootNode : RdFile :=
  { name := ['/'], size := 0, isDir := true, openfor := OPENFOR_NOTHING,
    usage := 0, data := [], datasize := 0, children := [] }

/-- A zeroed handle slot. -/
def emptyHandle : FHandle :=
  { file := none, dir := false, ptr := 0, dptr := none,
    dirent := { name := [], time := 0, attr := false, size := 0 },
    omode := rdonlyMode }

/-- The freshly initialized state produced by `fs_ramdisk_init`. -/
def initState : RState :=
  { files := [(0, rootNode)], nextId := 1,
    fh := List.replicate FS_RAMDISK_MAX_FILES emptyHandle }

/-- One invocation of a VFS operation of the module, with its arguments.  The
query operations (`tell`, `total`, `stat`, `fstat`, `mmap`, `fcntl`) perform
no writes in the C source, so they step to the same state. -/
inductive Op where
  | o_open (fn : List Char) (m : OMode)
  | o_close (fd : Nat)
  | o_read (fd : Nat) (bytes : Nat)
  | o_write (fd : Nat) (buf : List Nat) (allocOk : Bool)
  | o_seek (fd : Nat) (offset : Int) (whence : Nat)
  | o_readdir (fd : Nat)
  | o_rewinddir (fd : Nat)
  | o_unlink (fn : List Char)
  | o_attach (fn : List Char) (buf : List Nat) (size : Nat)
  | o_detach (fn : List Char)
  | o_query
deriving DecidableEq, Repr

/-- The state transition of one operation. -/
def applyOp (o : Op) (s : RState) : RState :=
  match o with
  | Op.o_open fn m => (ramdisk_open s fn m).2
  | Op.o_close fd => (ramdisk_close s fd).2
  | Op.o_read fd bytes => (ramdisk_read s fd bytes).2.2
  | Op.o_write fd buf allocOk => (ramdisk_write s fd buf allocOk).2
  | Op.o_seek fd offset whence => (ramdisk_seek s fd offset whence).2
  | Op.o_readdir fd => (ramdisk_readdir s fd).2
  | Op.o_rewinddir fd => (ramdisk_rewinddir s fd).2
  | Op.o_unlink fn => (ramdisk_unlink s fn).2
  | Op.o_attach fn buf size => (fs_ramdisk_attach s fn buf size).2
  | Op.o_detach fn => (fs_ramdisk_detach s fn).2.2
  | Op.o_query => s

/-- States reachable from a freshly initialized filesystem by any sequence of
operations. -/
inductive Reachable : RState → Prop where
  | init : Reachable initState
  | step (o : Op) {s : RState} : Reachable s → Reachable (applyOp o s)

/-- `fs_ramdisk_detach` on `fn` is disciplined in `s` when the node the
detach would open is not currently open through any handle. -/
def DetachSafe (s : RState) (o : Op) : Prop :=
  match o with
  | Op.o_detach fn =>
    ∀ i f, ramdisk_find_path s 0 (stripSlash fn) false = some i →
      flookup s.files i = some f → f.usage = 0
  | _ => True

/-- Reachability by sequences in which every `fs_ramdisk_detach` is invoked
only while no handle has its node open. -/
inductive ReachableD : RState → Prop where
  | init : ReachableD initState
  | step (o : Op) {s : RState} (hs : DetachSafe s o) :
      ReachableD s → ReachableD (applyOp o s)

/-- Run `ramdisk_readdir` up to `k` times, collecting the entries yielded
before the first error. -/
def readdirRun : Nat → RState → Nat → List Dirent × RState
  | 0, s, _ => ([], s)
  | k + 1, s, fd =>
    match ramdisk_readdir s fd with
    | (Except.error _, s2) => ([], s2)
    | (Except.ok e, s2) =>
      let r := readdirRun k s2 fd
      (e :: r.1, r.2)

/-- A plain write-create mode (`O_WRONLY`). -/
def cW : OMode :=
  { rw := RW.wronly, dir := false, append := false, trunc := false }

/-- A read-only directory mode (`O_RDONLY | O_DIR`). -/
def cDirMode : OMode :=
  { rw := RW.rdonly, dir := true, append := false, trunc := false }

/-- Trace exercising an undisciplined detach: create and fill `f`, reopen
it read-only, seek the handle to 100, then detach `f` while that handle is
still open. -/
def cBadState : RState :=
  applyOp (Op.o_detach ['f'])
    (applyOp (Op.o_seek 1 100 0)
      (applyOp (Op.o_open ['f'] rdonlyMode)
        (applyOp (Op.o_close 1)
          (applyOp (Op.o_write 1 (List.replicate 100 7) true)
            (applyOp (Op.o_open ['f'] cW) initState)))))

/-- The node `f` after the trace above: the failed detach left the 64-byte
placeholder in place. -/
def cBadNode : RdFile :=
  { name := ['f'], size := 64, isDir := false, openfor := OPENFOR_READ,
    usage := 1, data := List.replicate 64 0, datasize := 64, children := [] }

/-- A state with the root directory open through handle 1. -/
def cS7 : RState := applyOp (Op.o_open ['/'] cDirMode) initState

/-- A node that is open for writing. -/
def cBusyNode : RdFile :=
  { name := ['f'], size := 0, isDir := false, openfor := OPENFOR_WRITE,
    usage := 1, data := [], datasize := 0, children := [] }

/-- A state with one busy file `f` (open for writing). -/
def cS10 : RState :=
  { files := [(0, { rootNode with children := [1] }), (1, cBusyNode)],
    nextId := 2, fh := List.replicate FS_RAMDISK_MAX_FILES emptyHandle }

/-- A state with files `a`–`g` created and held open: every handle slot in
[1, 8) is occupied. -/
def c9s : RState :=
  applyOp (Op.o_open ['g'] cW) (applyOp (Op.o_open ['f'] cW)
    (applyOp (Op.o_open ['e'] cW) (applyOp (Op.o_open ['d'] cW)
      (applyOp (Op.o_open ['c'] cW) (applyOp (Op.o_open ['b'] cW)
        (applyOp (Op.o_open ['a'] cW) initState))))))

/-- A file of logical size 3 inside a 10-byte buffer. -/
def cSmallFile : RdFile :=
  { name := ['f'], size := 3, isDir := false, openfor := OPENFOR_READ,
    usage := 1, data := List.replicate 10 0, datasize := 10,
    children := [] }

/-- A state with `cSmallFile` open read-only through handle 1. -/
def cS6 : RState :=
  { files := [(0, { rootNode with children := [1] }), (1, cSmallFile)],
    nextId := 2,
    fh := (List.replicate FS_RAMDISK_MAX_FILES emptyHandle).set 1
      { file := some 1, dir := false, ptr := 0, dptr := none,
        dirent := { name := [], time := 0, attr := false, size := 0 },
        omode := rdonlyMode } }

/-- `cSmallFile`, open for writing. -/
def cWrFile : RdFile := { cSmallFile with openfor := OPENFOR_WRITE }

/-- A state with `cWrFile` open for writing through handle 1, cursor at 1. -/
def cS3 : RState :=
  { files := [(0, { rootNode with children := [1] }), (1, cWrFile)],
    nextId := 2,
    fh := (List.replicate FS_RAMDISK_MAX_FILES emptyHandle).set 1
      { file := some 1, dir := false, ptr := 1, dptr := none,
        dirent := { name := [], time := 0, attr := false, size := 0 },
        omode := cW } }

/-- A state with a file `a` created and the root directory then opened as a
directory through handle 1. -/
def c8s : RState :=
  applyOp (Op.o_open ['/'] cDirMode)
    (applyOp (Op.o_close 1) (applyOp (Op.o_open ['a'] cW) initState))

/-! ## The state invariant -/

/-- Number of occupied handle slots referring to node `i`. -/
def handleCount (s : RState) (i : Nat) : Nat :=
  s.fh.countP (fun h => h.file == some i)

/-- Number of handle slots that have node `i` open through a writable mode. -/
def writerCount (s : RState) (i : Nat) : Nat :=
  s.fh.countP (fun h => h.file == some i && !(h.omode.rw == RW.rdonly))

/-- Number of handle slots that have node `i` open read-only. -/
def readerCount (s : RState) (i : Nat) : Nat :=
  s.fh.countP (fun h => h.file == some i && h.omode.rw == RW.rdonly)

/-- The root node exists and is a directory. -/
def RootOk (s : RState) : Prop :=
  ∃ r, flookup s.files 0 = some r ∧ r.isDir = true

/-- Only the root is a directory (`mkdir` is not implemented and `open`
creates only files). -/
def OnlyRootDir (s : RState) : Prop :=
  ∀ p ∈ s.files, p.1 ≠ 0 → p.2.isDir = false

/-- Arena ids are unique and below the allocation counter. -/
def KeysOk (s : RState) : Prop :=
  (s.files.map Prod.fst).Nodup ∧ ∀ p ∈ s.files, p.1 < s.nextId

/-- The handle table has its compile-time length and slot 0 stays free. -/
def TableOk (s : RState) : Prop :=
  s.fh.length = FS_RAMDISK_MAX_FILES ∧ (fhGet s 0).file = none

/-- Occupied handle slots point at live nodes of the matching kind. -/
def HandlesOk (s : RState) : Prop :=
  ∀ h ∈ s.fh, ∀ i, h.file = some i →
    ∃ f, flookup s.files i = some f ∧ h.dir = f.isDir

/-- Child lists never contain the root, only live ids, and no duplicates. -/
def ChildrenOk (s : RState) : Prop :=
  ∀ p ∈ s.files, 0 ∉ p.2.children ∧
    (∀ c ∈ p.2.children, (flookup s.files c).isSome) ∧ p.2.children.Nodup

/-- Within one directory, children's names are distinct case-insensitively. -/
def NamesOk (s : RState) : Prop :=
  ∀ p ∈ s.files,
    (p.2.children.filterMap
      (fun c => (flookup s.files c).map (fun g => lowName g.name))).Nodup

/-- `usage` counts exactly the handle slots open on the node. -/
def UsageOk (s : RState) : Prop :=
  ∀ p ∈ s.files, p.2.usage = handleCount s p.1

/-- The `openfor` lock agrees with the handles: `OPENFOR_NOTHING` exactly
when unused, `OPENFOR_WRITE` for a single writable handle, `OPENFOR_READ`
only with read-only handles. -/
def OpenforOk (s : RState) : Prop :=
  ∀ p ∈ s.files,
    (p.2.openfor = OPENFOR_NOTHING ∨ p.2.openfor = OPENFOR_READ ∨
      p.2.openfor = OPENFOR_WRITE) ∧
    (p.2.openfor = OPENFOR_NOTHING ↔ p.2.usage = 0) ∧
    (p.2.openfor = OPENFOR_WRITE → p.2.usage = 1) ∧
    (p.2.openfor = OPENFOR_WRITE →
      ∀ h ∈ s.fh, h.file = some p.1 → h.omode.rw ≠ RW.rdonly) ∧
    (p.2.openfor = OPENFOR_READ →
      ∀ h ∈ s.fh, h.file = some p.1 → h.omode.rw = RW.rdonly)

/-- For files, the allocation size bounds the logical size. -/
def CapOk (s : RState) : Prop :=
  ∀ p ∈ s.files, p.2.isDir = false → p.2.size ≤ p.2.datasize

/-- Every file handle's cursor is within the logical size of its node.  (Not
part of `Inv`: an undisciplined `fs_ramdisk_detach` breaks it.) -/
def CursorOk (s : RState) : Prop :=
  ∀ h ∈ s.fh, ∀ i, h.file = some i → h.dir = false →
    ∀ f, flookup s.files i = some f → h.ptr ≤ f.size

/-- The state invariant maintained by every operation. -/
structure Inv (s : RState) : Prop where
  root : RootOk s
  onlyRootDir : OnlyRootDir s
  keys : KeysOk s
  table : TableOk s
  handles : HandlesOk s
  children : ChildrenOk s
  names : NamesOk s
  usage : UsageOk s
  openfor : OpenforOk s
  cap : CapOk s

/-! ## Basic lemmas about the arena -/

theorem flookup_cons (p : Nat × RdFile) (ps : List (Nat × RdFile)) (i : Nat) :
    flookup (p :: ps) i = if p.1 = i then some p.2 else flookup ps i := rfl

theorem flookup_mem {l : List (Nat × RdFile)} {i : Nat} {f : RdFile}
    (h : flookup l i = some f) : (i, f) ∈ l := by
  induction l with
  | nil => simp [flookup] at h
  | cons p ps ih =>
    by_cases hp : p.1 = i
    · rw [flookup_cons, if_pos hp] at h
      have hf : p.2 = f := by injection h
      have : p = (i, f) := by
        obtain ⟨a, b⟩ := p
        simp only at hp hf
        rw [hp, hf]
      rw [← this]
      exact List.mem_cons_self _ _
    · rw [flookup_cons, if_neg hp] at h
      exact List.mem_cons_of_mem _ (ih h)

theorem flookup_isSome {l : List (Nat × RdFile)} {i : Nat} :
    (flookup l i).isSome ↔ i ∈ l.map Prod.fst := by
  induction l with
  | nil => simp [flookup]
  | cons p ps ih =>
    by_cases hp : p.1 = i
    · simp [flookup_cons, hp]
    · simp [flookup_cons, hp, ih, Ne.symm hp]

theorem flookup_eq_none {l : List (Nat × RdFile)} {i : Nat}
    (h : i ∉ l.map Prod.fst) : flookup l i = none := by
  cases hl : flookup l i with
  | none => rfl
  | some f => exact absurd (flookup_isSome.1 (by simp [hl])) h

theorem mem_flookup {l : List (Nat × RdFile)}
    (hnd : (l.map Prod.fst).Nodup) {i : Nat} {f : RdFile}
    (h : (i, f) ∈ l) : flookup l i = some f := by
  induction l with
  | nil => simp at h
  | cons p ps ih =>
    rw [List.mem_cons] at h
    simp only [List.map_cons, List.nodup_cons] at hnd
    rcases h with h | h
    · rw [← h, flookup_cons, if_pos rfl]
    · have hp : p.1 ≠ i := by
        intro he
        exact hnd.1 (he ▸ List.mem_map.2 ⟨(i, f), h, rfl⟩)
      rw [flookup_cons, if_neg hp]
      exact ih hnd.2 h

theorem updAssoc_cons (p : Nat × RdFile) (ps : List (Nat × RdFile))
    (i : Nat) (f : RdFile) :
    updAssoc (p :: ps) i f
      = (if p.1 = i then ((i, f) : Nat × RdFile) else p) :: updAssoc ps i f := by
  by_cases hp : p.1 = i <;> simp [updAssoc, hp]

theorem updAssoc_map_fst (l : List (Nat × RdFile)) (i : Nat) (f : RdFile) :
    (updAssoc l i f).map Prod.fst = l.map Prod.fst := by
  induction l with
  | nil => rfl
  | cons p ps ih =>
    rw [updAssoc_cons]
    by_cases hp : p.1 = i
    · rw [if_pos hp, List.map_cons, List.map_cons, ih]
      show i :: ps.map Prod.fst = p.1 :: ps.map Prod.fst
      rw [hp]
    · rw [if_neg hp, List.map_cons, List.map_cons, ih]

theorem flookup_updAssoc_ne (l : List (Nat × RdFile)) {i j : Nat}
    (f : RdFile) (h : j ≠ i) : flookup (updAssoc l i f) j = flookup l j := by
  induction l with
  | nil => rfl
  | cons p ps ih =>
    rw [updAssoc_cons]
    by_cases hp : p.1 = i
    · rw [if_pos hp, flookup_cons, flookup_cons,
        if_neg (show ¬(((i, f) : Nat × RdFile)).1 = j from fun he => h he.symm),
        if_neg (fun he : p.1 = j => h (hp.symm.trans he).symm), ih]
    · rw [if_neg hp, flookup_cons, flookup_cons]
      by_cases hj : p.1 = j
      · rw [if_pos hj, if_pos hj]
      · rw [if_neg hj, if_neg hj, ih]

theorem flookup_updAssoc_self {l : List (Nat × RdFile)} {i : Nat}
    {g : RdFile} (f : RdFile) (h : flookup l i = some g) :
    flookup (updAssoc l i f) i = some f := by
  induction l with
  | nil => simp [flookup] at h
  | cons p ps ih =>
    rw [updAssoc_cons]
    by_cases hp : p.1 = i
    · rw [if_pos hp, flookup_cons, if_pos rfl]
    · rw [flookup_cons, if_neg hp] at h
      rw [if_neg hp, flookup_cons, if_neg hp]
      exact ih h

theorem mem_updAssoc {l : List (Nat × RdFile)} {i : Nat} {f : RdFile}
    {q : Nat × RdFile} (h : q ∈ updAssoc l i f) :
    (q = (i, f)) ∨ (q ∈ l ∧ q.1 ≠ i) := by
  rcases List.mem_map.1 h with ⟨p, hp, he⟩
  by_cases hc : p.1 = i
  · left
    rw [← he, if_pos hc]
  · right
    rw [← he, if_neg hc]
    exact ⟨hp, hc⟩

/-! ## Basic lemmas about the handle table -/

theorem setFh_files (s : RState) (fd : Nat) (h : FHandle) :
    (setFh s fd h).files = s.files := rfl

theorem setFh_nextId (s : RState) (fd : Nat) (h : FHandle) :
    (setFh s fd h).nextId = s.nextId := rfl

theorem setNode_fh (s : RState) (i : Nat) (f : RdFile) :
    (setNode s i f).fh = s.fh := rfl

theorem setNode_nextId (s : RState) (i : Nat) (f : RdFile) :
    (setNode s i f).nextId = s.nextId := rfl

theorem getD_set_self {α : Type} {l : List α} {n : Nat} {a d : α}
    (h : n < l.length) : (l.set n a).getD n d = a := by
  induction l generalizing n with
  | nil => simp at h
  | cons x xs ih =>
    cases n with
    | zero => rfl
    | succ m =>
      simp only [List.set, List.getD_cons_succ]
      exact ih (by simpa using h)

theorem getD_set_ne {α : Type} {l : List α} {n m : Nat} {a d : α}
    (h : m ≠ n) : (l.set n a).getD m d = l.getD m d := by
  induction l generalizing n m with
  | nil => rfl
  | cons x xs ih =>
    cases n with
    | zero =>
      cases m with
      | zero => omega
      | succ k => rfl
    | succ j =>
      cases m with
      | zero => rfl
      | succ k =>
        simp only [List.set, List.getD_cons_succ]
        exact ih (by omega)

theorem fhGet_setFh_self {s : RState} {fd : Nat} (hlt : fd < s.fh.length)
    (x : FHandle) : fhGet (setFh s fd x) fd = x :=
  getD_set_self hlt

theorem fhGet_setFh_ne {s : RState} {fd fd' : Nat} (hne : fd' ≠ fd)
    (x : FHandle) : fhGet (setFh s fd x) fd' = fhGet s fd' :=
  getD_set_ne hne

theorem fhGet_setNode (s : RState) (i : Nat) (f : RdFile) (fd : Nat) :
    fhGet (setNode s i f) fd = fhGet s fd := rfl

theorem fhGet_mem {s : RState} {fd : Nat} (h : fd < s.fh.length) :
    fhGet s fd ∈ s.fh := by
  rw [fhGet, List.getD_eq_getElem s.fh default h]
  exact List.getElem_mem h

theorem countP_set {α : Type} (p : α → Bool) (l : List α) (n : Nat)
    (a d : α) (h : n < l.length) :
    (l.set n a).countP p + (if p (l.getD n d) then 1 else 0)
      = l.countP p + (if p a then 1 else 0) := by
  induction l generalizing n with
  | nil => simp at h
  | cons x xs ih =>
    cases n with
    | zero =>
      simp only [List.set, List.getD_cons_zero, List.countP_cons]
      omega
    | succ m =>
      have hm : m < xs.length := by simpa using h
      simp only [List.set, List.getD_cons_succ, List.countP_cons]
      have := ih m hm
      omega

theorem handleCount_setFh {s : RState} {fd : Nat} (hlt : fd < s.fh.length)
    (x : FHandle) (i : Nat) :
    handleCount (setFh s fd x) i +
      (if (fhGet s fd).file == some i then 1 else 0)
      = handleCount s i + (if x.file == some i then 1 else 0) := by
  simpa [handleCount, setFh, fhGet] using
    countP_set (fun h => h.file == some i) s.fh fd x default hlt

theorem handleCount_setNode (s : RState) (i : Nat) (f : RdFile) (j : Nat) :
    handleCount (setNode s i f) j = handleCount s j := rfl

/-! ## The exclusion protocol, derived from the invariant -/

theorem writerCount_le_handleCount (s : RState) (i : Nat) :
    writerCount s i ≤ handleCount s i := by
  apply List.countP_mono_left
  intro h _ hp
  simp only [Bool.and_eq_true] at hp
  exact hp.1

theorem handleCount_eq_zero_of_dead {s : RState} (hs : Inv s) {i : Nat}
    (hl : flookup s.files i = none) : handleCount s i = 0 := by
  apply List.countP_eq_zero.2
  intro h hm hp
  rcases hs.handles h hm i (by simpa using hp) with ⟨f, hf, _⟩
  rw [hl] at hf
  exact Option.noConfusion hf

/-- Exclusion as counted over the handle table: at most one writer handle
per node, and never a reader handle alongside a writer handle. -/
theorem exclusion_of_inv {s : RState} (hs : Inv s) (i : Nat) :
    writerCount s i ≤ 1 ∧ (1 ≤ writerCount s i → readerCount s i = 0) := by
  cases hl : flookup s.files i with
  | none =>
    have hz : handleCount s i = 0 := handleCount_eq_zero_of_dead hs hl
    constructor
    · exact le_trans (writerCount_le_handleCount s i) (by omega)
    · intro hw
      have := le_trans hw (le_trans (writerCount_le_handleCount s i) (le_of_eq hz))
      omega
  | some f =>
    have hmem : (i, f) ∈ s.files := flookup_mem hl
    have hu : f.usage = handleCount s i := hs.usage _ hmem
    obtain ⟨hcases, hiff, hone, hwr, hrd⟩ := hs.openfor _ hmem
    rcases hcases with h0 | h1 | h2
    · have hz : handleCount s i = 0 := hu ▸ (hiff.1 h0)
      constructor
      · exact le_trans (writerCount_le_handleCount s i) (by omega)
      · intro hw
        have := le_trans hw (le_trans (writerCount_le_handleCount s i) (le_of_eq hz))
        omega
    · have hwz : writerCount s i = 0 := by
        apply List.countP_eq_zero.2
        intro h hm hp
        simp only [Bool.and_eq_true] at hp
        obtain ⟨hfi, hrw⟩ := hp
        have := hrd h1 h hm (by simpa using hfi)
        simp [this] at hrw
      constructor
      · omega
      · intro hw
        omega
    · have hc1 : handleCount s i = 1 := hu ▸ (hone h2)
      constructor
      · exact le_trans (writerCount_le_handleCount s i) (le_of_eq hc1)
      · intro _
        apply List.countP_eq_zero.2
        intro h hm hp
        simp only [Bool.and_eq_true] at hp
        obtain ⟨hfi, hrw⟩ := hp
        have := hwr h2 h hm (by simpa using hfi)
        simp only [beq_iff_eq] at hrw
        exact this hrw

/-! ## Path resolution lemmas -/

theorem splitSegs_no_slash {p : List Char} (h : '/' ∉ p) :
    splitSegs p = [p] := by
  induction p with
  | nil => rfl
  | cons c rest ih =>
    have hc : ¬c = '/' := fun he => h (he ▸ List.mem_cons_self _ _)
    have hr : '/' ∉ rest := fun hm => h (List.mem_cons_of_mem _ hm)
    rw [splitSegs, if_neg hc, ih hr]

theorem lastSlashSplit_eq_none {p : List Char} :
    lastSlashSplit p = none ↔ '/' ∉ p := by
  induction p with
  | nil => simp [lastSlashSplit]
  | cons c rest ih =>
    rw [lastSlashSplit]
    cases hr : lastSlashSplit rest with
    | some q =>
      obtain ⟨p1, l1⟩ := q
      have hmem : '/' ∈ rest := by
        by_contra hno
        exact Option.noConfusion (hr ▸ ih.2 hno)
      simp [List.mem_cons, hmem]
    | none =>
      have hno : '/' ∉ rest := ih.1 hr
      by_cases hc : c = '/'
      · simp [hc]
      · simp [hc, List.mem_cons, hno, show ¬ ('/' = c) from fun h => hc h.symm]

theorem findInList_mem {s : RState} {cs : List Nat} {nm : List Char}
    {c : Nat} (h : findInList s cs nm = some c) :
    c ∈ cs ∧ ∃ g, flookup s.files c = some g ∧ lowName g.name = lowName nm := by
  induction cs with
  | nil => simp [findInList] at h
  | cons a rest ih =>
    rw [findInList] at h
    cases hl : flookup s.files a with
    | none =>
      simp only [hl] at h
      rcases ih h with ⟨hm, hg⟩
      exact ⟨List.mem_cons_of_mem _ hm, hg⟩
    | some g =>
      simp only [hl] at h
      by_cases hn : lowName g.name = lowName nm
      · rw [if_pos hn] at h
        have : a = c := by injection h
        subst this
        exact ⟨List.mem_cons_self _ _, g, hl, hn⟩
      · rw [if_neg hn] at h
        rcases ih h with ⟨hm, hg⟩
        exact ⟨List.mem_cons_of_mem _ hm, hg⟩

theorem findInList_eq_none {s : RState} {cs : List Nat} {nm : List Char} :
    findInList s cs nm = none ↔
      ∀ c ∈ cs, ∀ g, flookup s.files c = some g →
        lowName g.name ≠ lowName nm := by
  induction cs with
  | nil => simp [findInList]
  | cons a rest ih =>
    rw [findInList]
    cases hl : flookup s.files a with
    | none =>
      simp only [hl]
      rw [ih]
      constructor
      · intro hall c hc g hg
        rcases List.mem_cons.1 hc with rfl | hc
        · rw [hl] at hg
          exact absurd hg (by simp)
        · exact hall c hc g hg
      · intro hall c hc g hg
        exact hall c (List.mem_cons_of_mem _ hc) g hg
    | some g =>
      simp only [hl]
      by_cases hn : lowName g.name = lowName nm
      · rw [if_pos hn]
        simp only [reduceCtorEq, false_iff]
        intro hall
        exact hall a (List.mem_cons_self _ _) g hl hn
      · rw [if_neg hn, ih]
        constructor
        · intro hall c hc g' hg'
          rcases List.mem_cons.1 hc with rfl | hc
          · rw [hl] at hg'
            have : g = g' := by injection hg'
            exact this ▸ hn
          · exact hall c hc g' hg'
        · intro hall c hc g' hg'
          exact hall c (List.mem_cons_of_mem _ hc) g' hg'

theorem ramdisk_find_some {s : RState} {q : Nat} {nm : List Char} {c : Nat}
    (h : ramdisk_find s q nm = some c) :
    ∃ d, flookup s.files q = some d ∧ c ∈ d.children ∧
      ∃ g, flookup s.files c = some g ∧ lowName g.name = lowName nm := by
  rw [ramdisk_find] at h
  cases hl : flookup s.files q with
  | none => rw [hl] at h; exact Option.noConfusion h
  | some d =>
    rw [hl] at h
    rcases findInList_mem h with ⟨hm, hg⟩
    exact ⟨d, rfl, hm, hg⟩

/-- The part of a node that path resolution reads: name, kind, children. -/
def nview (f : RdFile) : List Char × Bool × List Nat := (f.name, f.isDir, f.children)

/-- Two states resolve paths identically when every id dereferences to nodes
with the same name, kind and children. -/
def SameView (s s' : RState) : Prop :=
  ∀ j, (flookup s'.files j).map nview = (flookup s.files j).map nview

theorem sameView_refl (s : RState) : SameView s s := fun _ => rfl

theorem sameView_trans {s1 s2 s3 : RState} (h12 : SameView s1 s2)
    (h23 : SameView s2 s3) : SameView s1 s3 :=
  fun j => (h23 j).trans (h12 j)

theorem sameView_setFh (s : RState) (fd : Nat) (h : FHandle) :
    SameView s (setFh s fd h) := fun _ => rfl

theorem sameView_setNode {s : RState} {i : Nat} {f f' : RdFile}
    (hl : flookup s.files i = some f) (hv : nview f' = nview f) :
    SameView s (setNode s i f') := by
  intro j
  by_cases hj : j = i
  · subst hj
    rw [setNode, flookup_updAssoc_self f' hl, hl]
    simp [hv]
  · rw [setNode, flookup_updAssoc_ne _ _ hj]

theorem sameView_lookup_none {s s' : RState} (h : SameView s s') {j : Nat}
    (hl : flookup s.files j = none) : flookup s'.files j = none := by
  have hsv := h j
  rw [hl] at hsv
  cases hv : flookup s'.files j with
  | none => rfl
  | some g =>
    rw [hv] at hsv
    simp at hsv

theorem sameView_lookup_some {s s' : RState} (h : SameView s s') {j : Nat}
    {f : RdFile} (hl : flookup s.files j = some f) :
    ∃ f', flookup s'.files j = some f' ∧ nview f' = nview f := by
  have hsv := h j
  rw [hl] at hsv
  cases hv : flookup s'.files j with
  | none =>
    rw [hv] at hsv
    simp at hsv
  | some g =>
    rw [hv] at hsv
    simp only [Option.map_some'] at hsv
    exact ⟨g, rfl, by injection hsv⟩

theorem nview_name {f g : RdFile} (h : nview f = nview g) : f.name = g.name := by
  simpa [nview] using congrArg Prod.fst h

theorem nview_isDir {f g : RdFile} (h : nview f = nview g) : f.isDir = g.isDir := by
  simpa [nview] using congrArg (fun x => x.2.1) h

theorem nview_children {f g : RdFile} (h : nview f = nview g) :
    f.children = g.children := by
  simpa [nview] using congrArg (fun x => x.2.2) h

theorem sameView_findInList {s s' : RState} (h : SameView s s')
    (cs : List Nat) (nm : List Char) :
    findInList s' cs nm = findInList s cs nm := by
  induction cs with
  | nil => rfl
  | cons a rest ih =>
    rw [findInList, findInList]
    cases hl : flookup s.files a with
    | none =>
      simp only [sameView_lookup_none h hl, ih]
    | some g =>
      rcases sameView_lookup_some h hl with ⟨g', hg', hv⟩
      simp only [hg', hl, nview_name hv, ih]

theorem sameView_find {s s' : RState} (h : SameView s s') (q : Nat)
    (nm : List Char) : ramdisk_find s' q nm = ramdisk_find s q nm := by
  rw [ramdisk_find, ramdisk_find]
  cases hl : flookup s.files q with
  | none => simp only [sameView_lookup_none h hl]
  | some d =>
    rcases sameView_lookup_some h hl with ⟨d', hd', hv⟩
    simp only [hd', hl, nview_children hv, sameView_findInList h]

theorem sameView_findPathLoop {s s' : RState} (h : SameView s s')
    (dirb : Bool) (segs : List (List Char)) :
    ∀ parent f0, findPathLoop s' dirb parent f0 segs
      = findPathLoop s dirb parent f0 segs := by
  induction segs with
  | nil => intro parent f0; rfl
  | cons seg rest ih =>
    intro parent f0
    cases rest with
    | nil =>
      rw [findPathLoop, findPathLoop]
      by_cases hseg : seg = []
      · rw [if_pos hseg, if_pos hseg]
      · rw [if_neg hseg, if_neg hseg, sameView_find h]
        cases hf : ramdisk_find s parent seg with
        | none => rfl
        | some g =>
          simp only
          cases hl : flookup s.files g with
          | none => simp only [sameView_lookup_none h hl]
          | some gf =>
            rcases sameView_lookup_some h hl with ⟨gf', hgf', hv⟩
            simp only [hgf', hl, nview_isDir hv]
    | cons r2 rrest =>
      rw [findPathLoop, findPathLoop]
      by_cases hseg : seg = []
      · rw [if_pos hseg, if_pos hseg, ih]
      · rw [if_neg hseg, if_neg hseg, sameView_find h]
        cases hf : ramdisk_find s parent seg with
        | none => rfl
        | some g =>
          simp only
          cases hl : flookup s.files g with
          | none => simp only [sameView_lookup_none h hl]
          | some gf =>
            rcases sameView_lookup_some h hl with ⟨gf', hgf', hv⟩
            simp only [hgf', hl, nview_isDir hv, ih]

theorem sameView_find_path {s s' : RState} (h : SameView s s')
    (parent : Nat) (fn : List Char) (dirb : Bool) :
    ramdisk_find_path s' parent fn dirb = ramdisk_find_path s parent fn dirb := by
  rw [ramdisk_find_path, ramdisk_find_path, sameView_findPathLoop h]

theorem sameView_get_parent {s s' : RState} (h : SameView s s')
    (parent : Nat) (fn : List Char) :
    ramdisk_get_parent s' parent fn = ramdisk_get_parent s parent fn := by
  rw [ramdisk_get_parent, ramdisk_get_parent]
  cases lastSlashSplit fn with
  | none => rfl
  | some q =>
    obtain ⟨pname, leaf⟩ := q
    simp only [sameView_find_path h]

/-- With the expected kind `false`, a successful resolution ends at a live
non-directory node that is somebody's child. -/
theorem findPathLoop_false_some {s : RState} {segs : List (List Char)} :
    ∀ {parent : Nat} {f0 : Option Nat} {i : Nat},
      findPathLoop s false parent f0 segs = some i →
      (∃ g, flookup s.files i = some g ∧ g.isDir = false) ∧
      (∃ q d, flookup s.files q = some d ∧ i ∈ d.children) := by
  induction segs with
  | nil => intro parent f0 i h; exact Option.noConfusion h
  | cons seg rest ih =>
    intro parent f0 i h
    cases rest with
    | nil =>
      rw [findPathLoop] at h
      by_cases hseg : seg = []
      · rw [if_pos hseg] at h
        exact Option.noConfusion h
      · rw [if_neg hseg] at h
        cases hf : ramdisk_find s parent seg with
        | none =>
          rw [hf] at h
          exact Option.noConfusion h
        | some g =>
          simp only [hf] at h
          cases hl : flookup s.files g with
          | none =>
            simp only [hl] at h
            exact Option.noConfusion h
          | some gf =>
            simp only [hl] at h
            by_cases hd : gf.isDir = true
            · simp [hd] at h
            · have hcond : ¬((¬false = true ∧ gf.isDir = true) ∨
                  (false = true ∧ ¬gf.isDir = true)) := by
                rintro (⟨_, hx⟩ | ⟨hx, _⟩)
                · exact hd hx
                · simp at hx
              rw [if_neg hcond] at h
              have hi : g = i := by injection h
              subst hi
              have hgd : gf.isDir = false := by simpa using hd
              rcases ramdisk_find_some hf with ⟨d, hq, hmem, _⟩
              exact ⟨⟨gf, hl, hgd⟩, parent, d, hq, hmem⟩
    | cons r2 rrest =>
      rw [findPathLoop] at h
      by_cases hseg : seg = []
      · rw [if_pos hseg] at h
        exact ih h
      · rw [if_neg hseg] at h
        cases hf : ramdisk_find s parent seg with
        | none =>
          rw [hf] at h
          exact Option.noConfusion h
        | some g =>
          simp only [hf] at h
          cases hl : flookup s.files g with
          | none =>
            simp only [hl] at h
            exact Option.noConfusion h
          | some gf =>
            simp only [hl] at h
            by_cases hd : gf.isDir = true
            · rw [if_pos hd] at h
              exact ih h
            · rw [if_neg hd] at h
              exact Option.noConfusion h

theorem find_path_false_some {s : RState} {fn : List Char} {i : Nat}
    (h : ramdisk_find_path s 0 fn false = some i) :
    (∃ g, flookup s.files i = some g ∧ g.isDir = false) ∧
    (∃ q d, flookup s.files q = some d ∧ i ∈ d.children) :=
  findPathLoop_false_some h

/-- Under the invariant, no path resolves as a directory: the only directory
is the root, which is in no sibling list. -/
theorem findPathLoop_true_none {s : RState} (hs : Inv s)
    (segs : List (List Char)) :
    ∀ parent, findPathLoop s true parent none segs = none := by
  induction segs with
  | nil => intro parent; rfl
  | cons seg rest ih =>
    intro parent
    cases rest with
    | nil =>
      rw [findPathLoop]
      by_cases hseg : seg = []
      · rw [if_pos hseg]
        rfl
      · rw [if_neg hseg]
        cases hf : ramdisk_find s parent seg with
        | none => rfl
        | some g =>
          simp only
          rcases ramdisk_find_some hf with ⟨d, hdl, hmem, g', hgl, _⟩
          have hg0 : g ≠ 0 :=
            fun he => (hs.children _ (flookup_mem hdl)).1 (he ▸ hmem)
          have hgd : g'.isDir = false := hs.onlyRootDir _ (flookup_mem hgl) hg0
          simp only [hgl]
          rw [if_pos (by simp [hgd])]
    | cons r2 rrest =>
      rw [findPathLoop]
      by_cases hseg : seg = []
      · rw [if_pos hseg]
        exact ih parent
      · rw [if_neg hseg]
        cases hf : ramdisk_find s parent seg with
        | none => rfl
        | some g =>
          simp only
          rcases ramdisk_find_some hf with ⟨d, hdl, hmem, g', hgl, _⟩
          have hg0 : g ≠ 0 :=
            fun he => (hs.children _ (flookup_mem hdl)).1 (he ▸ hmem)
          have hgd : g'.isDir = false := hs.onlyRootDir _ (flookup_mem hgl) hg0
          simp only [hgl, hgd]
          rw [if_neg (by simp)]

theorem find_path_true_none {s : RState} (hs : Inv s) (fn : List Char) :
    ramdisk_find_path s 0 fn true = none := by
  rw [ramdisk_find_path]
  exact findPathLoop_true_none hs _ 0

/-- Under the invariant, a successful parent split must be the trivial one:
the starting directory itself with the whole name as leaf. -/
theorem get_parent_inv {s : RState} (hs : Inv s) {fn : List Char}
    {pd : Nat} {leaf : List Char}
    (h : ramdisk_get_parent s 0 fn = some (pd, leaf)) :
    pd = 0 ∧ leaf = fn ∧ '/' ∉ fn := by
  rw [ramdisk_get_parent] at h
  cases hls : lastSlashSplit fn with
  | none =>
    simp only [hls] at h
    obtain ⟨h1, h2⟩ : pd = 0 ∧ leaf = fn := by
      have := h.symm
      injection this with hq
      exact ⟨congrArg Prod.fst hq, congrArg Prod.snd hq⟩
    exact ⟨h1, h2, lastSlashSplit_eq_none.1 hls⟩
  | some q =>
    obtain ⟨pname, lf⟩ := q
    simp only [hls, find_path_true_none hs] at h
    exact Option.noConfusion h

/-- Resolution of a slash-free name with expected kind `false`, unfolded. -/
theorem find_path_single (s : RState) {fn : List Char} (hne : fn ≠ [])
    (hsl : '/' ∉ fn) :
    ramdisk_find_path s 0 fn false =
      match ramdisk_find s 0 fn with
      | none => none
      | some g =>
        match flookup s.files g with
        | none => none
        | some gf => if gf.isDir = true then none else some g := by
  rw [ramdisk_find_path, splitSegs_no_slash hsl, findPathLoop, if_neg hne]
  cases hf : ramdisk_find s 0 fn with
  | none => rfl
  | some g =>
    simp only
    cases hl : flookup s.files g with
    | none => rfl
    | some gf =>
      simp only
      by_cases hd : gf.isDir = true
      · rw [if_pos (Or.inl ⟨by simp, hd⟩), if_pos hd]
      · rw [if_neg (by rintro (⟨_, hx⟩ | ⟨hx, _⟩); exacts [hd hx, by simp at hx]),
          if_neg hd]

/-- Under the invariant, a failed slash-free file resolution means the name
is simply absent from the root directory. -/
theorem find_none_of_find_path_none {s : RState} (hs : Inv s)
    {fn : List Char} (hne : fn ≠ []) (hsl : '/' ∉ fn)
    (h : ramdisk_find_path s 0 fn false = none) :
    ramdisk_find s 0 fn = none := by
  rw [find_path_single s hne hsl] at h
  cases hf : ramdisk_find s 0 fn with
  | none => rfl
  | some g =>
    simp only [hf] at h
    rcases ramdisk_find_some hf with ⟨d, hdl, hmem, g', hgl, _⟩
    have hg0 : g ≠ 0 := fun he => (hs.children _ (flookup_mem hdl)).1 (he ▸ hmem)
    have hgd : g'.isDir = false := hs.onlyRootDir _ (flookup_mem hgl) hg0
    simp only [hgl, hgd] at h
    simp at h

/-- The node `ramdisk_create_file` allocates for a file. -/
def mkNewFile (leaf : List Char) : RdFile :=
  { name := leaf, size := 0, isDir := false, openfor := OPENFOR_NOTHING,
    usage := 0, data := List.replicate 1024 0, datasize := 1024,
    children := [] }

/-- Everything the rest of the development needs about a successful
`ramdisk_create_file` performed from an invariant state after a failed
resolution: the new node's id and contents, its link at the head of the root
directory, its resolvability, the untouched remainder of the state, and the
preservation of the invariant. -/
theorem create_file_spec {s : RState} (hs : Inv s) {fn : List Char}
    (hne : fn ≠ []) (hnf : ramdisk_find_path s 0 fn false = none)
    {j : Nat} {s' : RState}
    (hc : ramdisk_create_file s 0 fn false = some (j, s')) :
    j = s.nextId ∧ s'.fh = s.fh ∧ s'.nextId = s.nextId + 1 ∧
    flookup s'.files j = some (mkNewFile fn) ∧
    (∃ r r', flookup s.files 0 = some r ∧ flookup s'.files 0 = some r' ∧
      r'.children = j :: r.children) ∧
    ramdisk_find_path s' 0 fn false = some j ∧
    (∀ k, k ≠ j → k ≠ 0 → flookup s'.files k = flookup s.files k) ∧
    Inv s' := by
  obtain ⟨r, hr, hrd⟩ := hs.root
  rw [ramdisk_create_file] at hc
  cases hgp : ramdisk_get_parent s 0 fn with
  | none =>
    rw [hgp] at hc
    exact Option.noConfusion hc
  | some q =>
    obtain ⟨pd, leaf⟩ := q
    obtain ⟨hpd, hleaf, hsl⟩ := get_parent_inv hs hgp
    subst hpd
    subst leaf
    simp only [hgp, hr] at hc
    simp only [Option.some.injEq, Prod.mk.injEq] at hc
    obtain ⟨hj, hs'⟩ := hc
    -- abbreviations
    set N := s.nextId with hN
    have hj' : j = N := hj.symm
    subst hj'
    have hkeylt : ∀ p ∈ s.files, p.1 < N := hs.keys.2
    have hN0 : N ≠ 0 := by
      have := hkeylt _ (flookup_mem hr)
      omega
    have hNnotkey : flookup s.files N = none := by
      apply flookup_eq_none
      intro hmem
      rcases List.mem_map.1 hmem with ⟨p, hp, hpe⟩
      have := hkeylt p hp
      omega
    -- the new node and the updated root
    have hnfile : ({ name := fn, size := 0, isDir := false, openfor := OPENFOR_NOTHING, usage := 0, data := if false = true then [] else List.replicate 1024 0, datasize := if false = true then 0 else 1024, children := [] } : RdFile) = mkNewFile fn := rfl
    rw [hnfile] at hs'
    set r' : RdFile := { r with children := N :: r.children } with hr'def
    have hfileseq : s'.files = (N, mkNewFile fn) :: updAssoc s.files 0 r' := by
      rw [← hs']
    have hfh : s'.fh = s.fh := by rw [← hs']
    have hnext : s'.nextId = N + 1 := by rw [← hs']
    -- lookups in the successor state
    have hlookN : flookup s'.files N = some (mkNewFile fn) := by
      rw [hfileseq, flookup_cons, if_pos rfl]
    have hlook0 : flookup s'.files 0 = some r' := by
      rw [hfileseq, flookup_cons, if_neg hN0, flookup_updAssoc_self r' hr]
    have hlookk : ∀ k, k ≠ N → k ≠ 0 → flookup s'.files k = flookup s.files k := by
      intro k hkN hk0
      rw [hfileseq, flookup_cons, if_neg (fun he => hkN he.symm),
        flookup_updAssoc_ne _ _ (fun he => hk0 he)]
    have hmem' : ∀ p ∈ s'.files,
        p = (N, mkNewFile fn) ∨ p = (0, r') ∨ (p ∈ s.files ∧ p.1 ≠ 0) := by
      intro p hp
      rw [hfileseq] at hp
      rcases List.mem_cons.1 hp with hp | hp
      · exact Or.inl hp
      · rcases mem_updAssoc hp with hp | hp
        · exact Or.inr (Or.inl hp)
        · exact Or.inr (Or.inr hp)
    -- children of old nodes are live non-root ids below the counter
    have hchildold : ∀ p ∈ s.files, ∀ c ∈ p.2.children, c ≠ N ∧ c ≠ 0 := by
      intro p hp c hc
      obtain ⟨h0, hv, _⟩ := hs.children p hp
      constructor
      · intro he
        have := hv c hc
        rw [he, hNnotkey] at this
        simp at this
      · intro he
        exact h0 (he ▸ hc)
    have hfind : ramdisk_find s 0 fn = none :=
      find_none_of_find_path_none hs hne hsl hnf
    have hfindIn : findInList s r.children fn = none := by
      rw [ramdisk_find, hr] at hfind
      exact hfind
    -- resolvability of the new node
    have hfind' : ramdisk_find_path s' 0 fn false = some N := by
      have hstep : findInList s' r'.children fn = some N := by
        show findInList s' (N :: r.children) fn = some N
        rw [findInList]
        simp only [hlookN]
        rw [if_pos (show lowName (mkNewFile fn).name = lowName fn from rfl)]
      rw [find_path_single s' hne hsl, ramdisk_find]
      simp only [hlook0, hstep, hlookN]
      rfl
    refine ⟨rfl, hfh, hnext, hlookN, ⟨r, r', hr, hlook0, rfl⟩, hfind', hlookk, ?_⟩
    -- the invariant for the successor state
    have hcount_eq : ∀ i, handleCount s' i = handleCount s i := by
      intro i
      rw [handleCount, handleCount, hfh]
    have hfhget : ∀ fd, fhGet s' fd = fhGet s fd := by
      intro fd
      rw [fhGet, fhGet, hfh]
    have hnoHandleN : handleCount s N = 0 := by
      apply List.countP_eq_zero.2
      intro h hm hp
      simp only [beq_iff_eq] at hp
      rcases hs.handles h hm N hp with ⟨f, hf, _⟩
      rw [hNnotkey] at hf
      exact Option.noConfusion hf
    constructor
    case root =>
      exact ⟨r', hlook0, hrd⟩
    case onlyRootDir =>
      intro p hp hp0
      rcases hmem' p hp with rfl | rfl | ⟨hp, _⟩
      · rfl
      · simp at hp0
      · exact hs.onlyRootDir p hp hp0
    case keys =>
      constructor
      · rw [hfileseq]
        simp only [List.map_cons, updAssoc_map_fst, List.nodup_cons]
        refine ⟨?_, hs.keys.1⟩
        intro hmem
        rcases List.mem_map.1 hmem with ⟨p, hp, hpe⟩
        have := hkeylt p hp
        omega
      · intro p hp
        rw [hnext]
        rcases hmem' p hp with rfl | rfl | ⟨hp, _⟩
        · simp
        · omega
        · have := hkeylt p hp
          omega
    case table =>
      obtain ⟨hlen, h0⟩ := hs.table
      exact ⟨by rw [hfh]; exact hlen, by rw [hfhget]; exact h0⟩
    case handles =>
      intro h hm i hfi
      rw [hfh] at hm
      rcases hs.handles h hm i hfi with ⟨f, hf, hdir⟩
      have hiN : i ≠ N := by
        intro he
        rw [he, hNnotkey] at hf
        exact Option.noConfusion hf
      by_cases hi0 : i = 0
      · subst hi0
        refine ⟨r', hlook0, ?_⟩
        have hfr : f = r := by
          rw [hr] at hf
          injection hf with hv
          exact hv.symm
        rw [hdir, hfr]
      · exact ⟨f, by rw [hlookk i hiN hi0]; exact hf, hdir⟩
    case children =>
      intro p hp
      rcases hmem' p hp with rfl | rfl | ⟨hp, hp0⟩
      · refine ⟨?_, ?_, ?_⟩
        · show (0 : Nat) ∉ ([] : List Nat)
          simp
        · intro c hc
          exact absurd hc (List.not_mem_nil c)
        · exact List.nodup_nil
      · obtain ⟨h0, hv, hnd⟩ := hs.children _ (flookup_mem hr)
        refine ⟨?_, ?_, ?_⟩
        · show (0 : Nat) ∉ N :: r.children
          intro hmem
          rcases List.mem_cons.1 hmem with he | hmem
          · exact hN0 he.symm
          · exact h0 hmem
        · show ∀ c ∈ N :: r.children, (flookup s'.files c).isSome
          intro c hc
          rcases List.mem_cons.1 hc with rfl | hc
          · rw [hlookN]; rfl
          · obtain ⟨hcN, hc0⟩ := hchildold _ (flookup_mem hr) c hc
            rw [hlookk c hcN hc0]
            exact hv c hc
        · show (N :: r.children).Nodup
          rw [List.nodup_cons]
          refine ⟨?_, hnd⟩
          intro hmem
          exact (hchildold _ (flookup_mem hr) N hmem).1 rfl
      · obtain ⟨h0, hv, hnd⟩ := hs.children p hp
        refine ⟨h0, ?_, hnd⟩
        intro c hc
        obtain ⟨hcN, hc0⟩ := hchildold p hp c hc
        rw [hlookk c hcN hc0]
        exact hv c hc
    case names =>
      intro p hp
      rcases hmem' p hp with rfl | rfl | ⟨hp, hp0⟩
      · exact List.nodup_nil
      · show (List.filterMap _ (N :: r.children)).Nodup
        rw [List.filterMap_cons]
        simp only [hlookN, Option.map_some']
        have hcongr : ∀ c ∈ r.children,
            (flookup s'.files c).map (fun g => lowName g.name)
              = (flookup s.files c).map (fun g => lowName g.name) := by
          intro c hc
          obtain ⟨hcN, hc0⟩ := hchildold _ (flookup_mem hr) c hc
          rw [hlookk c hcN hc0]
        rw [List.filterMap_congr hcongr]
        rw [List.nodup_cons]
        constructor
        · intro hmem
          rcases List.mem_filterMap.1 hmem with ⟨c, hc, hcl⟩
          cases hcc : flookup s.files c with
          | none => rw [hcc] at hcl; exact Option.noConfusion hcl
          | some g =>
            rw [hcc] at hcl
            simp only [Option.map_some', Option.some.injEq] at hcl
            have := findInList_eq_none.1 hfindIn c hc g hcc
            exact this hcl
        · exact hs.names _ (flookup_mem hr)
      · obtain hnd := hs.names p hp
        have hcongr : ∀ c ∈ p.2.children,
            (flookup s'.files c).map (fun g => lowName g.name)
              = (flookup s.files c).map (fun g => lowName g.name) := by
          intro c hc
          obtain ⟨hcN, hc0⟩ := hchildold p hp c hc
          rw [hlookk c hcN hc0]
        show (List.filterMap _ p.2.children).Nodup
        rw [List.filterMap_congr hcongr]
        exact hnd
    case usage =>
      intro p hp
      rw [hcount_eq]
      rcases hmem' p hp with rfl | rfl | ⟨hp, _⟩
      · exact hnoHandleN.symm
      · exact hs.usage (0, r) (flookup_mem hr)
      · exact hs.usage p hp
    case openfor =>
      intro p hp
      rcases hmem' p hp with rfl | rfl | ⟨hp, _⟩
      · refine ⟨Or.inl rfl, iff_of_true rfl rfl, ?_, ?_, ?_⟩
        · intro hw
          exact absurd (show (0 : Nat) = 2 from hw) (by decide)
        · intro hw
          exact absurd (show (0 : Nat) = 2 from hw) (by decide)
        · intro hw
          exact absurd (show (0 : Nat) = 1 from hw) (by decide)
      · obtain ⟨hc1, hc2, hc3, hc4, hc5⟩ := hs.openfor (0, r) (flookup_mem hr)
        refine ⟨hc1, hc2, hc3, ?_, ?_⟩
        · intro hw h hm hfi
          rw [hfh] at hm
          exact hc4 hw h hm hfi
        · intro hw h hm hfi
          rw [hfh] at hm
          exact hc5 hw h hm hfi
      · obtain ⟨hc1, hc2, hc3, hc4, hc5⟩ := hs.openfor p hp
        refine ⟨hc1, hc2, hc3, ?_, ?_⟩
        · intro hw h hm hfi
          rw [hfh] at hm
          exact hc4 hw h hm hfi
        · intro hw h hm hfi
          rw [hfh] at hm
          exact hc5 hw h hm hfi
    case cap =>
      intro p hp hpd
      rcases hmem' p hp with rfl | rfl | ⟨hp, _⟩
      · exact Nat.zero_le _
      · have hpd' : r.isDir = false := hpd
        rw [hrd] at hpd'
        exact absurd hpd' (by decide)
      · exact hs.cap p hp hpd

/-! ## Generic invariant preservation lemmas -/

theorem handleCount_setFh_same_file {s : RState} {fd : Nat} {x : FHandle}
    (hlt : fd < s.fh.length) (hf : x.file = (fhGet s fd).file) (i : Nat) :
    handleCount (setFh s fd x) i = handleCount s i := by
  have h := handleCount_setFh hlt x i
  rw [hf] at h
  omega

theorem handleCount_pos_of_mem {s : RState} {h : FHandle} {i : Nat}
    (hm : h ∈ s.fh) (hf : h.file = some i) : 1 ≤ handleCount s i := by
  rw [handleCount]
  have : 0 < s.fh.countP (fun h => h.file == some i) :=
    List.countP_pos_iff.2 ⟨h, hm, by simp [hf]⟩
  omega

/-- Rewriting a handle slot without changing its `file`, `dir` and `omode`
fields (cursor movement, scratch dirent updates) preserves the invariant. -/
theorem inv_setFh_inert {s : RState} (hs : Inv s) {fd : Nat} {x : FHandle}
    (hlt : fd < s.fh.length)
    (hf : x.file = (fhGet s fd).file) (hd : x.dir = (fhGet s fd).dir)
    (hm : x.omode = (fhGet s fd).omode) : Inv (setFh s fd x) := by
  have hmem : ∀ h ∈ (setFh s fd x).fh, h ∈ s.fh ∨ h = x := by
    intro h hh
    exact List.mem_or_eq_of_mem_set hh
  have hcnt : ∀ i, handleCount (setFh s fd x) i = handleCount s i :=
    handleCount_setFh_same_file hlt hf
  constructor
  case root => exact hs.root
  case onlyRootDir => exact hs.onlyRootDir
  case keys => exact hs.keys
  case table =>
    obtain ⟨hlen, h0⟩ := hs.table
    constructor
    · rw [setFh, ← hlen]
      exact List.length_set s.fh fd x
    · by_cases h0fd : (0 : Nat) = fd
      · subst h0fd
        rw [fhGet_setFh_self hlt, hf]
        exact h0
      · rw [fhGet_setFh_ne h0fd]
        exact h0
  case handles =>
    intro h hh i hfi
    rcases hmem h hh with hh | rfl
    · exact hs.handles h hh i hfi
    · rw [hf] at hfi
      rcases hs.handles _ (fhGet_mem hlt) i hfi with ⟨f, hfl, hdir⟩
      exact ⟨f, hfl, by rw [hd, hdir]⟩
  case children => exact hs.children
  case names => exact hs.names
  case usage =>
    intro p hp
    rw [hcnt]
    exact hs.usage p hp
  case openfor =>
    intro p hp
    obtain ⟨hc1, hc2, hc3, hc4, hc5⟩ := hs.openfor p hp
    refine ⟨hc1, hc2, hc3, ?_, ?_⟩
    · intro hw h hh hfi
      rcases hmem h hh with hh | rfl
      · exact hc4 hw h hh hfi
      · rw [hm]
        exact hc4 hw _ (fhGet_mem hlt) (by rw [← hf]; exact hfi)
    · intro hw h hh hfi
      rcases hmem h hh with hh | rfl
      · exact hc5 hw h hh hfi
      · rw [hm]
        exact hc5 hw _ (fhGet_mem hlt) (by rw [← hf]; exact hfi)
  case cap => exact hs.cap

theorem flookup_updAssoc_isSome (l : List (Nat × RdFile)) (i : Nat)
    (f : RdFile) (j : Nat) :
    (flookup (updAssoc l i f) j).isSome = (flookup l j).isSome := by
  by_cases hj : j = i
  · subst hj
    cases hl : flookup l j with
    | none =>
      have hnone : flookup (updAssoc l j f) j = none := by
        apply flookup_eq_none
        rw [updAssoc_map_fst]
        intro hmem
        rw [← flookup_isSome, hl] at hmem
        exact Bool.noConfusion hmem
      rw [hnone]
    | some g =>
      rw [flookup_updAssoc_self f hl]
      rfl
  · rw [flookup_updAssoc_ne _ _ hj]

/-- Rewriting a node's content fields (`data`, `datasize`, `size`) without
touching its name, kind, children, lock or usage count preserves the
invariant, provided the new size respects the new capacity. -/
theorem inv_setNode_content {s : RState} (hs : Inv s) {i : Nat} {f f' : RdFile}
    (hl : flookup s.files i = some f)
    (hname : f'.name = f.name) (hdir : f'.isDir = f.isDir)
    (hch : f'.children = f.children) (hof : f'.openfor = f.openfor)
    (hus : f'.usage = f.usage)
    (hcap : f'.isDir = false → f'.size ≤ f'.datasize) :
    Inv (setNode s i f') := by
  have hmem' : ∀ p ∈ (setNode s i f').files,
      p = (i, f') ∨ (p ∈ s.files ∧ p.1 ≠ i) := by
    intro p hp
    exact mem_updAssoc hp
  have hlook : ∀ j, j ≠ i →
      flookup (setNode s i f').files j = flookup s.files j := by
    intro j hj
    exact flookup_updAssoc_ne _ _ hj
  have hlooki : flookup (setNode s i f').files i = some f' :=
    flookup_updAssoc_self f' hl
  have hsome : ∀ j, (flookup (setNode s i f').files j).isSome
      = (flookup s.files j).isSome :=
    flookup_updAssoc_isSome s.files i f'
  have hnamesame : ∀ j, (flookup (setNode s i f').files j).map (fun g => lowName g.name)
      = (flookup s.files j).map (fun g => lowName g.name) := by
    intro j
    by_cases hj : j = i
    · subst hj
      rw [hlooki, hl]
      simp [hname]
    · rw [hlook j hj]
  constructor
  case root =>
    obtain ⟨r, hr, hrd⟩ := hs.root
    by_cases hi : (0 : Nat) = i
    · subst hi
      refine ⟨f', hlooki, ?_⟩
      have : f = r := by rw [hl] at hr; injection hr
      rw [hdir, this, hrd]
    · exact ⟨r, by rw [hlook 0 hi]; exact hr, hrd⟩
  case onlyRootDir =>
    intro p hp hp0
    rcases hmem' p hp with rfl | ⟨hp, _⟩
    · rw [hdir]
      exact hs.onlyRootDir (i, f) (flookup_mem hl) hp0
    · exact hs.onlyRootDir p hp hp0
  case keys =>
    obtain ⟨hnd, hb⟩ := hs.keys
    constructor
    · rw [setNode, updAssoc_map_fst]
      exact hnd
    · intro p hp
      rcases hmem' p hp with rfl | ⟨hp, _⟩
      · exact hb (i, f) (flookup_mem hl)
      · exact hb p hp
  case table => exact hs.table
  case handles =>
    intro h hh j hfj
    rcases hs.handles h hh j hfj with ⟨g, hg, hdg⟩
    by_cases hj : j = i
    · subst hj
      refine ⟨f', hlooki, ?_⟩
      have hgf : g = f := by
        rw [hl] at hg
        injection hg with hv
        exact hv.symm
      rw [hdg, hgf, hdir]
    · exact ⟨g, by rw [hlook j hj]; exact hg, hdg⟩
  case children =>
    intro p hp
    rcases hmem' p hp with rfl | ⟨hp, _⟩
    · obtain ⟨h0, hv, hnd⟩ := hs.children (i, f) (flookup_mem hl)
      rw [show ((i, f') : Nat × RdFile).2.children = f.children from hch]
      refine ⟨h0, ?_, hnd⟩
      intro c hc
      rw [hsome]
      exact hv c hc
    · obtain ⟨h0, hv, hnd⟩ := hs.children p hp
      refine ⟨h0, ?_, hnd⟩
      intro c hc
      rw [hsome]
      exact hv c hc
  case names =>
    intro p hp
    have hcong : ∀ (ch : List Nat),
        (ch.filterMap (fun c => (flookup (setNode s i f').files c).map
          (fun g => lowName g.name)))
        = ch.filterMap (fun c => (flookup s.files c).map (fun g => lowName g.name)) := by
      intro ch
      apply List.filterMap_congr
      intro c _
      exact hnamesame c
    rcases hmem' p hp with rfl | ⟨hp, _⟩
    · show (List.filterMap _ f'.children).Nodup
      rw [hcong, hch]
      exact hs.names (i, f) (flookup_mem hl)
    · show (List.filterMap _ p.2.children).Nodup
      rw [hcong]
      exact hs.names p hp
  case usage =>
    intro p hp
    rcases hmem' p hp with rfl | ⟨hp, _⟩
    · rw [show ((i, f') : Nat × RdFile).2.usage = f.usage from hus]
      exact hs.usage (i, f) (flookup_mem hl)
    · exact hs.usage p hp
  case openfor =>
    intro p hp
    rcases hmem' p hp with rfl | ⟨hp, _⟩
    · obtain ⟨hc1, hc2, hc3, hc4, hc5⟩ := hs.openfor (i, f) (flookup_mem hl)
      rw [show ((i, f') : Nat × RdFile).2.openfor = f.openfor from hof,
        show ((i, f') : Nat × RdFile).2.usage = f.usage from hus]
      exact ⟨hc1, hc2, hc3, hc4, hc5⟩
    · exact hs.openfor p hp
  case cap =>
    intro p hp hpd
    rcases hmem' p hp with rfl | ⟨hp, _⟩
    · exact hcap hpd
    · exact hs.cap p hp hpd

theorem flookup_removeNode_self (s : RState) (i : Nat) :
    flookup (removeNode s i).files i = none := by
  apply flookup_eq_none
  intro hmem
  rcases List.mem_map.1 hmem with ⟨p, hp, hpe⟩
  rcases List.mem_map.1 hp with ⟨q, hq, hqe⟩
  have hqi := (List.mem_filter.1 hq).2
  simp only [bne_iff_ne, ne_eq] at hqi
  apply hqi
  have hq1 : q.1 = p.1 := by rw [← hqe]
  rw [hq1, hpe]

theorem flookup_removeNode_ne (s : RState) {i j : Nat} (hj : j ≠ i) :
    flookup (removeNode s i).files j
      = (flookup s.files j).map
          (fun g => { g with children := g.children.erase i }) := by
  show flookup ((s.files.filter (fun p => p.1 != i)).map
      (fun p => (p.1, { p.2 with children := p.2.children.erase i }))) j = _
  induction s.files with
  | nil => rfl
  | cons p ps ih =>
    by_cases hpi : p.1 = i
    · have hfil : List.filter (fun p => p.1 != i) (p :: ps)
          = List.filter (fun p => p.1 != i) ps := by
        rw [List.filter_cons, if_neg (by simp [hpi])]
      rw [hfil, ih, flookup_cons,
        if_neg (fun he => hj ((hpi.symm.trans he).symm))]
    · have hfil : List.filter (fun p => p.1 != i) (p :: ps)
          = p :: List.filter (fun p => p.1 != i) ps := by
        rw [List.filter_cons, if_pos (by simp [hpi])]
      rw [hfil, List.map_cons, flookup_cons, flookup_cons]
      by_cases hpj : p.1 = j
      · rw [if_pos hpj, if_pos hpj]
        rfl
      · rw [if_neg hpj, if_neg hpj, ih]

theorem removeNode_fh (s : RState) (i : Nat) : (removeNode s i).fh = s.fh := rfl

theorem removeNode_mem {s : RState} {i : Nat} {p : Nat × RdFile}
    (hp : p ∈ (removeNode s i).files) :
    ∃ q ∈ s.files, q.1 ≠ i ∧
      p = (q.1, { q.2 with children := q.2.children.erase i }) := by
  rcases List.mem_map.1 hp with ⟨q, hq, hqe⟩
  rcases List.mem_filter.1 hq with ⟨hqm, hqi⟩
  simp only [bne_iff_ne, ne_eq] at hqi
  exact ⟨q, hqm, hqi, hqe.symm⟩

/-- Removing an unused non-root node preserves the invariant. -/
theorem inv_removeNode {s : RState} (hs : Inv s) {i : Nat} {f : RdFile}
    (hl : flookup s.files i = some f) (hi0 : i ≠ 0) (hus : f.usage = 0) :
    Inv (removeNode s i) := by
  have hnohandle : ∀ h ∈ s.fh, h.file ≠ some i := by
    intro h hm hf
    have h1 := handleCount_pos_of_mem hm hf
    have h2 : f.usage = handleCount s i := hs.usage (i, f) (flookup_mem hl)
    omega
  have hsome : ∀ j, j ≠ i → (flookup s.files j).isSome →
      (flookup (removeNode s i).files j).isSome := by
    intro j hj hjs
    rw [flookup_removeNode_ne s hj]
    cases hx : flookup s.files j with
    | none =>
      rw [hx] at hjs
      exact Bool.noConfusion hjs
    | some g => rfl
  constructor
  case root =>
    obtain ⟨r, hr, hrd⟩ := hs.root
    refine ⟨{ r with children := r.children.erase i }, ?_, hrd⟩
    rw [flookup_removeNode_ne s (fun he => hi0 he.symm), hr]
    rfl
  case onlyRootDir =>
    intro p hp hp0
    rcases removeNode_mem hp with ⟨q, hq, hqi, rfl⟩
    exact hs.onlyRootDir q hq hp0
  case keys =>
    obtain ⟨hnd, hb⟩ := hs.keys
    constructor
    · show ((s.files.filter _).map _).map Prod.fst |>.Nodup
      have : (((s.files.filter (fun p => p.1 != i)).map
          (fun p => (p.1, { p.2 with children := p.2.children.erase i }))).map Prod.fst)
          = (s.files.filter (fun p => p.1 != i)).map Prod.fst := by
        rw [List.map_map]
        rfl
      rw [this]
      have hsub : (s.files.filter (fun p => p.1 != i)).map Prod.fst
          |>.Sublist (s.files.map Prod.fst) :=
        (List.filter_sublist _).map Prod.fst
      exact hnd.sublist hsub
    · intro p hp
      rcases removeNode_mem hp with ⟨q, hq, hqi, rfl⟩
      exact hb q hq
  case table => exact hs.table
  case handles =>
    intro h hm j hfj
    rw [removeNode_fh] at hm
    rcases hs.handles h hm j hfj with ⟨g, hg, hdg⟩
    have hji : j ≠ i := by
      intro he
      exact hnohandle h hm (he ▸ hfj)
    refine ⟨{ g with children := g.children.erase i }, ?_, hdg⟩
    rw [flookup_removeNode_ne s hji, hg]
    rfl
  case children =>
    intro p hp
    rcases removeNode_mem hp with ⟨q, hq, hqi, rfl⟩
    obtain ⟨h0, hv, hnd⟩ := hs.children q hq
    refine ⟨?_, ?_, ?_⟩
    · show (0 : Nat) ∉ q.2.children.erase i
      intro hmem
      exact h0 (List.mem_of_mem_erase hmem)
    · intro c hc
      have hcm := List.mem_of_mem_erase hc
      have hci : c ≠ i := (List.Nodup.mem_erase_iff hnd).1 hc |>.1
      exact hsome c hci (hv c hcm)
    · exact hnd.erase i
  case names =>
    intro p hp
    rcases removeNode_mem hp with ⟨q, hq, hqi, rfl⟩
    have hnd := hs.names q hq
    obtain ⟨h0, hv, hcnd⟩ := hs.children q hq
    have hcong : ∀ c ∈ q.2.children.erase i,
        (flookup (removeNode s i).files c).map (fun g => lowName g.name)
          = (flookup s.files c).map (fun g => lowName g.name) := by
      intro c hc
      have hci : c ≠ i := (List.Nodup.mem_erase_iff hcnd).1 hc |>.1
      rw [flookup_removeNode_ne s hci]
      cases hx : flookup s.files c with
      | none => rfl
      | some g => rfl
    show (List.filterMap _ (q.2.children.erase i)).Nodup
    rw [List.filterMap_congr hcong]
    have hsub : (q.2.children.erase i).filterMap
        (fun c => (flookup s.files c).map (fun g => lowName g.name))
        |>.Sublist (q.2.children.filterMap
        (fun c => (flookup s.files c).map (fun g => lowName g.name))) :=
      (q.2.children.erase_sublist i).filterMap _
    exact hnd.sublist hsub
  case usage =>
    intro p hp
    rcases removeNode_mem hp with ⟨q, hq, hqi, rfl⟩
    exact hs.usage q hq
  case openfor =>
    intro p hp
    rcases removeNode_mem hp with ⟨q, hq, hqi, rfl⟩
    obtain ⟨hc1, hc2, hc3, hc4, hc5⟩ := hs.openfor q hq
    exact ⟨hc1, hc2, hc3, hc4, hc5⟩
  case cap =>
    intro p hp hpd
    rcases removeNode_mem hp with ⟨q, hq, hqi, rfl⟩
    exact hs.cap q hq hpd

theorem findFreeFd_spec {s : RState} {fd : Nat}
    (h : findFreeFd s = some fd) :
    1 ≤ fd ∧ fd < FS_RAMDISK_MAX_FILES ∧ (fhGet s fd).file = none := by
  have hp := List.find?_some h
  have hm := List.mem_of_find?_eq_some h
  rw [List.mem_range'_1] at hm
  refine ⟨hm.1, ?_, ?_⟩
  · have h2 := hm.2
    have : 1 ≤ FS_RAMDISK_MAX_FILES := by decide
    omega
  · simpa [Option.isNone_iff_eq_none] using hp

/-- Rewriting a free slot into a free slot preserves the invariant whatever
else changes in the slot. -/
theorem inv_setFh_free {s : RState} (hs : Inv s) {fd : Nat} {x : FHandle}
    (hlt : fd < s.fh.length)
    (hold : (fhGet s fd).file = none) (hx : x.file = none) :
    Inv (setFh s fd x) := by
  have hmem : ∀ h ∈ (setFh s fd x).fh, h ∈ s.fh ∨ h = x := by
    intro h hh
    exact List.mem_or_eq_of_mem_set hh
  have hcnt : ∀ i, handleCount (setFh s fd x) i = handleCount s i := by
    intro i
    have h := handleCount_setFh hlt x i
    rw [hold, hx] at h
    omega
  constructor
  case root => exact hs.root
  case onlyRootDir => exact hs.onlyRootDir
  case keys => exact hs.keys
  case table =>
    obtain ⟨hlen, h0⟩ := hs.table
    constructor
    · rw [setFh, ← hlen]
      exact List.length_set s.fh fd x
    · by_cases h0fd : (0 : Nat) = fd
      · subst h0fd
        rw [fhGet_setFh_self hlt]
        exact hx
      · rw [fhGet_setFh_ne h0fd]
        exact h0
  case handles =>
    intro h hh i hfi
    rcases hmem h hh with hh | rfl
    · exact hs.handles h hh i hfi
    · rw [hx] at hfi
      exact Option.noConfusion hfi
  case children => exact hs.children
  case names => exact hs.names
  case usage =>
    intro p hp
    rw [hcnt]
    exact hs.usage p hp
  case openfor =>
    intro p hp
    obtain ⟨hc1, hc2, hc3, hc4, hc5⟩ := hs.openfor p hp
    refine ⟨hc1, hc2, hc3, ?_, ?_⟩
    · intro hw h hh hfi
      rcases hmem h hh with hh | rfl
      · exact hc4 hw h hh hfi
      · rw [hx] at hfi
        exact Option.noConfusion hfi
    · intro hw h hh hfi
      rcases hmem h hh with hh | rfl
      · exact hc5 hw h hh hfi
      · rw [hx] at hfi
        exact Option.noConfusion hfi
  case cap => exact hs.cap

/-- The common shape of `ramdisk_close` and the commit phase of
`ramdisk_open`: one handle slot is rewritten (between pointing at node `i`
or being free) and node `i` is rewritten with the same name, kind and
children, under matching usage and lock bookkeeping. -/
theorem inv_slot_node_update {s : RState} (hs : Inv s) {fd i : Nat}
    {x : FHandle} {f f' : RdFile}
    (hlt : fd < s.fh.length)
    (hl : flookup s.files i = some f)
    (hold : (fhGet s fd).file = none ∨ (fhGet s fd).file = some i)
    (hxf : x.file = none ∨ x.file = some i)
    (hfd0 : fd = 0 → x.file = none)
    (hname : f'.name = f.name) (hdir : f'.isDir = f.isDir)
    (hch : f'.children = f.children)
    (hcap : f'.isDir = false → f'.size ≤ f'.datasize)
    (hxdir : x.file = some i → x.dir = f.isDir)
    (husage : f'.usage = handleCount (setFh s fd x) i)
    (hopen1 : f'.openfor = OPENFOR_NOTHING ∨ f'.openfor = OPENFOR_READ ∨
      f'.openfor = OPENFOR_WRITE)
    (hopen2 : f'.openfor = OPENFOR_NOTHING ↔ f'.usage = 0)
    (hopen3 : f'.openfor = OPENFOR_WRITE → f'.usage = 1)
    (hopen4 : f'.openfor = OPENFOR_WRITE → ∀ h ∈ (setFh s fd x).fh,
      h.file = some i → h.omode.rw ≠ RW.rdonly)
    (hopen5 : f'.openfor = OPENFOR_READ → ∀ h ∈ (setFh s fd x).fh,
      h.file = some i → h.omode.rw = RW.rdonly) :
    Inv (setNode (setFh s fd x) i f') := by
  set s1 := setFh s fd x with hs1
  have hs1files : s1.files = s.files := rfl
  have hs1mem : ∀ h ∈ s1.fh, h ∈ s.fh ∨ h = x := by
    intro h hh
    exact List.mem_or_eq_of_mem_set hh
  have hcnt_ne : ∀ j, j ≠ i → handleCount s1 j = handleCount s j := by
    intro j hj
    have h := handleCount_setFh hlt x j
    have hb1 : ((fhGet s fd).file == some j) = false := by
      rcases hold with h1 | h1
      · rw [h1]
        rfl
      · rw [h1]
        exact beq_eq_false_iff_ne.2 (fun he => hj (Option.some.inj he).symm)
    have hb2 : (x.file == some j) = false := by
      rcases hxf with h1 | h1
      · rw [h1]
        rfl
      · rw [h1]
        exact beq_eq_false_iff_ne.2 (fun he => hj (Option.some.inj he).symm)
    rw [hb1, hb2] at h
    simp only [Bool.false_eq_true, if_false] at h
    rw [← hs1] at h
    omega
  have hmem' : ∀ p ∈ (setNode s1 i f').files,
      p = (i, f') ∨ (p ∈ s.files ∧ p.1 ≠ i) := by
    intro p hp
    rcases mem_updAssoc hp with hp | hp
    · exact Or.inl hp
    · exact Or.inr ⟨hp.1, hp.2⟩
  have hlooki : flookup (setNode s1 i f').files i = some f' :=
    flookup_updAssoc_self f' hl
  have hlook : ∀ j, j ≠ i →
      flookup (setNode s1 i f').files j = flookup s.files j := by
    intro j hj
    exact flookup_updAssoc_ne _ _ hj
  have hsome : ∀ j, (flookup (setNode s1 i f').files j).isSome
      = (flookup s.files j).isSome :=
    flookup_updAssoc_isSome s.files i f'
  have hnamesame : ∀ j,
      (flookup (setNode s1 i f').files j).map (fun g => lowName g.name)
        = (flookup s.files j).map (fun g => lowName g.name) := by
    intro j
    by_cases hj : j = i
    · subst hj
      rw [hlooki, hl]
      simp [hname]
    · rw [hlook j hj]
  constructor
  case root =>
    obtain ⟨r, hr, hrd⟩ := hs.root
    by_cases hi : (0 : Nat) = i
    · subst hi
      refine ⟨f', hlooki, ?_⟩
      have hfr : f = r := by
        rw [hl] at hr
        injection hr
      rw [hdir, hfr, hrd]
    · exact ⟨r, by rw [hlook 0 hi]; exact hr, hrd⟩
  case onlyRootDir =>
    intro p hp hp0
    rcases hmem' p hp with rfl | ⟨hp, _⟩
    · rw [show ((i, f') : Nat × RdFile).2.isDir = f.isDir from hdir]
      exact hs.onlyRootDir (i, f) (flookup_mem hl) hp0
    · exact hs.onlyRootDir p hp hp0
  case keys =>
    obtain ⟨hnd, hb⟩ := hs.keys
    constructor
    · rw [setNode, updAssoc_map_fst]
      exact hnd
    · intro p hp
      rcases hmem' p hp with rfl | ⟨hp, _⟩
      · exact hb (i, f) (flookup_mem hl)
      · exact hb p hp
  case table =>
    obtain ⟨hlen, h0⟩ := hs.table
    constructor
    · rw [setNode_fh, hs1, setFh, ← hlen]
      exact List.length_set s.fh fd x
    · rw [fhGet_setNode]
      by_cases h0fd : (0 : Nat) = fd
      · subst h0fd
        rw [hs1, fhGet_setFh_self hlt]
        exact hfd0 rfl
      · rw [hs1, fhGet_setFh_ne h0fd]
        exact h0
  case handles =>
    intro h hh j hfj
    rw [setNode_fh] at hh
    rcases hs1mem h hh with hh | rfl
    · rcases hs.handles h hh j hfj with ⟨g, hg, hdg⟩
      by_cases hj : j = i
      · subst hj
        refine ⟨f', hlooki, ?_⟩
        have hgf : g = f := by
          rw [hl] at hg
          injection hg with hv
          exact hv.symm
        rw [hdg, hgf, hdir]
      · exact ⟨g, by rw [hlook j hj]; exact hg, hdg⟩
    · rcases hxf with h1 | h1
      · rw [h1] at hfj
        exact Option.noConfusion hfj
      · rw [h1] at hfj
        have hji : j = i := by
          injection hfj with hv
          exact hv.symm
        subst hji
        exact ⟨f', hlooki, by rw [hxdir h1, hdir]⟩
  case children =>
    intro p hp
    rcases hmem' p hp with rfl | ⟨hp, _⟩
    · obtain ⟨h0, hv, hnd⟩ := hs.children (i, f) (flookup_mem hl)
      rw [show ((i, f') : Nat × RdFile).2.children = f.children from hch]
      refine ⟨h0, ?_, hnd⟩
      intro c hc
      rw [hsome]
      exact hv c hc
    · obtain ⟨h0, hv, hnd⟩ := hs.children p hp
      refine ⟨h0, ?_, hnd⟩
      intro c hc
      rw [hsome]
      exact hv c hc
  case names =>
    intro p hp
    have hcong : ∀ (ch : List Nat),
        (ch.filterMap (fun c => (flookup (setNode s1 i f').files c).map
          (fun g => lowName g.name)))
        = ch.filterMap (fun c => (flookup s.files c).map
          (fun g => lowName g.name)) := by
      intro ch
      apply List.filterMap_congr
      intro c _
      exact hnamesame c
    rcases hmem' p hp with rfl | ⟨hp, _⟩
    · show (List.filterMap _ f'.children).Nodup
      rw [hcong, hch]
      exact hs.names (i, f) (flookup_mem hl)
    · show (List.filterMap _ p.2.children).Nodup
      rw [hcong]
      exact hs.names p hp
  case usage =>
    intro p hp
    rcases hmem' p hp with rfl | ⟨hp, hpi⟩
    · exact husage
    · rw [show handleCount (setNode s1 i f') p.1 = handleCount s1 p.1 from rfl,
        hcnt_ne p.1 hpi]
      exact hs.usage p hp
  case openfor =>
    intro p hp
    rcases hmem' p hp with rfl | ⟨hp, hpi⟩
    · exact ⟨hopen1, hopen2, hopen3, hopen4, hopen5⟩
    · obtain ⟨hc1, hc2, hc3, hc4, hc5⟩ := hs.openfor p hp
      refine ⟨hc1, hc2, hc3, ?_, ?_⟩
      · intro hw h hh hfi
        rw [setNode_fh] at hh
        rcases hs1mem h hh with hh | rfl
        · exact hc4 hw h hh hfi
        · rcases hxf with h1 | h1
          · rw [h1] at hfi
            exact Option.noConfusion hfi
          · rw [h1] at hfi
            injection hfi with hv
            exact absurd hv.symm hpi
      · intro hw h hh hfi
        rw [setNode_fh] at hh
        rcases hs1mem h hh with hh | rfl
        · exact hc5 hw h hh hfi
        · rcases hxf with h1 | h1
          · rw [h1] at hfi
            exact Option.noConfusion hfi
          · rw [h1] at hfi
            injection hfi with hv
            exact absurd hv.symm hpi
  case cap =>
    intro p hp hpd
    rcases hmem' p hp with rfl | ⟨hp, _⟩
    · exact hcap hpd
    · exact hs.cap p hp hpd

/-! ## Per-operation invariant preservation -/

theorem inv_close (s : RState) (fd : Nat) (hs : Inv s) :
    Inv (ramdisk_close s fd).2 := by
  rw [ramdisk_close]
  by_cases hfd : fd < FS_RAMDISK_MAX_FILES
  · rw [if_pos hfd]
    have hlt : fd < s.fh.length := by
      rw [hs.table.1]
      exact hfd
    cases hf : (fhGet s fd).file with
    | none => exact hs
    | some i =>
      simp only
      rcases hs.handles _ (fhGet_mem hlt) i hf with ⟨f0, hl0, _⟩
      cases hl : flookup s.files i with
      | none =>
        rw [hl] at hl0
        exact Option.noConfusion hl0
      | some f =>
        simp only
        have hmemf : (i, f) ∈ s.files := flookup_mem hl
        have husg : f.usage = handleCount s i := hs.usage (i, f) hmemf
        have hpos : 1 ≤ handleCount s i := handleCount_pos_of_mem (fhGet_mem hlt) hf
        obtain ⟨hc1, hc2, hc3, hc4, hc5⟩ := hs.openfor (i, f) hmemf
        have hcnt : handleCount (setFh s fd { fhGet s fd with file := none }) i
            = f.usage - 1 := by
          have h2 : handleCount (setFh s fd { fhGet s fd with file := none }) i + 1
              = handleCount s i := by
            have h := handleCount_setFh hlt { fhGet s fd with file := none } i
            rw [hf] at h
            simpa using h
          omega
        by_cases huz : f.usage - 1 = 0
        · rw [if_pos (show ({ f with usage := f.usage - 1 } : RdFile).usage
              = 0 from huz)]
          exact @inv_slot_node_update s hs fd i { fhGet s fd with file := none }
            f { f with usage := f.usage - 1, openfor := OPENFOR_NOTHING }
            hlt hl (Or.inr hf) (Or.inl rfl) (fun _ => rfl) rfl rfl rfl
            (fun hd => hs.cap (i, f) hmemf hd)
            (fun hx => Option.noConfusion hx) hcnt.symm (Or.inl rfl)
            (iff_of_true rfl huz)
            (fun hw => absurd (show (0 : Nat) = 2 from hw) (by decide))
            (fun hw => absurd (show (0 : Nat) = 2 from hw) (by decide))
            (fun hw => absurd (show (0 : Nat) = 1 from hw) (by decide))
        · rw [if_neg (show ¬({ f with usage := f.usage - 1 } : RdFile).usage
              = 0 from huz)]
          have hof1 : f.openfor = OPENFOR_READ := by
            rcases hc1 with h0 | h1 | h2
            · have h0' : f.usage = 0 := hc2.1 h0
              omega
            · exact h1
            · have h2' : f.usage = 1 := hc3 h2
              omega
          exact @inv_slot_node_update s hs fd i { fhGet s fd with file := none }
            f { f with usage := f.usage - 1 }
            hlt hl (Or.inr hf) (Or.inl rfl) (fun _ => rfl) rfl rfl rfl
            (fun hd => hs.cap (i, f) hmemf hd)
            (fun hx => Option.noConfusion hx) hcnt.symm
            (Or.inr (Or.inl hof1))
            (iff_of_false (fun h => absurd (hof1.symm.trans h) (by decide)) huz)
            (fun hw => absurd (hof1.symm.trans hw) (by decide))
            (fun hw => absurd (hof1.symm.trans hw) (by decide))
            (fun _ h hh hfi => by
              rcases List.mem_or_eq_of_mem_set hh with hh2 | rfl
              · exact hc5 hof1 h hh2 hfi
              · exact Option.noConfusion hfi)
  · rw [if_neg hfd]
    exact hs

theorem inv_read (s : RState) (fd bytes : Nat) (hs : Inv s) :
    Inv (ramdisk_read s fd bytes).2.2 := by
  rw [ramdisk_read]
  split
  next hc =>
    split
    next => exact hs
    next i heq =>
      split
      next => exact hs
      next f hl =>
        have hlt : fd < s.fh.length := by
          rw [hs.table.1]
          exact hc.1
        exact inv_setFh_inert hs hlt rfl rfl rfl
  next => exact hs

theorem inv_seek (s : RState) (fd : Nat) (offset : Int) (whence : Nat)
    (hs : Inv s) : Inv (ramdisk_seek s fd offset whence).2 := by
  rw [ramdisk_seek]
  split
  next => exact hs
  next hc =>
    split
    next => exact hs
    next i heq =>
      split
      next => exact hs
      next f hl =>
        have hlt : fd < s.fh.length := by
          rw [hs.table.1]
          push_neg at hc
          exact hc.1
        have hgen : ∀ e : Except Errno Nat,
            Inv ((match e with
              | Except.error e => (Except.error e, s)
              | Except.ok p0 =>
                let p1 := if p0 > f.size then f.size else p0
                (Except.ok p1,
                  setFh s fd { fhGet s fd with ptr := p1 })).2) := by
          intro e
          cases e with
          | error e => exact hs
          | ok p0 => exact inv_setFh_inert hs hlt rfl rfl rfl
        exact hgen (if whence = 0 then
            (if offset < 0 then Except.error Errno.einval
             else Except.ok offset.toNat)
          else if whence = 1 then
            (if offset < 0 ∧ (-offset).toNat > (fhGet s fd).ptr then
              Except.error Errno.einval
             else Except.ok (((fhGet s fd).ptr : Int) + offset).toNat)
          else if whence = 2 then
            (if offset < 0 ∧ (-offset).toNat > f.size then
              Except.error Errno.einval
             else Except.ok ((f.size : Int) + offset).toNat)
          else Except.error Errno.einval)

theorem inv_readdir (s : RState) (fd : Nat) (hs : Inv s) :
    Inv (ramdisk_readdir s fd).2 := by
  rw [ramdisk_readdir]
  split
  next hc =>
    split
    next d c hd hc' =>
      split
      next g df hg hdf =>
        have hlt : fd < s.fh.length := by
          rw [hs.table.1]
          exact hc.1
        exact inv_setFh_inert hs hlt rfl rfl rfl
      next => exact hs
    next => exact hs
  next => exact hs

theorem inv_rewinddir (s : RState) (fd : Nat) (hs : Inv s) :
    Inv (ramdisk_rewinddir s fd).2 := by
  rw [ramdisk_rewinddir]
  split
  next => exact hs
  next hc =>
    split
    next d hd =>
      split
      next df hdf =>
        have hlt : fd < s.fh.length := by
          rw [hs.table.1]
          push_neg at hc
          exact hc.1
        exact inv_setFh_inert hs hlt rfl rfl rfl
      next => exact hs
    next => exact hs

theorem inv_unlink (s : RState) (fn : List Char) (hs : Inv s) :
    Inv (ramdisk_unlink s fn).2 := by
  rw [ramdisk_unlink]
  cases hfp : ramdisk_find_path s 0 fn false with
  | none => exact hs
  | some i =>
    simp only
    cases hl : flookup s.files i with
    | none => exact hs
    | some f =>
      simp only
      by_cases hu : f.usage = 0
      · rw [if_pos hu]
        obtain ⟨⟨g, hg, hgd⟩, _⟩ := find_path_false_some hfp
        have hgf : g = f := by
          rw [hl] at hg
          injection hg with hv
          exact hv.symm
        have hi0 : i ≠ 0 := by
          intro he
          obtain ⟨r, hr, hrd⟩ := hs.root
          rw [he, hr] at hl
          have hfr : r = f := by injection hl
          rw [hgf, ← hfr, hrd] at hgd
          exact Bool.noConfusion hgd
        exact inv_removeNode hs hl hi0 hu
      · rw [if_neg hu]
        exact hs

theorem inv_writeCommit {s : RState} (hs : Inv s) {fd i : Nat}
    {f g : RdFile} (buf : List Nat)
    (hl : flookup s.files i = some f) (hlt : fd < s.fh.length)
    (hname : g.name = f.name) (hdir : g.isDir = f.isDir)
    (hch : g.children = f.children) (hof : g.openfor = f.openfor)
    (hus : g.usage = f.usage)
    (hcap : g.isDir = false →
      (if g.size < (fhGet s fd).ptr + buf.length
        then (fhGet s fd).ptr + buf.length else g.size) ≤ g.datasize) :
    Inv (writeCommit s fd i g buf).2 := by
  rw [writeCommit]
  have hmid : Inv (setNode s i
      { g with
        data := memcpyAt g.data (fhGet s fd).ptr buf,
        size := if g.size < (fhGet s fd).ptr + buf.length
          then (fhGet s fd).ptr + buf.length else g.size }) :=
    inv_setNode_content hs hl hname hdir hch hof hus hcap
  exact inv_setFh_inert hmid (by rw [setNode_fh]; exact hlt) rfl rfl rfl

theorem inv_write (s : RState) (fd : Nat) (buf : List Nat) (allocOk : Bool)
    (hs : Inv s) : Inv (ramdisk_write s fd buf allocOk).2 := by
  rw [ramdisk_write]
  split
  next hc =>
    split
    next => exact hs
    next i heq =>
      split
      next => exact hs
      next f hl =>
        have hlt : fd < s.fh.length := by
          rw [hs.table.1]
          exact hc.1
        have hfdir : f.isDir = false := by
          rcases hs.handles _ (fhGet_mem hlt) i heq with ⟨g, hg, hdg⟩
          have hgf : g = f := by
            rw [hl] at hg
            injection hg with hv
            exact hv.symm
          rw [← hgf, ← hdg]
          have := hc.2.2
          simpa using this
        have hcap0 : f.size ≤ f.datasize := hs.cap (i, f) (flookup_mem hl) hfdir
        split
        next hw =>
          show Inv ((if (fhGet s fd).ptr + buf.length > f.datasize then
              (if allocOk = true then
                writeCommit s fd i
                  { f with
                    data := reallocBytes f.data
                      ((fhGet s fd).ptr + buf.length + 4096),
                    datasize := (fhGet s fd).ptr + buf.length + 4096 } buf
               else (-1, s))
             else writeCommit s fd i f buf).2)
          by_cases hgrow : (fhGet s fd).ptr + buf.length > f.datasize
          · rw [if_pos hgrow]
            by_cases hok : allocOk = true
            · rw [if_pos hok]
              refine inv_writeCommit hs buf hl hlt ?_ ?_ ?_ ?_ ?_ ?_
              · rfl
              · rfl
              · rfl
              · rfl
              · rfl
              · intro _
                show (if f.size < (fhGet s fd).ptr + buf.length
                    then (fhGet s fd).ptr + buf.length else f.size)
                  ≤ (fhGet s fd).ptr + buf.length + 4096
                split
                · omega
                · omega
            · rw [if_neg hok]
              exact hs
          · rw [if_neg hgrow]
            refine inv_writeCommit hs buf hl hlt ?_ ?_ ?_ ?_ ?_ ?_
            · rfl
            · rfl
            · rfl
            · rfl
            · rfl
            · intro _
              show (if f.size < (fhGet s fd).ptr + buf.length
                  then (fhGet s fd).ptr + buf.length else f.size) ≤ f.datasize
              split
              · omega
              · omega
        next => exact hs
  next => exact hs

/-- The lookup phase of `ramdisk_open`, analysed under the invariant: the
successor state still satisfies the invariant, the node is live, and a
directory was resolved only for a directory open. -/
theorem openLookup_spec {s : RState} (hs : Inv s) {fn : List Char}
    {mode : OMode} {i : Nat} {s1 : RState}
    (h : openLookup s fn mode = some (i, s1)) :
    Inv s1 ∧ ∃ f, flookup s1.files i = some f ∧
      (mode.dir = true → f.isDir = true) := by
  rw [openLookup] at h
  by_cases hfn : fn = []
  · rw [if_pos hfn] at h
    obtain ⟨r, hr, hrd⟩ := hs.root
    have h0 : i = 0 ∧ s1 = s := by
      simp only [Option.some.injEq, Prod.mk.injEq] at h
      exact ⟨h.1.symm, h.2.symm⟩
    obtain ⟨rfl, rfl⟩ := h0
    exact ⟨hs, r, hr, fun _ => hrd⟩
  · rw [if_neg hfn] at h
    cases hfp : ramdisk_find_path s 0 fn mode.dir with
    | some j =>
      rw [hfp] at h
      have hij : j = i ∧ s1 = s := by
        simp only [Option.some.injEq, Prod.mk.injEq] at h
        exact ⟨h.1, h.2.symm⟩
      obtain ⟨rfl, rfl⟩ := hij
      by_cases hmd : mode.dir = true
      · rw [hmd, find_path_true_none hs] at hfp
        exact Option.noConfusion hfp
      · have hmdf : mode.dir = false := by
          simpa using hmd
        rw [hmdf] at hfp
        obtain ⟨⟨g, hg, hgd⟩, _⟩ := find_path_false_some hfp
        exact ⟨hs, g, hg, fun hx => absurd hx hmd⟩
    | none =>
      rw [hfp] at h
      by_cases hcond : mode.rw ≠ RW.rdonly ∧ ¬mode.dir = true
      · rw [if_pos hcond] at h
        have hmdf : mode.dir = false := by
          have := hcond.2
          simpa using this
        rw [hmdf] at h hfp
        obtain ⟨hj, _, _, hlook, _, _, _, hinv⟩ :=
          create_file_spec hs hfn hfp h
        refine ⟨hinv, mkNewFile fn, hlook, ?_⟩
        intro hx
        rw [hmdf] at hx
        exact Bool.noConfusion hx
      · rw [if_neg hcond] at h
        exact Option.noConfusion h

/-- The commit phase of `ramdisk_open` preserves the invariant. -/
theorem inv_openCommit {s1 : RState} (hs : Inv s1) {i fd : Nat} {f : RdFile}
    (mode : OMode) (hl : flookup s1.files i = some f)
    (hfd : findFreeFd s1 = some fd) (hmd : mode.dir = f.isDir) :
    Inv (openCommit s1 i f fd mode).2 := by
  obtain ⟨hfd1, hfdmax, hfree⟩ := findFreeFd_spec hfd
  have hlt : fd < s1.fh.length := by
    rw [hs.table.1]
    exact hfdmax
  have hmemf : (i, f) ∈ s1.files := flookup_mem hl
  have husg : f.usage = handleCount s1 i := hs.usage (i, f) hmemf
  obtain ⟨hc1, hc2, hc3, hc4, hc5⟩ := hs.openfor (i, f) hmemf
  have hcnt : ∀ (x : FHandle), x.file = some i →
      handleCount (setFh s1 fd x) i = handleCount s1 i + 1 := by
    intro x hx
    have h := handleCount_setFh hlt x i
    rw [hfree, hx] at h
    simpa using h
  have hfd0 : ∀ (z : Option Nat), fd = 0 → z = none := by
    intro z h0
    exact absurd (h0 ▸ hfd1 : (1 : Nat) ≤ 0) (by decide)
  rw [openCommit]
  by_cases hW : f.openfor = OPENFOR_WRITE
  · rw [if_pos hW]
    exact hs
  · rw [if_neg hW]
    by_cases hrd : mode.rw = RW.rdonly
    · rw [if_pos hrd]
      refine inv_slot_node_update hs hlt hl (Or.inl hfree) (Or.inr rfl)
        (fun h0 => absurd (h0 ▸ hfd1 : (1 : Nat) ≤ 0) (by decide))
        rfl rfl rfl (fun hd => hs.cap (i, f) hmemf hd) (fun _ => hmd)
        ?_ (Or.inr (Or.inl rfl))
        (iff_of_false (show ¬((OPENFOR_READ : Nat) = OPENFOR_NOTHING) by decide)
          (Nat.succ_ne_zero f.usage))
        (fun hw => absurd (show (OPENFOR_READ : Nat) = OPENFOR_WRITE from hw)
          (by decide))
        (fun hw => absurd (show (OPENFOR_READ : Nat) = OPENFOR_WRITE from hw)
          (by decide)) ?_
      · rw [hcnt _ rfl, husg]
      · intro _ h hh hfi
        rcases List.mem_or_eq_of_mem_set hh with hh2 | rfl
        · rcases hc1 with h0 | h1 | h2
          · have hu0 : f.usage = 0 := hc2.1 h0
            have hp := handleCount_pos_of_mem hh2 hfi
            omega
          · exact hc5 h1 h hh2 hfi
          · exact absurd h2 hW
        · exact hrd
    · rw [if_neg hrd]
      by_cases hR : f.openfor = OPENFOR_READ
      · rw [if_pos hR]
        exact inv_setFh_free hs hlt hfree rfl
      · rw [if_neg hR]
        have hof0 : f.openfor = OPENFOR_NOTHING := by
          rcases hc1 with h0 | h1 | h2
          · exact h0
          · exact absurd h1 hR
          · exact absurd h2 hW
        have hu0 : f.usage = 0 := hc2.1 hof0
        have hnone : ∀ h ∈ s1.fh, h.file ≠ some i := by
          intro h hh hfi
          have hp := handleCount_pos_of_mem hh hfi
          omega
        by_cases hA : mode.append = true
        · rw [if_pos hA]
          refine inv_slot_node_update hs hlt hl (Or.inl hfree) (Or.inr rfl)
            (fun h0 => absurd (h0 ▸ hfd1 : (1 : Nat) ≤ 0) (by decide))
            rfl rfl rfl (fun hd => hs.cap (i, f) hmemf hd) (fun _ => hmd)
            ?_ (Or.inr (Or.inr rfl))
            (iff_of_false
              (show ¬((OPENFOR_WRITE : Nat) = OPENFOR_NOTHING) by decide)
              (Nat.succ_ne_zero f.usage))
            (fun _ => by rw [hu0]) ?_
            (fun hw => absurd
              (show (OPENFOR_WRITE : Nat) = OPENFOR_READ from hw) (by decide))
          · rw [hcnt _ rfl, husg]
          · intro _ h hh hfi
            rcases List.mem_or_eq_of_mem_set hh with hh2 | rfl
            · exact absurd hfi (hnone h hh2)
            · exact hrd
        · rw [if_neg hA]
          by_cases hT : mode.trunc = true
          · rw [if_pos hT]
            refine inv_slot_node_update hs hlt hl (Or.inl hfree) (Or.inr rfl)
              (fun h0 => absurd (h0 ▸ hfd1 : (1 : Nat) ≤ 0) (by decide))
              rfl rfl rfl (fun _ => Nat.zero_le _) (fun _ => hmd)
              ?_ (Or.inr (Or.inr rfl))
              (iff_of_false
                (show ¬((OPENFOR_WRITE : Nat) = OPENFOR_NOTHING) by decide)
                (Nat.succ_ne_zero f.usage))
              (fun _ => by rw [hu0]) ?_
              (fun hw => absurd
                (show (OPENFOR_WRITE : Nat) = OPENFOR_READ from hw) (by decide))
            · rw [hcnt _ rfl, husg]
            · intro _ h hh hfi
              rcases List.mem_or_eq_of_mem_set hh with hh2 | rfl
              · exact absurd hfi (hnone h hh2)
              · exact hrd
          · rw [if_neg hT]
            refine inv_slot_node_update hs hlt hl (Or.inl hfree) (Or.inr rfl)
              (fun h0 => absurd (h0 ▸ hfd1 : (1 : Nat) ≤ 0) (by decide))
              rfl rfl rfl (fun hd => hs.cap (i, f) hmemf hd) (fun _ => hmd)
              ?_ (Or.inr (Or.inr rfl))
              (iff_of_false
                (show ¬((OPENFOR_WRITE : Nat) = OPENFOR_NOTHING) by decide)
                (Nat.succ_ne_zero f.usage))
              (fun _ => by rw [hu0]) ?_
              (fun hw => absurd
                (show (OPENFOR_WRITE : Nat) = OPENFOR_READ from hw) (by decide))
            · rw [hcnt _ rfl, husg]
            · intro _ h hh hfi
              rcases List.mem_or_eq_of_mem_set hh with hh2 | rfl
              · exact absurd hfi (hnone h hh2)
              · exact hrd

/-- `ramdisk_open` preserves the invariant. -/
theorem inv_open (s : RState) (fn0 : List Char) (mode : OMode) (hs : Inv s) :
    Inv (ramdisk_open s fn0 mode).2 := by
  rw [ramdisk_open]
  split
  next => exact hs
  next hstupid =>
    cases hres : openLookup s (stripSlash fn0) mode with
    | none =>
      simp only [hres]
      exact hs
    | some p =>
      obtain ⟨i, s1⟩ := p
      simp only [hres]
      obtain ⟨hs1, f, hlf, hdirf⟩ := openLookup_spec hs hres
      simp only [hlf]
      split
      next => exact hs1
      next hdc =>
        cases hfd : findFreeFd s1 with
        | none =>
          simp only [hfd]
          exact hs1
        | some fd =>
          simp only [hfd]
          have hmd : mode.dir = f.isDir := by
            by_cases hm : mode.dir = true
            · rw [hm, (hdirf hm).symm]
            · have hm' : mode.dir = false := by simpa using hm
              by_cases hfi : f.isDir = true
              · exact absurd ⟨hfi, Or.inl (by simp [hm'])⟩ hdc
              · rw [hm']
                simpa using hfi
          exact inv_openCommit hs1 mode hlf hfd hmd

theorem inv_attach (s : RState) (fn : List Char) (obj : List Nat) (size : Nat)
    (hs : Inv s) : Inv (fs_ramdisk_attach s fn obj size).2 := by
  rw [fs_ramdisk_attach]
  have hsop := inv_open s fn
    attachMode hs
  cases hop : ramdisk_open s fn
      attachMode with
  | mk r s1 =>
    rw [hop] at hsop
    cases r with
    | none => exact hsop
    | some fd =>
      simp only
      cases hf : (fhGet s1 fd).file with
      | none => exact hsop
      | some i =>
        simp only
        cases hl : flookup s1.files i with
        | none => exact hsop
        | some f =>
          simp only
          exact inv_close _ fd
            (inv_setNode_content hsop hl rfl rfl rfl rfl rfl
              (fun _ => le_refl _))

theorem inv_detach (s : RState) (fn : List Char) (hs : Inv s) :
    Inv (fs_ramdisk_detach s fn).2.2 := by
  rw [fs_ramdisk_detach]
  have hsop := inv_open s fn
    rdonlyMode hs
  cases hop : ramdisk_open s fn
      rdonlyMode with
  | mk r s1 =>
    rw [hop] at hsop
    cases r with
    | none => exact hsop
    | some fd =>
      simp only
      cases hf : (fhGet s1 fd).file with
      | none => exact hsop
      | some i =>
        simp only
        cases hl : flookup s1.files i with
        | none => exact hsop
        | some f =>
          simp only
          exact inv_unlink _ fn
            (inv_close _ fd
              (inv_setNode_content hsop hl rfl rfl rfl rfl rfl
                (fun _ => le_refl _)))

theorem inv_initState : Inv initState := by
  have hmem : ∀ h ∈ initState.fh, h = emptyHandle := by
    intro h hh
    exact List.eq_of_mem_replicate hh
  have hcount : ∀ i, handleCount initState i = 0 := by
    intro i
    apply List.countP_eq_zero.2
    intro h hh hp
    rw [hmem h hh] at hp
    simp [emptyHandle] at hp
  have hpmem : ∀ p ∈ initState.files, p = ((0 : Nat), rootNode) := by
    intro p hp
    rcases List.mem_cons.1 hp with hp | hp
    · exact hp
    · simp at hp
  constructor
  case root => exact ⟨rootNode, rfl, rfl⟩
  case onlyRootDir =>
    intro p hp hp0
    rw [hpmem p hp] at hp0
    simp at hp0
  case keys =>
    constructor
    · simp [initState]
    · intro p hp
      rw [hpmem p hp]
      simp [initState]
  case table =>
    constructor
    · simp [initState, FS_RAMDISK_MAX_FILES]
    · rfl
  case handles =>
    intro h hh i hfi
    rw [hmem h hh] at hfi
    simp [emptyHandle] at hfi
  case children =>
    intro p hp
    rw [hpmem p hp]
    refine ⟨by simp [rootNode], ?_, by simp [rootNode]⟩
    intro c hc
    simp [rootNode] at hc
  case names =>
    intro p hp
    rw [hpmem p hp]
    simp [rootNode]
  case usage =>
    intro p hp
    rw [hpmem p hp, hcount]
    rfl
  case openfor =>
    intro p hp
    rw [hpmem p hp]
    refine ⟨Or.inl rfl, iff_of_true rfl rfl, ?_, ?_, ?_⟩
    · intro hw
      exact absurd (show (0 : Nat) = 2 from hw) (by decide)
    · intro hw
      exact absurd (show (0 : Nat) = 2 from hw) (by decide)
    · intro hw
      exact absurd (show (0 : Nat) = 1 from hw) (by decide)
  case cap =>
    intro p hp hpd
    rw [hpmem p hp] at hpd
    simp [rootNode] at hpd

/-- Every operation preserves the invariant. -/
theorem inv_applyOp (o : Op) (s : RState) (hs : Inv s) : Inv (applyOp o s) := by
  cases o with
  | o_open fn m => exact inv_open s fn m hs
  | o_close fd => exact inv_close s fd hs
  | o_read fd bytes => exact inv_read s fd bytes hs
  | o_write fd buf allocOk => exact inv_write s fd buf allocOk hs
  | o_seek fd offset whence => exact inv_seek s fd offset whence hs
  | o_readdir fd => exact inv_readdir s fd hs
  | o_rewinddir fd => exact inv_rewinddir s fd hs
  | o_unlink fn => exact inv_unlink s fn hs
  | o_attach fn buf size => exact inv_attach s fn buf size hs
  | o_detach fn => exact inv_detach s fn hs
  | o_query => exact hs

/-- Every reachable state satisfies the invariant. -/
theorem inv_reachable {s : RState} (h : Reachable s) : Inv s := by
  induction h with
  | init => exact inv_initState
  | step o hr ih => exact inv_applyOp o _ ih

/-! ## Cursor bounds -/

theorem cursorOk_setFh {s : RState} (hc : CursorOk s) {fd : Nat} {x : FHandle}
    (hx : ∀ j, x.file = some j → x.dir = false →
      ∀ f, flookup s.files j = some f → x.ptr ≤ f.size) :
    CursorOk (setFh s fd x) := by
  intro h hh j hfj hdj f hlf
  rcases List.mem_or_eq_of_mem_set hh with hh2 | rfl
  · exact hc h hh2 j hfj hdj f hlf
  · exact hx j hfj hdj f hlf

theorem cursorOk_setNode_ge {s : RState} (hc : CursorOk s) {i : Nat}
    {f f' : RdFile} (hl : flookup s.files i = some f)
    (hsz : f.size ≤ f'.size) : CursorOk (setNode s i f') := by
  intro h hh j hfj hdj g hlg
  by_cases hj : j = i
  · subst hj
    rw [setNode, flookup_updAssoc_self f' hl] at hlg
    have hgf : g = f' := by
      injection hlg with hv
      exact hv.symm
    subst hgf
    exact le_trans (hc h hh j hfj hdj f hl) hsz
  · rw [setNode, flookup_updAssoc_ne _ _ hj] at hlg
    exact hc h hh j hfj hdj g hlg

theorem cursorOk_setNode_bound {s : RState} (hc : CursorOk s) {i : Nat}
    {f' : RdFile}
    (hno : ∀ h ∈ s.fh, h.file = some i → h.dir = false → h.ptr ≤ f'.size) :
    CursorOk (setNode s i f') := by
  intro h hh j hfj hdj g hlg
  by_cases hj : j = i
  · subst hj
    cases hlo : flookup s.files j with
    | none =>
      have hi := flookup_updAssoc_isSome s.files j f' j
      rw [hlo] at hi
      have hlg2 : flookup (updAssoc s.files j f') j = some g := hlg
      rw [hlg2] at hi
      simp only [Option.isSome_some, Option.isSome_none] at hi
      exact Bool.noConfusion hi
    | some f0 =>
      rw [setNode, flookup_updAssoc_self f' hlo] at hlg
      have hgf : g = f' := by
        injection hlg with hv
        exact hv.symm
      subst hgf
      exact hno h hh hfj hdj
  · rw [setNode, flookup_updAssoc_ne _ _ hj] at hlg
    exact hc h hh j hfj hdj g hlg

theorem cursorOk_removeNode {s : RState} (hc : CursorOk s) (i : Nat) :
    CursorOk (removeNode s i) := by
  intro h hh j hfj hdj g hlg
  rw [removeNode_fh] at hh
  by_cases hj : j = i
  · subst hj
    rw [flookup_removeNode_self] at hlg
    exact Option.noConfusion hlg
  · rw [flookup_removeNode_ne s hj] at hlg
    cases hlo : flookup s.files j with
    | none =>
      rw [hlo] at hlg
      exact Option.noConfusion hlg
    | some f0 =>
      rw [hlo] at hlg
      simp only [Option.map_some', Option.some.injEq] at hlg
      have : g.size = f0.size := by
        rw [← hlg]
      rw [this]
      exact hc h hh j hfj hdj f0 hlo

theorem cursor_read (s : RState) (fd bytes : Nat) (hc : CursorOk s) :
    CursorOk (ramdisk_read s fd bytes).2.2 := by
  rw [ramdisk_read]
  split
  next hcond =>
    split
    next => exact hc
    next i heq =>
      split
      next => exact hc
      next f hl =>
        apply cursorOk_setFh hc
        intro j hfj hdj g hlg
        have hji : j = i := by
          rw [heq] at hfj
          injection hfj with hv
          exact hv.symm
        subst hji
        have hgf : g = f := by
          rw [hl] at hlg
          injection hlg with hv
          exact hv.symm
        subst hgf
        show (fhGet s fd).ptr +
          (if (fhGet s fd).ptr + bytes > g.size then g.size - (fhGet s fd).ptr
           else bytes) ≤ g.size
        by_cases hio : (fhGet s fd).ptr ≤ g.size
        · split
          · omega
          · omega
        · -- cursor beyond size: contradicts the cursor bound in the source state
          have := hc (fhGet s fd) ?_ j heq hdj g hl
          · omega
          · -- membership of the slot
            by_cases hlen : fd < s.fh.length
            · exact fhGet_mem hlen
            · exfalso
              rw [fhGet, List.getD_eq_default] at heq
              · simp [default] at heq
              · omega
  next => exact hc

theorem cursor_seek (s : RState) (fd : Nat) (offset : Int) (whence : Nat)
    (hc : CursorOk s) : CursorOk (ramdisk_seek s fd offset whence).2 := by
  rw [ramdisk_seek]
  split
  next => exact hc
  next hcond =>
    split
    next => exact hc
    next i heq =>
      split
      next => exact hc
      next f hl =>
        have hgen : ∀ e : Except Errno Nat,
            CursorOk ((match e with
              | Except.error e => (Except.error e, s)
              | Except.ok p0 =>
                let p1 := if p0 > f.size then f.size else p0
                (Except.ok p1,
                  setFh s fd { fhGet s fd with ptr := p1 })).2) := by
          intro e
          cases e with
          | error e => exact hc
          | ok p0 =>
            apply cursorOk_setFh hc
            intro j hfj hdj g hlg
            have hji : j = i := by
              rw [heq] at hfj
              injection hfj with hv
              exact hv.symm
            subst hji
            have hgf : g = f := by
              rw [hl] at hlg
              injection hlg with hv
              exact hv.symm
            subst hgf
            show (if p0 > g.size then g.size else p0) ≤ g.size
            split
            · omega
            · omega
        exact hgen (if whence = 0 then
            (if offset < 0 then Except.error Errno.einval
             else Except.ok offset.toNat)
          else if whence = 1 then
            (if offset < 0 ∧ (-offset).toNat > (fhGet s fd).ptr then
              Except.error Errno.einval
             else Except.ok (((fhGet s fd).ptr : Int) + offset).toNat)
          else if whence = 2 then
            (if offset < 0 ∧ (-offset).toNat > f.size then
              Except.error Errno.einval
             else Except.ok ((f.size : Int) + offset).toNat)
          else Except.error Errno.einval)

theorem cursor_readdir (s : RState) (fd : Nat) (hc : CursorOk s) :
    CursorOk (ramdisk_readdir s fd).2 := by
  rw [ramdisk_readdir]
  split
  next hcond =>
    split
    next d c hd hc' =>
      split
      next g df hg hdf =>
        apply cursorOk_setFh hc
        intro j hfj hdj f hlf
        exfalso
        have hdirT := hcond.2.2.2
        have hdj2 : (fhGet s fd).dir = false := hdj
        rw [hdj2] at hdirT
        exact Bool.noConfusion hdirT
      next => exact hc
    next => exact hc
  next => exact hc

theorem cursor_rewinddir (s : RState) (fd : Nat) (hc : CursorOk s) :
    CursorOk (ramdisk_rewinddir s fd).2 := by
  rw [ramdisk_rewinddir]
  split
  next => exact hc
  next hcond =>
    split
    next d hd =>
      split
      next df hdf =>
        apply cursorOk_setFh hc
        intro j hfj hdj f hlf
        exfalso
        push_neg at hcond
        have hdirT := hcond.2.2
        have hdj2 : (fhGet s fd).dir = false := hdj
        rw [hdj2] at hdirT
        exact Bool.noConfusion hdirT
      next => exact hc
    next => exact hc

theorem cursor_close (s : RState) (fd : Nat) (hc : CursorOk s) :
    CursorOk (ramdisk_close s fd).2 := by
  rw [ramdisk_close]
  by_cases hfd : fd < FS_RAMDISK_MAX_FILES
  · rw [if_pos hfd]
    cases hf : (fhGet s fd).file with
    | none => exact hc
    | some i =>
      simp only
      cases hl : flookup s.files i with
      | none =>
        apply cursorOk_setFh hc
        intro j hfj hdj f hlf
        exfalso
        have : (none : Option Nat) = some j := hfj
        exact Option.noConfusion this
      | some f =>
        simp only
        have hstep : CursorOk (setFh s fd { fhGet s fd with file := none }) := by
          apply cursorOk_setFh hc
          intro j hfj hdj g hlg
          exact Option.noConfusion hfj
        apply cursorOk_setNode_ge hstep
        · show flookup s.files i = some f
          exact hl
        · split
          · exact le_refl f.size
          · exact le_refl f.size
  · rw [if_neg hfd]
    exact hc

theorem cursor_write (s : RState) (fd : Nat) (buf : List Nat) (allocOk : Bool)
    (hc : CursorOk s) : CursorOk (ramdisk_write s fd buf allocOk).2 := by
  have hcommit : ∀ (g f0 : RdFile) (i : Nat), flookup s.files i = some f0 →
      f0.size = g.size →
      (fhGet s fd).file = some i →
      CursorOk (writeCommit s fd i g buf).2 := by
    intro g f0 i hl hsz heq
    show CursorOk (setFh (setNode s i
      { g with
        data := memcpyAt g.data (fhGet s fd).ptr buf,
        size := if g.size < (fhGet s fd).ptr + buf.length
          then (fhGet s fd).ptr + buf.length else g.size }) fd
      { fhGet s fd with ptr := (fhGet s fd).ptr + buf.length })
    set f1 : RdFile := { g with
        data := memcpyAt g.data (fhGet s fd).ptr buf,
        size := if g.size < (fhGet s fd).ptr + buf.length
          then (fhGet s fd).ptr + buf.length else g.size } with hf1
    have hmid : CursorOk (setNode s i f1) := by
      apply cursorOk_setNode_ge hc hl
      rw [hf1]
      show f0.size ≤ (if g.size < (fhGet s fd).ptr + buf.length
        then (fhGet s fd).ptr + buf.length else g.size)
      split
      · omega
      · omega
    apply cursorOk_setFh hmid
    intro j hfj hdj f hlf
    have hji : j = i := by
      have hfj2 : (fhGet s fd).file = some j := hfj
      rw [heq] at hfj2
      injection hfj2 with hv
      exact hv.symm
    subst hji
    have hl1 : flookup (setNode s j f1).files j = some f1 :=
      flookup_updAssoc_self f1 hl
    rw [hl1] at hlf
    have hff : f = f1 := by
      injection hlf with hv
      exact hv.symm
    subst hff
    show (fhGet s fd).ptr + buf.length ≤ f1.size
    rw [hf1]
    show (fhGet s fd).ptr + buf.length ≤
      (if g.size < (fhGet s fd).ptr + buf.length
        then (fhGet s fd).ptr + buf.length else g.size)
    split
    · omega
    · omega
  rw [ramdisk_write]
  split
  next hcond =>
    split
    next => exact hc
    next i heq =>
      split
      next => exact hc
      next f hl =>
        split
        next hw =>
          show CursorOk ((if (fhGet s fd).ptr + buf.length > f.datasize then
              (if allocOk = true then
                writeCommit s fd i
                  { f with
                    data := reallocBytes f.data
                      ((fhGet s fd).ptr + buf.length + 4096),
                    datasize := (fhGet s fd).ptr + buf.length + 4096 } buf
               else (-1, s))
             else writeCommit s fd i f buf).2)
          by_cases hgrow : (fhGet s fd).ptr + buf.length > f.datasize
          · rw [if_pos hgrow]
            by_cases hok : allocOk = true
            · rw [if_pos hok]
              exact hcommit
                { f with
                  data := reallocBytes f.data
                    ((fhGet s fd).ptr + buf.length + 4096),
                  datasize := (fhGet s fd).ptr + buf.length + 4096 }
                f i hl rfl heq
            · rw [if_neg hok]
              exact hc
          · rw [if_neg hgrow]
            exact hcommit f f i hl rfl heq
        next => exact hc
  next => exact hc

theorem cursor_unlink (s : RState) (fn : List Char) (hc : CursorOk s) :
    CursorOk (ramdisk_unlink s fn).2 := by
  rw [ramdisk_unlink]
  cases hfp : ramdisk_find_path s 0 fn false with
  | none => exact hc
  | some i =>
    simp only
    cases hl : flookup s.files i with
    | none => exact hc
    | some f =>
      simp only
      by_cases hu : f.usage = 0
      · rw [if_pos hu]
        exact cursorOk_removeNode hc i
      · rw [if_neg hu]
        exact hc

theorem no_handle_of_usage_zero {s : RState} (hs : Inv s) {i : Nat}
    {f : RdFile} (hl : flookup s.files i = some f) (hu : f.usage = 0) :
    ∀ h ∈ s.fh, h.file ≠ some i := by
  intro h hh hfi
  have hp := handleCount_pos_of_mem hh hfi
  have husg : f.usage = handleCount s i := hs.usage (i, f) (flookup_mem hl)
  omega

theorem cursor_openCommit {s1 : RState} (hs : Inv s1) (hc : CursorOk s1)
    {i fd : Nat} {f : RdFile} (mode : OMode)
    (hl : flookup s1.files i = some f) :
    CursorOk (openCommit s1 i f fd mode).2 := by
  obtain ⟨ho1, ho2, ho3, ho4, ho5⟩ := hs.openfor (i, f) (flookup_mem hl)
  rw [openCommit]
  by_cases hW : f.openfor = OPENFOR_WRITE
  · rw [if_pos hW]
    exact hc
  · rw [if_neg hW]
    by_cases hrd : mode.rw = RW.rdonly
    · rw [if_pos hrd]
      refine cursorOk_setNode_ge (cursorOk_setFh hc ?_) hl (le_refl f.size)
      intro j hfj hdj g hlg
      exact Nat.zero_le _
    · rw [if_neg hrd]
      by_cases hR : f.openfor = OPENFOR_READ
      · rw [if_pos hR]
        apply cursorOk_setFh hc
        intro j hfj hdj g hlg
        exact absurd (show (none : Option Nat) = some j from hfj)
          (fun hk => Option.noConfusion hk)
      · rw [if_neg hR]
        have hof0 : f.openfor = OPENFOR_NOTHING := by
          rcases ho1 with h0 | h1 | h2
          · exact h0
          · exact absurd h1 hR
          · exact absurd h2 hW
        have hu0 : f.usage = 0 := ho2.1 hof0
        have hnone := no_handle_of_usage_zero hs hl hu0
        by_cases hA : mode.append = true
        · rw [if_pos hA]
          refine cursorOk_setNode_ge (cursorOk_setFh hc ?_) hl (le_refl f.size)
          intro j hfj hdj g hlg
          have hfj2 : some i = some j := hfj
          injection hfj2 with hv
          subst hv
          rw [hl] at hlg
          injection hlg with hg
          show f.size ≤ g.size
          rw [← hg]
        · rw [if_neg hA]
          by_cases hT : mode.trunc = true
          · rw [if_pos hT]
            refine cursorOk_setNode_bound (cursorOk_setFh hc ?_) ?_
            · intro j hfj hdj g hlg
              exact Nat.zero_le _
            · intro h hh hfi hdir
              rcases List.mem_or_eq_of_mem_set hh with hh2 | rfl
              · exact absurd hfi (hnone h hh2)
              · exact Nat.le_refl 0
          · rw [if_neg hT]
            refine cursorOk_setNode_ge (cursorOk_setFh hc ?_) hl (le_refl f.size)
            intro j hfj hdj g hlg
            exact Nat.zero_le _

theorem cursorOk_create {s : RState} (hs : Inv s) (hc : CursorOk s)
    {fn : List Char} (hne : fn ≠ [])
    (hnf : ramdisk_find_path s 0 fn false = none) {j : Nat} {s' : RState}
    (h : ramdisk_create_file s 0 fn false = some (j, s')) : CursorOk s' := by
  obtain ⟨hj, hfh, hnid, hlj, hroot, hfp', hothers, hinv'⟩ :=
    create_file_spec hs hne hnf h
  intro hd hhd k hfk hdk g hlg
  rw [hfh] at hhd
  by_cases hk0 : k = 0
  · subst hk0
    obtain ⟨f0, hf0, hdir0⟩ := hs.handles hd hhd 0 hfk
    obtain ⟨rr, hrr, hrrd⟩ := hs.root
    rw [hrr] at hf0
    have hfr : f0 = rr := by
      injection hf0 with hv
      exact hv.symm
    rw [hfr, hrrd] at hdir0
    rw [hdk] at hdir0
    exact Bool.noConfusion hdir0
  · by_cases hkj : k = j
    · exfalso
      obtain ⟨f0, hf0, hd0⟩ := hs.handles hd hhd k hfk
      have hklt := hs.keys.2 _ (flookup_mem hf0)
      rw [hkj, hj] at hklt
      exact absurd hklt (lt_irrefl _)
    · rw [hothers k hkj hk0] at hlg
      exact hc hd hhd k hfk hdk g hlg

theorem cursor_openLookup {s : RState} (hs : Inv s) (hc : CursorOk s)
    {fn : List Char} {mode : OMode} {i : Nat} {s1 : RState}
    (h : openLookup s fn mode = some (i, s1)) : CursorOk s1 := by
  rw [openLookup] at h
  by_cases hfn : fn = []
  · rw [if_pos hfn] at h
    simp only [Option.some.injEq, Prod.mk.injEq] at h
    rw [← h.2]
    exact hc
  · rw [if_neg hfn] at h
    cases hfp : ramdisk_find_path s 0 fn mode.dir with
    | some k =>
      simp only [hfp, Option.some.injEq, Prod.mk.injEq] at h
      rw [← h.2]
      exact hc
    | none =>
      simp only [hfp] at h
      split at h
      next hwr =>
        have hmd : mode.dir = false := by
          rcases hwr with ⟨hw1, hnd⟩
          simpa using hnd
        rw [hmd] at h hfp
        exact cursorOk_create hs hc hfn hfp h
      next =>
        exact Option.noConfusion h

theorem cursor_open (s : RState) (fn0 : List Char) (mode : OMode)
    (hs : Inv s) (hc : CursorOk s) : CursorOk (ramdisk_open s fn0 mode).2 := by
  rw [ramdisk_open]
  split
  next => exact hc
  next hstupid =>
    cases hres : openLookup s (stripSlash fn0) mode with
    | none =>
      simp only [hres]
      exact hc
    | some p =>
      obtain ⟨i, s1⟩ := p
      simp only [hres]
      obtain ⟨hs1, f, hlf, hdirf⟩ := openLookup_spec hs hres
      have hc1 : CursorOk s1 := cursor_openLookup hs hc hres
      simp only [hlf]
      split
      next => exact hc1
      next hdc =>
        cases hfd : findFreeFd s1 with
        | none =>
          simp only [hfd]
          exact hc1
        | some fd =>
          simp only [hfd]
          exact cursor_openCommit hs1 hc1 mode hlf

/-- Anatomy of a successful `ramdisk_open`: the lookup phase resolved a
node that passed the directory check, a free slot was found, and the
result is that of `openCommit`. -/
theorem open_success_anatomy {s : RState} {fn0 : List Char} {mode : OMode}
    {fd : Nat} {s1 : RState}
    (h : ramdisk_open s fn0 mode = (some fd, s1)) :
    ∃ i sL f fdf,
      openLookup s (stripSlash fn0) mode = some (i, sL) ∧
      flookup sL.files i = some f ∧
      ¬(f.isDir = true ∧ (¬(mode.dir = true) ∨ mode.rw ≠ RW.rdonly)) ∧
      findFreeFd sL = some fdf ∧
      openCommit sL i f fdf mode = (some fd, s1) := by
  rw [ramdisk_open] at h
  split at h
  next =>
    injection h with h1 h2
    exact Option.noConfusion h1
  next hstupid =>
    cases hres : openLookup s (stripSlash fn0) mode with
    | none =>
      simp only [hres] at h
      injection h with h1 h2
      exact Option.noConfusion h1
    | some p =>
      obtain ⟨i, sL⟩ := p
      simp only [hres] at h
      cases hlf : flookup sL.files i with
      | none =>
        simp only [hlf] at h
        injection h with h1 h2
        exact Option.noConfusion h1
      | some f =>
        simp only [hlf] at h
        split at h
        next hdc =>
          injection h with h1 h2
          exact Option.noConfusion h1
        next hdc =>
          cases hfd : findFreeFd sL with
          | none =>
            simp only [hfd] at h
            injection h with h1 h2
            exact Option.noConfusion h1
          | some fdf =>
            simp only [hfd] at h
            exact ⟨i, sL, f, fdf, rfl, hlf, hdc, hfd, h⟩

/-- The lookup phase of a read-only open never creates: the state is
unchanged and the node is the root (empty path) or the resolved one. -/
theorem openLookup_rdonly {s : RState} {fn : List Char} {mode : OMode}
    {i : Nat} {s1 : RState} (hrd : mode.rw = RW.rdonly)
    (h : openLookup s fn mode = some (i, s1)) :
    s1 = s ∧ (fn = [] ∧ i = 0 ∨
      ramdisk_find_path s 0 fn mode.dir = some i) := by
  rw [openLookup] at h
  by_cases hfn : fn = []
  · rw [if_pos hfn] at h
    simp only [Option.some.injEq, Prod.mk.injEq] at h
    exact ⟨h.2.symm, Or.inl ⟨hfn, h.1.symm⟩⟩
  · rw [if_neg hfn] at h
    cases hfp : ramdisk_find_path s 0 fn mode.dir with
    | some k =>
      simp only [hfp, Option.some.injEq, Prod.mk.injEq] at h
      refine ⟨h.2.symm, Or.inr ?_⟩
      rw [← h.1]
    | none =>
      simp only [hfp] at h
      have hcond : ¬(mode.rw ≠ RW.rdonly ∧ ¬(mode.dir = true)) :=
        fun hcon => hcon.1 hrd
      rw [if_neg hcond] at h
      exact Option.noConfusion h

/-- The shape of a successful read-only `openCommit`. -/
theorem openCommit_rdonly_shape {s1 : RState} {i fd : Nat} {f : RdFile}
    {mode : OMode} {fd' : Nat} {s2 : RState} (hrd : mode.rw = RW.rdonly)
    (h : openCommit s1 i f fd mode = (some fd', s2)) :
    fd' = fd ∧ f.openfor ≠ OPENFOR_WRITE ∧
    s2 = setNode (setFh s1 fd
      { fhGet s1 fd with
        file := some i, dir := mode.dir, omode := mode, ptr := 0,
        dptr := if mode.dir = true then f.children.head?
          else (fhGet s1 fd).dptr }) i
      { f with openfor := OPENFOR_READ, usage := f.usage + 1 } := by
  rw [openCommit] at h
  by_cases hW : f.openfor = OPENFOR_WRITE
  · rw [if_pos hW] at h
    injection h with h1 h2
    exact Option.noConfusion h1
  · rw [if_neg hW, if_pos hrd] at h
    injection h with h1 h2
    injection h1 with h1
    exact ⟨h1.symm, hW, h2.symm⟩

/-- The shape of a successful write-truncate `openCommit` (the mode used by
`fs_ramdisk_attach`). -/
theorem openCommit_write_shape {s1 : RState} {i fd : Nat} {f : RdFile}
    {mode : OMode} {fd' : Nat} {s2 : RState} (hrd : mode.rw ≠ RW.rdonly)
    (hA : mode.append = false) (hT : mode.trunc = true)
    (h : openCommit s1 i f fd mode = (some fd', s2)) :
    fd' = fd ∧ f.openfor ≠ OPENFOR_WRITE ∧ f.openfor ≠ OPENFOR_READ ∧
    s2 = setNode (setFh s1 fd
      { fhGet s1 fd with
        file := some i, dir := mode.dir, omode := mode, ptr := 0 }) i
      { f with
        openfor := OPENFOR_WRITE, data := List.replicate 1024 0,
        datasize := 1024, size := 0, usage := f.usage + 1 } := by
  rw [openCommit] at h
  by_cases hW : f.openfor = OPENFOR_WRITE
  · rw [if_pos hW] at h
    injection h with h1 h2
    exact Option.noConfusion h1
  · rw [if_neg hW, if_neg hrd] at h
    by_cases hR : f.openfor = OPENFOR_READ
    · rw [if_pos hR] at h
      injection h with h1 h2
      exact Option.noConfusion h1
    · rw [if_neg hR] at h
      rw [hA] at h
      rw [if_neg Bool.false_ne_true] at h
      rw [hT] at h
      rw [if_pos rfl] at h
      injection h with h1 h2
      injection h1 with h1
      exact ⟨h1.symm, hW, hR, h2.symm⟩

theorem cursorOk_initState : CursorOk initState := by
  intro h hh i hfi hdi f hlf
  rw [List.eq_of_mem_replicate hh] at hfi
  exact Option.noConfusion hfi

theorem cursor_attach (s : RState) (fn : List Char) (obj : List Nat)
    (size : Nat) (hs : Inv s) (hc : CursorOk s) :
    CursorOk (fs_ramdisk_attach s fn obj size).2 := by
  rw [fs_ramdisk_attach]
  cases hop : ramdisk_open s fn
      attachMode with
  | mk r s1 =>
    have hsop : Inv s1 := by
      have h := inv_open s fn
        attachMode hs
      rw [hop] at h
      exact h
    have hcop : CursorOk s1 := by
      have h := cursor_open s fn
        attachMode hs hc
      rw [hop] at h
      exact h
    cases r with
    | none => exact hcop
    | some fd =>
      simp only
      obtain ⟨i0, sL, f0, fdf, hlook, hlf0, hguard, hfdf, hcommit⟩ :=
        open_success_anatomy hop
      obtain ⟨hfdeq, hW, hR, hs1eq⟩ :=
        openCommit_write_shape (by decide) rfl rfl hcommit
      subst hfdeq
      have hsL : Inv sL := (openLookup_spec hs hlook).1
      have hof0 : f0.openfor = OPENFOR_NOTHING := by
        rcases (hsL.openfor (i0, f0) (flookup_mem hlf0)).1 with h0 | h1 | h2
        · exact h0
        · exact absurd h1 hR
        · exact absurd h2 hW
      have hu0 : f0.usage = 0 :=
        (hsL.openfor (i0, f0) (flookup_mem hlf0)).2.1.1 hof0
      have hnone := no_handle_of_usage_zero hsL hlf0 hu0
      obtain ⟨hfd1, hfdmax, hfree⟩ := findFreeFd_spec hfdf
      have hlt : fd < sL.fh.length := by
        rw [hsL.table.1]
        exact hfdmax
      have hfile1 : (fhGet s1 fd).file = some i0 := by
        rw [hs1eq, fhGet_setNode, fhGet_setFh_self hlt]
      have hptr1 : ∀ h ∈ s1.fh, h.file = some i0 → h.ptr = 0 := by
        intro h hh hfi
        rw [hs1eq] at hh
        rcases List.mem_or_eq_of_mem_set hh with hh2 | rfl
        · exact absurd hfi (hnone h hh2)
        · rfl
      cases hf : (fhGet s1 fd).file with
      | none => exact hcop
      | some i =>
        simp only
        cases hl : flookup s1.files i with
        | none => exact hcop
        | some f =>
          simp only
          have hii : i = i0 := by
            rw [hfile1] at hf
            injection hf with hv
            exact hv.symm
          subst hii
          apply cursor_close
          apply cursorOk_setNode_bound hcop
          intro h hh hfi hdir
          rw [hptr1 h hh hfi]
          exact Nat.zero_le _

theorem cursor_detach (s : RState) (fn : List Char) (hs : Inv s)
    (hc : CursorOk s)
    (hsafe : ∀ i f, ramdisk_find_path s 0 (stripSlash fn) false = some i →
      flookup s.files i = some f → f.usage = 0) :
    CursorOk (fs_ramdisk_detach s fn).2.2 := by
  rw [fs_ramdisk_detach]
  cases hop : ramdisk_open s fn
      rdonlyMode with
  | mk r s1 =>
    have hsop : Inv s1 := by
      have h := inv_open s fn
        rdonlyMode hs
      rw [hop] at h
      exact h
    have hcop : CursorOk s1 := by
      have h := cursor_open s fn
        rdonlyMode hs hc
      rw [hop] at h
      exact h
    cases r with
    | none => exact hcop
    | some fd =>
      simp only
      obtain ⟨i0, sL, f0, fdf, hlook, hlf0, hguard, hfdf, hcommit⟩ :=
        open_success_anatomy hop
      obtain ⟨hfdeq, hW, hs1eq⟩ := openCommit_rdonly_shape rfl hcommit
      subst hfdeq
      obtain ⟨hsLs, hres⟩ := openLookup_rdonly rfl hlook
      subst hsLs
      have hfind : ramdisk_find_path sL 0 (stripSlash fn) false = some i0 := by
        rcases hres with ⟨hemp, hi0⟩ | hfind
        · exfalso
          subst hi0
          obtain ⟨rr, hrr, hrrd⟩ := hs.root
          rw [hrr] at hlf0
          have hfr : f0 = rr := by
            injection hlf0 with hv
            exact hv.symm
          apply hguard
          constructor
          · rw [hfr, hrrd]
          · exact Or.inl (by decide)
        · exact hfind
      have hu0 : f0.usage = 0 := hsafe i0 f0 hfind hlf0
      have hnone := no_handle_of_usage_zero hs hlf0 hu0
      obtain ⟨hfd1, hfdmax, hfree⟩ := findFreeFd_spec hfdf
      have hlt : fd < sL.fh.length := by
        rw [hs.table.1]
        exact hfdmax
      have hfile1 : (fhGet s1 fd).file = some i0 := by
        rw [hs1eq, fhGet_setNode, fhGet_setFh_self hlt]
      have hptr1 : ∀ h ∈ s1.fh, h.file = some i0 → h.ptr = 0 := by
        intro h hh hfi
        rw [hs1eq] at hh
        rcases List.mem_or_eq_of_mem_set hh with hh2 | rfl
        · exact absurd hfi (hnone h hh2)
        · rfl
      cases hf : (fhGet s1 fd).file with
      | none => exact hcop
      | some i =>
        simp only
        cases hl : flookup s1.files i with
        | none => exact hcop
        | some f =>
          simp only
          have hii : i = i0 := by
            rw [hfile1] at hf
            injection hf with hv
            exact hv.symm
          subst hii
          apply cursor_unlink
          apply cursor_close
          apply cursorOk_setNode_bound hcop
          intro h hh hfi hdir
          rw [hptr1 h hh hfi]
          exact Nat.zero_le _

theorem reachable_of_reachableD {s : RState} (h : ReachableD s) :
    Reachable s := by
  induction h with
  | init => exact Reachable.init
  | step o hsafe hr ih => exact Reachable.step o ih

theorem cursor_applyOp (o : Op) (s : RState) (hs : Inv s)
    (hsafe : DetachSafe s o) (hc : CursorOk s) : CursorOk (applyOp o s) := by
  cases o with
  | o_open fn m => exact cursor_open s fn m hs hc
  | o_close fd => exact cursor_close s fd hc
  | o_read fd bytes => exact cursor_read s fd bytes hc
  | o_write fd buf allocOk => exact cursor_write s fd buf allocOk hc
  | o_seek fd offset whence => exact cursor_seek s fd offset whence hc
  | o_readdir fd => exact cursor_readdir s fd hc
  | o_rewinddir fd => exact cursor_rewinddir s fd hc
  | o_unlink fn => exact cursor_unlink s fn hc
  | o_attach fn buf size => exact cursor_attach s fn buf size hs hc
  | o_detach fn => exact cursor_detach s fn hs hc hsafe
  | o_query => exact hc

/-- Detach-disciplined reachable states also satisfy the cursor bound. -/
theorem cursor_reachableD {s : RState} (h : ReachableD s) : CursorOk s := by
  induction h with
  | init => exact cursorOk_initState
  | step o hsafe hr ih =>
    exact cursor_applyOp o _ (inv_reachable (reachable_of_reachableD hr))
      hsafe ih

/-! ## Support for the attach/detach round trip -/

theorem stripSlash_cons_ne {c : Char} (hc : c ≠ '/') (rest : List Char) :
    stripSlash (c :: rest) = c :: rest := by
  unfold stripSlash
  split
  next r2 heq =>
    injection heq with h1 h2
    exact absurd h1 hc
  next => rfl

/-- Resolution ignores one leading slash (empty intermediate pieces are
skipped by the loop). -/
theorem find_path_stripSlash (s : RState) (q : Nat) (p : List Char)
    (dirb : Bool) :
    ramdisk_find_path s q p dirb =
      ramdisk_find_path s q (stripSlash p) dirb := by
  cases p with
  | nil => rfl
  | cons c rest =>
    by_cases hc : c = '/'
    · subst hc
      show findPathLoop s dirb q none ([] :: splitSegs rest) =
        ramdisk_find_path s q (stripSlash ('/' :: rest)) dirb
      show findPathLoop s dirb q none ([] :: splitSegs rest) =
        findPathLoop s dirb q none (splitSegs rest)
      cases hsr : splitSegs rest with
      | nil =>
        cases dirb
        · rfl
        · rfl
      | cons sg ss => rfl
    · rw [stripSlash_cons_ne hc]

/-- In a list whose `filterMap` image is duplicate-free, two members mapping
to the same value are the same member. -/
theorem nodup_filterMap_eq {α β : Type} {F : α → Option β} {l : List α}
    (hn : (l.filterMap F).Nodup) {a b : α} (ha : a ∈ l) (hb : b ∈ l)
    {v : β} (hfa : F a = some v) (hfb : F b = some v) : a = b := by
  induction l with
  | nil => cases ha
  | cons x xs ih =>
    rw [List.filterMap_cons] at hn
    rcases List.mem_cons.1 ha with rfl | ha2
    · rcases List.mem_cons.1 hb with rfl | hb2
      · rfl
      · exfalso
        rw [hfa] at hn
        have hv : v ∈ xs.filterMap F := List.mem_filterMap.2 ⟨b, hb2, hfb⟩
        exact (List.nodup_cons.1 hn).1 hv
    · rcases List.mem_cons.1 hb with rfl | hb2
      · exfalso
        rw [hfb] at hn
        have hv : v ∈ xs.filterMap F := List.mem_filterMap.2 ⟨a, ha2, hfa⟩
        exact (List.nodup_cons.1 hn).1 hv
      · cases hfx : F x with
        | none =>
          rw [hfx] at hn
          exact ih hn ha2 hb2
        | some w =>
          rw [hfx] at hn
          exact ih (List.nodup_cons.1 hn).2 ha2 hb2

/-- Case-insensitive uniqueness of names within one directory, extracted
from `NamesOk`. -/
theorem names_distinct {s : RState} (hs : Inv s) {q : Nat} {d : RdFile}
    (hq : flookup s.files q = some d) {a b : Nat} (ha : a ∈ d.children)
    (hb : b ∈ d.children) (hab : a ≠ b) {ga gb : RdFile}
    (hga : flookup s.files a = some ga) (hgb : flookup s.files b = some gb) :
    lowName ga.name ≠ lowName gb.name := by
  intro heq
  have hnody := hs.names (q, d) (flookup_mem hq)
  apply hab
  apply nodup_filterMap_eq hnody ha hb
  · show (flookup s.files a).map (fun g => lowName g.name) =
      some (lowName gb.name)
    rw [hga]
    simp only [Option.map_some']
    rw [heq]
  · show (flookup s.files b).map (fun g => lowName g.name) =
      some (lowName gb.name)
    rw [hgb]
    rfl

/-- Unlinking the node a slash-free path resolves to makes the path
unresolvable: no other child of the root carries that name. -/
theorem find_path_removeNode_none {s : RState} (hs : Inv s) {fn : List Char}
    (hne : fn ≠ []) (hsl : '/' ∉ fn) {i : Nat}
    (hfind : ramdisk_find_path s 0 fn false = some i) :
    ramdisk_find_path (removeNode s i) 0 fn false = none := by
  rw [find_path_single s hne hsl] at hfind
  rw [find_path_single (removeNode s i) hne hsl]
  cases hf : ramdisk_find s 0 fn with
  | none =>
    simp only [hf] at hfind
    exact Option.noConfusion hfind
  | some g =>
    simp only [hf] at hfind
    cases hg : flookup s.files g with
    | none =>
      simp only [hg] at hfind
      exact Option.noConfusion hfind
    | some gf =>
      simp only [hg] at hfind
      by_cases hd : gf.isDir = true
      · rw [if_pos hd] at hfind
        exact Option.noConfusion hfind
      · rw [if_neg hd] at hfind
        have hgi : g = i := by injection hfind
        subst hgi
        obtain ⟨d, hd0, hmem, g2, hg2, hlow⟩ := ramdisk_find_some hf
        obtain ⟨hno0, hlive, hnody⟩ := hs.children (0, d) (flookup_mem hd0)
        have hi0 : g ≠ 0 := fun h0 => hno0 (h0 ▸ hmem)
        have hroot2 : flookup (removeNode s g).files 0 =
            some { d with children := d.children.erase g } := by
          rw [flookup_removeNode_ne s (fun he => hi0 he.symm), hd0]
          rfl
        have hfindR : ramdisk_find (removeNode s g) 0 fn = none := by
          rw [ramdisk_find, hroot2]
          show findInList (removeNode s g) (d.children.erase g) fn = none
          rw [findInList_eq_none]
          intro c hc g' hg' hlow2
          have hcne : c ≠ g := (hnody.mem_erase_iff.1 hc).1
          have hcmem : c ∈ d.children := (hnody.mem_erase_iff.1 hc).2
          rw [flookup_removeNode_ne s hcne] at hg'
          cases hgc : flookup s.files c with
          | none =>
            rw [hgc] at hg'
            exact Option.noConfusion hg'
          | some gc =>
            rw [hgc] at hg'
            simp only [Option.map_some', Option.some.injEq] at hg'
            have hnm : g'.name = gc.name := by
              rw [← hg']
            apply names_distinct hs hd0 hcmem hmem hcne hgc hg2
            rw [← hnm, hlow2, hlow]
        simp only [hfindR]

/-- `findFreeFd` depends only on which slots hold an open file. -/
theorem findFreeFd_ext {s s' : RState}
    (h : ∀ fd, (fhGet s' fd).file.isNone = (fhGet s fd).file.isNone) :
    findFreeFd s' = findFreeFd s := by
  rw [findFreeFd, findFreeFd]
  have hr : List.range' 1 (FS_RAMDISK_MAX_FILES - 1) = [1, 2, 3, 4, 5, 6, 7] :=
    rfl
  rw [hr]
  simp only [List.find?]
  rw [h 1, h 2, h 3, h 4, h 5, h 6, h 7]

/-- Concrete behavior of a successful `fs_ramdisk_attach` whose lookup phase
resolved (or created) an unused file node: the call returns 0, the node
afterwards holds the caller's buffer with the given size and is closed
again, path resolution is unaffected, and slot occupancy is as before. -/
theorem attach_core (s : RState) (p : List Char) (B : List Nat) (n : Nat)
    {i fd0 : Nat} {sL : RState} {f : RdFile}
    (hlook : openLookup s (stripSlash p)
      attachMode =
      some (i, sL))
    (hsL : Inv sL) (hl : flookup sL.files i = some f)
    (hdir : f.isDir = false) (hof : f.openfor = OPENFOR_NOTHING)
    (hu : f.usage = 0) (hfree : findFreeFd sL = some fd0) :
    ∃ (s2 : RState) (f2 : RdFile),
      fs_ramdisk_attach s p B n = (0, s2) ∧
      SameView sL s2 ∧
      flookup s2.files i = some f2 ∧
      f2.data = B ∧ f2.size = n ∧ f2.usage = 0 ∧
      f2.openfor = OPENFOR_NOTHING ∧ f2.isDir = false ∧
      (∀ fd', (fhGet s2 fd').file.isNone = (fhGet sL fd').file.isNone) := by
  obtain ⟨hfd1, hfdmax, hfree0⟩ := findFreeFd_spec hfree
  have hlt : fd0 < sL.fh.length := by
    rw [hsL.table.1]
    exact hfdmax
  have hW : f.openfor ≠ OPENFOR_WRITE := by
    rw [hof]
    decide
  have hR : f.openfor ≠ OPENFOR_READ := by
    rw [hof]
    decide
  have hstupid : ¬((attachMode : OMode).dir = true ∧
      (attachMode : OMode).rw ≠ RW.rdonly) := by
    decide
  have hnordonly : ¬((attachMode : OMode).rw = RW.rdonly) := by
    decide
  have hnoappend : ¬((attachMode : OMode).append = true) := by
    decide
  have htrunc : (attachMode : OMode).trunc = true := by
    decide
  have hguard : ¬(f.isDir = true ∧
      (¬(attachMode : OMode).dir = true ∨
      (attachMode : OMode).rw ≠ RW.rdonly)) := by
    intro hcon
    have h1 := hcon.1
    rw [hdir] at h1
    exact Bool.noConfusion h1
  have hopen : ramdisk_open s p
      attachMode =
      (some fd0,
        setNode (setFh sL fd0
          { fhGet sL fd0 with
            file := some i, dir := false,
            omode := attachMode,
            ptr := 0 }) i
          { f with
            openfor := OPENFOR_WRITE, data := List.replicate 1024 0,
            datasize := 1024, size := 0, usage := f.usage + 1 }) := by
    rw [ramdisk_open, if_neg hstupid]
    simp only [hlook]
    simp only [hl]
    rw [if_neg hguard]
    simp only [hfree]
    rw [openCommit, if_neg hW, if_neg hnordonly, if_neg hR,
      if_neg hnoappend, if_pos htrunc]
  obtain ⟨s1, hs1⟩ : ∃ s1,
      setNode (setFh sL fd0
        { fhGet sL fd0 with
          file := some i, dir := false,
          omode := attachMode,
          ptr := 0 }) i
        { f with
          openfor := OPENFOR_WRITE, data := List.replicate 1024 0,
          datasize := 1024, size := 0, usage := f.usage + 1 } = s1 :=
    ⟨_, rfl⟩
  rw [hs1] at hopen
  have hfh1 : fhGet s1 fd0 =
      { fhGet sL fd0 with
        file := some i, dir := false,
        omode := attachMode,
        ptr := 0 } := by
    rw [← hs1, fhGet_setNode]
    exact fhGet_setFh_self hlt _
  have hfile1 : (fhGet s1 fd0).file = some i := by
    rw [hfh1]
  have hl1 : flookup s1.files i = some
      { f with
        openfor := OPENFOR_WRITE, data := List.replicate 1024 0,
        datasize := 1024, size := 0, usage := f.usage + 1 } := by
    rw [← hs1]
    exact flookup_updAssoc_self _ hl
  have hattach : fs_ramdisk_attach s p B n =
      (0, (ramdisk_close (setNode s1 i
        { f with
          openfor := OPENFOR_WRITE, data := B,
          datasize := n, size := n, usage := f.usage + 1 }) fd0).2) := by
    rw [fs_ramdisk_attach]
    simp only [hopen]
    simp only [hfile1]
    simp only [hl1]
  obtain ⟨s2m, hs2m⟩ : ∃ s2m,
      setNode s1 i
        { f with
          openfor := OPENFOR_WRITE, data := B,
          datasize := n, size := n, usage := f.usage + 1 } = s2m :=
    ⟨_, rfl⟩
  rw [hs2m] at hattach
  have hfile2 : (fhGet s2m fd0).file = some i := by
    rw [← hs2m, fhGet_setNode]
    exact hfile1
  have hl2 : flookup s2m.files i = some
      { f with
        openfor := OPENFOR_WRITE, data := B,
        datasize := n, size := n, usage := f.usage + 1 } := by
    rw [← hs2m]
    exact flookup_updAssoc_self _ hl1
  have husage2 : ({ f with
      openfor := OPENFOR_WRITE, data := B,
      datasize := n, size := n, usage := f.usage + 1 } :
        RdFile).usage - 1 = 0 := by
    show f.usage + 1 - 1 = 0
    omega
  have hclose : ramdisk_close s2m fd0 =
      (0, setNode (setFh s2m fd0 { fhGet s2m fd0 with file := none }) i
        { f with
          openfor := OPENFOR_NOTHING, data := B,
          datasize := n, size := n, usage := f.usage + 1 - 1 }) := by
    rw [ramdisk_close, if_pos hfdmax]
    simp only [hfile2]
    simp only [hl2]
    rw [if_pos husage2]
  refine ⟨_, { f with
      openfor := OPENFOR_NOTHING, data := B,
      datasize := n, size := n, usage := f.usage + 1 - 1 },
    by rw [hattach, hclose], ?_, ?_, rfl, rfl, by show f.usage + 1 - 1 = 0; omega,
    rfl, hdir, ?_⟩
  · -- SameView sL (close result)
    have hv1 : SameView sL s1 := by
      rw [← hs1]
      exact sameView_trans (sameView_setFh sL fd0 _)
        (sameView_setNode (show flookup (setFh sL fd0 _).files i = some f
          from hl) rfl)
    have hv2 : SameView s1 s2m := by
      rw [← hs2m]
      exact sameView_setNode hl1 rfl
    have hv3 : SameView s2m (setNode (setFh s2m fd0
        { fhGet s2m fd0 with file := none }) i
        { f with
          openfor := OPENFOR_NOTHING, data := B,
          datasize := n, size := n, usage := f.usage + 1 - 1 }) :=
      sameView_trans (sameView_setFh s2m fd0 _)
        (sameView_setNode (show flookup (setFh s2m fd0 _).files i = some _
          from hl2) rfl)
    exact sameView_trans (sameView_trans hv1 hv2) hv3
  · exact flookup_updAssoc_self _ hl2
  · intro fd'
    by_cases hfd' : fd' = fd0
    · subst hfd'
      have hlen2 : fd' < s2m.fh.length := by
        rw [← hs2m, ← hs1]
        show fd' < (sL.fh.set fd' _).length
        rw [List.length_set]
        exact hlt
      have : fhGet (setNode (setFh s2m fd'
          { fhGet s2m fd' with file := none }) i
          { f with
            openfor := OPENFOR_NOTHING, data := B,
            datasize := n, size := n, usage := f.usage + 1 - 1 }) fd' =
          { fhGet s2m fd' with file := none } := by
        rw [fhGet_setNode]
        exact fhGet_setFh_self hlen2 _
      rw [this, hfree0]
    · have h3 : fhGet (setNode (setFh s2m fd0
          { fhGet s2m fd0 with file := none }) i
          { f with
            openfor := OPENFOR_NOTHING, data := B,
            datasize := n, size := n, usage := f.usage + 1 - 1 }) fd' =
          fhGet s2m fd' := by
        rw [fhGet_setNode]
        exact fhGet_setFh_ne hfd' _
      rw [h3, ← hs2m, fhGet_setNode, ← hs1, fhGet_setNode,
        fhGet_setFh_ne hfd']

/-- Concrete behavior of a successful `fs_ramdisk_detach` on an unused file
node: the caller receives the node's buffer and logical size, and the path
no longer resolves afterwards. -/
theorem detach_core (s2 : RState) (p : List Char) {i : Nat} {f2 : RdFile}
    (hs2 : Inv s2) (hne : stripSlash p ≠ []) (hsl : '/' ∉ stripSlash p)
    (hfind : ramdisk_find_path s2 0 (stripSlash p) false = some i)
    (hl : flookup s2.files i = some f2) (hu : f2.usage = 0)
    (hfreeE : findFreeFd s2 ≠ none) :
    ∃ s3, fs_ramdisk_detach s2 p = (0, some (f2.data, f2.size), s3) ∧
      ramdisk_find_path s3 0 (stripSlash p) false = none := by
  cases hfree : findFreeFd s2 with
  | none => exact absurd hfree hfreeE
  | some fd0 =>
  obtain ⟨hfd1, hfdmax, hfree0⟩ := findFreeFd_spec hfree
  have hlt : fd0 < s2.fh.length := by
    rw [hs2.table.1]
    exact hfdmax
  have hdir : f2.isDir = false := by
    obtain ⟨⟨g, hg, hgdir⟩, hparent⟩ := find_path_false_some hfind
    rw [hl] at hg
    have : f2 = g := by
      injection hg
    rw [this]
    exact hgdir
  have hof : f2.openfor = OPENFOR_NOTHING :=
    (hs2.openfor (i, f2) (flookup_mem hl)).2.1.mpr hu
  have hW : f2.openfor ≠ OPENFOR_WRITE := by
    rw [hof]
    decide
  have hstupid2 : ¬(rdonlyMode.dir = true ∧ rdonlyMode.rw ≠ RW.rdonly) := by
    decide
  have hguard2 : ¬(f2.isDir = true ∧
      (¬rdonlyMode.dir = true ∨ rdonlyMode.rw ≠ RW.rdonly)) := by
    intro hcon
    have h1 := hcon.1
    rw [hdir] at h1
    exact Bool.noConfusion h1
  have hlook : openLookup s2 (stripSlash p) rdonlyMode = some (i, s2) := by
    rw [openLookup, if_neg hne]
    have hfind2 : ramdisk_find_path s2 0 (stripSlash p) rdonlyMode.dir =
        some i := hfind
    simp only [hfind2]
  have hopen : ramdisk_open s2 p rdonlyMode =
      (some fd0,
        setNode (setFh s2 fd0
          { fhGet s2 fd0 with
            file := some i, dir := false, omode := rdonlyMode, ptr := 0 }) i
          { f2 with openfor := OPENFOR_READ, usage := f2.usage + 1 }) := by
    rw [ramdisk_open, if_neg hstupid2]
    simp only [hlook]
    simp only [hl]
    rw [if_neg hguard2]
    simp only [hfree]
    rw [openCommit, if_neg hW,
      if_pos (show rdonlyMode.rw = RW.rdonly from rfl)]
    rfl
  obtain ⟨s1, hs1⟩ : ∃ s1,
      setNode (setFh s2 fd0
        { fhGet s2 fd0 with
          file := some i, dir := false, omode := rdonlyMode, ptr := 0 }) i
        { f2 with openfor := OPENFOR_READ, usage := f2.usage + 1 } = s1 :=
    ⟨_, rfl⟩
  rw [hs1] at hopen
  have hsop : Inv s1 := by
    have h := inv_open s2 p rdonlyMode hs2
    rw [hopen] at h
    exact h
  have hfh1 : fhGet s1 fd0 =
      { fhGet s2 fd0 with
        file := some i, dir := false, omode := rdonlyMode, ptr := 0 } := by
    rw [← hs1, fhGet_setNode]
    exact fhGet_setFh_self hlt _
  have hfile1 : (fhGet s1 fd0).file = some i := by
    rw [hfh1]
  have hl1 : flookup s1.files i =
      some { f2 with openfor := OPENFOR_READ, usage := f2.usage + 1 } := by
    rw [← hs1]
    exact flookup_updAssoc_self _ hl
  have hdetach : fs_ramdisk_detach s2 p =
      (0, some (f2.data, f2.size),
        (ramdisk_unlink ((ramdisk_close (setNode s1 i
          { f2 with
            openfor := OPENFOR_READ, usage := f2.usage + 1,
            data := List.replicate 64 0, datasize := 64, size := 64 })
          fd0).2) p).2) := by
    rw [fs_ramdisk_detach]
    simp only [hopen]
    simp only [hfile1]
    simp only [hl1]
  obtain ⟨s2m, hs2m⟩ : ∃ s2m,
      setNode s1 i
        { f2 with
          openfor := OPENFOR_READ, usage := f2.usage + 1,
          data := List.replicate 64 0, datasize := 64, size := 64 } = s2m :=
    ⟨_, rfl⟩
  rw [hs2m] at hdetach
  have hs2minv : Inv s2m := by
    rw [← hs2m]
    exact inv_setNode_content hsop hl1 rfl rfl rfl rfl rfl
      (fun hdd => le_refl _)
  have hfile2 : (fhGet s2m fd0).file = some i := by
    rw [← hs2m, fhGet_setNode]
    exact hfile1
  have hl2 : flookup s2m.files i = some
      { f2 with
        openfor := OPENFOR_READ, usage := f2.usage + 1,
        data := List.replicate 64 0, datasize := 64, size := 64 } := by
    rw [← hs2m]
    exact flookup_updAssoc_self _ hl1
  have husage2 : ({ f2 with
      openfor := OPENFOR_READ, usage := f2.usage + 1,
      data := List.replicate 64 0, datasize := 64, size := 64 } :
        RdFile).usage - 1 = 0 := by
    show f2.usage + 1 - 1 = 0
    omega
  have hclose : ramdisk_close s2m fd0 =
      (0, setNode (setFh s2m fd0 { fhGet s2m fd0 with file := none }) i
        { f2 with
          openfor := OPENFOR_NOTHING, usage := f2.usage + 1 - 1,
          data := List.replicate 64 0, datasize := 64, size := 64 }) := by
    rw [ramdisk_close, if_pos hfdmax]
    simp only [hfile2]
    simp only [hl2]
    rw [if_pos husage2]
  obtain ⟨s3m, hs3m⟩ : ∃ s3m,
      setNode (setFh s2m fd0 { fhGet s2m fd0 with file := none }) i
        { f2 with
          openfor := OPENFOR_NOTHING, usage := f2.usage + 1 - 1,
          data := List.replicate 64 0, datasize := 64, size := 64 } = s3m :=
    ⟨_, rfl⟩
  rw [hs3m] at hclose
  have hs3minv : Inv s3m := by
    have h := inv_close s2m fd0 hs2minv
    rw [hclose] at h
    exact h
  have hview : SameView s2 s3m := by
    have hv1 : SameView s2 s1 := by
      rw [← hs1]
      exact sameView_trans (sameView_setFh s2 fd0 _)
        (sameView_setNode (show flookup (setFh s2 fd0 _).files i = some f2
          from hl) rfl)
    have hv2 : SameView s1 s2m := by
      rw [← hs2m]
      exact sameView_setNode hl1 rfl
    have hv3 : SameView s2m s3m := by
      rw [← hs3m]
      exact sameView_trans (sameView_setFh s2m fd0 _)
        (sameView_setNode (show flookup (setFh s2m fd0 _).files i = some _
          from hl2) rfl)
    exact sameView_trans (sameView_trans hv1 hv2) hv3
  have hfindS : ramdisk_find_path s3m 0 (stripSlash p) false = some i :=
    (sameView_find_path hview 0 (stripSlash p) false).trans hfind
  have hfindP : ramdisk_find_path s3m 0 p false = some i := by
    rw [find_path_stripSlash]
    exact hfindS
  have hlQ : flookup s3m.files i = some
      { f2 with
        openfor := OPENFOR_NOTHING, usage := f2.usage + 1 - 1,
        data := List.replicate 64 0, datasize := 64, size := 64 } := by
    rw [← hs3m]
    exact flookup_updAssoc_self _ hl2
  have hunlink : ramdisk_unlink s3m p = (0, removeNode s3m i) := by
    rw [ramdisk_unlink]
    simp only [hfindP]
    simp only [hlQ]
    rw [if_pos (show ({ f2 with
      openfor := OPENFOR_NOTHING, usage := f2.usage + 1 - 1,
      data := List.replicate 64 0, datasize := 64, size := 64 } :
        RdFile).usage = 0 from by show f2.usage + 1 - 1 = 0; omega)]
  refine ⟨removeNode s3m i, ?_, ?_⟩
  · rw [hdetach, hclose]
    show (0, some (f2.data, f2.size), (ramdisk_unlink s3m p).2) = _
    rw [hunlink]
  · exact find_path_removeNode_none hs3minv hne hsl hfindS

/-- C4: for every reachable state, slash-free path whose node (if present)
is unused, and buffer `B` — given a free handle slot — `fs_ramdisk_attach`
returns 0, an immediately following `fs_ramdisk_detach` returns 0 handing
back exactly the buffer `B` and its length, and afterwards the path no
longer resolves. -/
theorem C4_attach_detach_roundtrip (s : RState) (p : List Char)
    (B : List Nat) (hr : Reachable s) (hne : stripSlash p ≠ [])
    (hsl : '/' ∉ stripSlash p)
    (husage : ∀ i f, ramdisk_find_path s 0 (stripSlash p) false = some i →
      flookup s.files i = some f → f.usage = 0)
    (hfreeE : findFreeFd s ≠ none) :
    ∃ s2 s3,
      fs_ramdisk_attach s p B B.length = (0, s2) ∧
      fs_ramdisk_detach s2 p = (0, some (B, B.length), s3) ∧
      ramdisk_find_path s3 0 (stripSlash p) false = none := by
  have hs : Inv s := inv_reachable hr
  cases hfreef : findFreeFd s with
  | none => exact absurd hfreef hfreeE
  | some fd0 =>
  have hcase : ∃ i sL f,
      openLookup s (stripSlash p) attachMode = some (i, sL) ∧
      Inv sL ∧ flookup sL.files i = some f ∧ f.isDir = false ∧
      f.openfor = OPENFOR_NOTHING ∧ f.usage = 0 ∧
      findFreeFd sL = some fd0 ∧
      ramdisk_find_path sL 0 (stripSlash p) false = some i := by
    cases hfind : ramdisk_find_path s 0 (stripSlash p) false with
    | some i =>
      obtain ⟨⟨g, hg, hgdir⟩, hq⟩ := find_path_false_some hfind
      have hu := husage i g hfind hg
      have hof : g.openfor = OPENFOR_NOTHING :=
        (hs.openfor (i, g) (flookup_mem hg)).2.1.mpr hu
      refine ⟨i, s, g, ?_, hs, hg, hgdir, hof, hu, hfreef, hfind⟩
      rw [openLookup, if_neg hne]
      have hfind2 : ramdisk_find_path s 0 (stripSlash p) attachMode.dir =
          some i := hfind
      simp only [hfind2]
    | none =>
      have hcreate : ∃ s', ramdisk_create_file s 0 (stripSlash p) false =
          some (s.nextId, s') := by
        obtain ⟨r, hroot, hrootd⟩ := hs.root
        have hgp : ramdisk_get_parent s 0 (stripSlash p) =
            some (0, stripSlash p) := by
          rw [ramdisk_get_parent, lastSlashSplit_eq_none.2 hsl]
        rw [ramdisk_create_file]
        simp only [hgp]
        simp only [hroot]
        exact ⟨_, rfl⟩
      obtain ⟨s', hcreate⟩ := hcreate
      obtain ⟨hj, hfh, hnid, hlj, hrootlink, hfp2, hothers, hinv2⟩ :=
        create_file_spec hs hne hfind hcreate
      refine ⟨s.nextId, s', mkNewFile (stripSlash p), ?_, hinv2, hlj,
        rfl, rfl, rfl, ?_, hfp2⟩
      · rw [openLookup, if_neg hne]
        have hfind2 : ramdisk_find_path s 0 (stripSlash p) attachMode.dir =
            none := hfind
        simp only [hfind2]
        rw [if_pos ⟨(by decide : attachMode.rw ≠ RW.rdonly),
          (by decide : ¬attachMode.dir = true)⟩]
        exact hcreate
      · refine (findFreeFd_ext ?_).trans hfreef
        intro fd
        rw [show fhGet s' fd = fhGet s fd from by rw [fhGet, fhGet, hfh]]
  obtain ⟨i, sL, f, hlook, hsL, hlf, hdirf, hoff, huf, hfreeL, hfindL⟩ :=
    hcase
  obtain ⟨s2, f2, hattach, hview, hl2, hdata, hsize, husage0, hof2, hdir2,
    hslots⟩ := attach_core s p B B.length hlook hsL hlf hdirf hoff huf hfreeL
  have hs2 : Inv s2 := by
    have h := inv_attach s p B B.length hs
    rw [hattach] at h
    exact h
  have hfind2 : ramdisk_find_path s2 0 (stripSlash p) false = some i :=
    (sameView_find_path hview 0 (stripSlash p) false).trans hfindL
  have hfree2 : findFreeFd s2 ≠ none := by
    intro hcon
    rw [findFreeFd_ext hslots, hfreeL] at hcon
    exact Option.noConfusion hcon
  obtain ⟨s3, hdetach, hnone⟩ :=
    detach_core s2 p hs2 hne hsl hfind2 hl2 husage0 hfree2
  refine ⟨s2, s3, hattach, ?_, hnone⟩
  rw [hdetach, hdata, hsize]

/-- C4 witness: on a fresh filesystem, attaching a 3-byte buffer at `f` and
detaching it hands the same buffer back and unlinks the path. -/
theorem C4_attach_detach_roundtrip_witness :
    ∃ s2 s3,
      fs_ramdisk_attach initState ['f'] [5, 6, 7] [5, 6, 7].length =
        (0, s2) ∧
      fs_ramdisk_detach s2 ['f'] = (0, some ([5, 6, 7], [5, 6, 7].length), s3) ∧
      ramdisk_find_path s3 0 (stripSlash ['f']) false = none :=
  C4_attach_detach_roundtrip initState ['f'] [5, 6, 7] Reachable.init
    (by decide) (by decide)
    (fun i f hfind hl => Option.noConfusion hfind)
    (by decide)

/-! ## The claims -/

/-- C1: in every reachable state each node has at most one writer handle
and no reader handle coexists with a writer; and the `ramdisk_open` commit
gate returns null for any open of a node whose lock is `OPENFOR_WRITE`, and
for a writable open of a node whose lock is `OPENFOR_READ`. -/
theorem C1_write_exclusion :
    (∀ s : RState, Reachable s → ∀ i : Nat,
      writerCount s i ≤ 1 ∧ (1 ≤ writerCount s i → readerCount s i = 0)) ∧
    (∀ (s1 : RState) (i fd : Nat) (f : RdFile) (mode : OMode),
      (f.openfor = OPENFOR_WRITE → (openCommit s1 i f fd mode).1 = none) ∧
      (f.openfor = OPENFOR_READ → mode.rw ≠ RW.rdonly →
        (openCommit s1 i f fd mode).1 = none)) := by
  constructor
  · intro s hr i
    exact exclusion_of_inv (inv_reachable hr) i
  · intro s1 i fd f mode
    constructor
    · intro hW
      rw [openCommit, if_pos hW]
    · intro hR hrd
      have hW : f.openfor ≠ OPENFOR_WRITE := by
        rw [hR]
        decide
      rw [openCommit, if_neg hW, if_neg hrd, if_pos hR]

/-- C1 witness: the exclusion counts in the fresh state, and the commit
gate refusing a write-locked node. -/
theorem C1_write_exclusion_witness :
    (writerCount initState 0 ≤ 1 ∧
      (1 ≤ writerCount initState 0 → readerCount initState 0 = 0)) ∧
    (openCommit initState 1 cBusyNode 1 attachMode).1 = none :=
  ⟨C1_write_exclusion.1 initState Reachable.init 0,
   (C1_write_exclusion.2 initState 1 1 cBusyNode attachMode).1 rfl⟩

set_option maxRecDepth 100000 in
/-- C2 counterexample: after creating and filling `f`, reopening it
read-only with the cursor at 100, and detaching `f` while that handle is
open, the reachable state has a handle whose cursor (100) exceeds its
node's logical size (64): the claimed invariant is not preserved by
`fs_ramdisk_detach` with other read handles open. -/
theorem C2_cursor_counterexample :
    Reachable cBadState ∧ ¬ CursorOk cBadState := by
  constructor
  · exact Reachable.step (Op.o_detach ['f'])
      (Reachable.step (Op.o_seek 1 100 0)
        (Reachable.step (Op.o_open ['f'] rdonlyMode)
          (Reachable.step (Op.o_close 1)
            (Reachable.step (Op.o_write 1 (List.replicate 100 7) true)
              (Reachable.step (Op.o_open ['f'] cW) Reachable.init)))))
  · intro hc
    have hm : fhGet cBadState 1 ∈ cBadState.fh := fhGet_mem (by decide)
    have hfile : (fhGet cBadState 1).file = some 1 := rfl
    have hdir : (fhGet cBadState 1).dir = false := rfl
    have hlk : flookup cBadState.files 1 = some cBadNode := rfl
    have hle := hc (fhGet cBadState 1) hm 1 hfile hdir cBadNode hlk
    have hptr : (fhGet cBadState 1).ptr = 100 := rfl
    rw [hptr] at hle
    have hsz : cBadNode.size = 64 := rfl
    rw [hsz] at hle
    omega

/-- C2 (amended): in every reachable state capacity bounds the logical
size of every file; the cursor bound additionally holds in every state
reachable with detach invoked only on nodes no handle has open — an
undisciplined `fs_ramdisk_detach` breaks it. -/
theorem C2_capacity_cursor :
    (∀ s : RState, Reachable s → CapOk s) ∧
    (∀ s : RState, ReachableD s → CapOk s ∧ CursorOk s) := by
  constructor
  · intro s hr
    exact (inv_reachable hr).cap
  · intro s hr
    exact ⟨(inv_reachable (reachable_of_reachableD hr)).cap,
      cursor_reachableD hr⟩

/-- C2 witness: both bounds in the fresh state. -/
theorem C2_capacity_cursor_witness :
    CapOk initState ∧ (CapOk initState ∧ CursorOk initState) :=
  ⟨C2_capacity_cursor.1 initState Reachable.init,
   C2_capacity_cursor.2 initState ReachableD.init⟩

/-- C7 counterexample: with the root directory open through handle 1,
`ramdisk_stat` of `/` reports the directory mode with execute bits while
`ramdisk_fstat` of that handle omits them, so stat and fstat disagree on
the mode of the same directory node. -/
theorem C7_mode_counterexample :
    Reachable cS7 ∧
    ramdisk_stat cS7 ['/'] = Except.ok rootStat ∧
    (∃ st, ramdisk_fstat cS7 1 = Except.ok st ∧
      st.st_mode ≠ rootStat.st_mode) := by
  refine ⟨Reachable.step (Op.o_open ['/'] cDirMode) Reachable.init, rfl,
    fstatOf { rootNode with openfor := OPENFOR_READ, usage := 1 }, rfl, ?_⟩
  decide

/-- C7 (amended): the reported mode is the file-type bit union'd with the
read/write permission bits; `ramdisk_stat` additionally sets the execute
bits for directories but `ramdisk_fstat` does not, so the two agree on
files and differ on directories. -/
theorem C7_mode_amended (f : RdFile) :
    (f.isDir = false → (statOf f).st_mode = (fstatOf f).st_mode ∧
      (statOf f).st_mode = (S_IRUSR ||| S_IWUSR ||| S_IRGRP ||| S_IWGRP |||
        S_IROTH ||| S_IWOTH) ||| S_IFREG) ∧
    (f.isDir = true →
      (statOf f).st_mode = (S_IRUSR ||| S_IWUSR ||| S_IRGRP ||| S_IWGRP |||
        S_IROTH ||| S_IWOTH) ||| (S_IFDIR ||| S_IXUSR ||| S_IXGRP ||| S_IXOTH) ∧
      (fstatOf f).st_mode = (S_IRUSR ||| S_IWUSR ||| S_IRGRP ||| S_IWGRP |||
        S_IROTH ||| S_IWOTH) ||| S_IFDIR ∧
      (statOf f).st_mode ≠ (fstatOf f).st_mode) ∧
    rootStat.st_mode = S_IFDIR ||| S_IRWXU ||| S_IRWXG ||| S_IRWXO := by
  refine ⟨?_, ?_, rfl⟩
  · intro hd
    constructor
    · show (S_IRUSR ||| S_IWUSR ||| S_IRGRP ||| S_IWGRP ||| S_IROTH ||| S_IWOTH) |||
        (if f.isDir = true then S_IFDIR ||| S_IXUSR ||| S_IXGRP ||| S_IXOTH
          else S_IFREG) =
        (S_IRUSR ||| S_IWUSR ||| S_IRGRP ||| S_IWGRP ||| S_IROTH ||| S_IWOTH) |||
        (if f.isDir = true then S_IFDIR else S_IFREG)
      rw [hd]
      decide
    · show (S_IRUSR ||| S_IWUSR ||| S_IRGRP ||| S_IWGRP ||| S_IROTH ||| S_IWOTH) |||
        (if f.isDir = true then S_IFDIR ||| S_IXUSR ||| S_IXGRP ||| S_IXOTH
          else S_IFREG) = _
      rw [hd]
      decide
  · intro hd
    refine ⟨?_, ?_, ?_⟩
    · show (S_IRUSR ||| S_IWUSR ||| S_IRGRP ||| S_IWGRP ||| S_IROTH ||| S_IWOTH) |||
        (if f.isDir = true then S_IFDIR ||| S_IXUSR ||| S_IXGRP ||| S_IXOTH
          else S_IFREG) = _
      rw [hd]
      decide
    · show (S_IRUSR ||| S_IWUSR ||| S_IRGRP ||| S_IWGRP ||| S_IROTH ||| S_IWOTH) |||
        (if f.isDir = true then S_IFDIR else S_IFREG) = _
      rw [hd]
      decide
    · show (S_IRUSR ||| S_IWUSR ||| S_IRGRP ||| S_IWGRP ||| S_IROTH ||| S_IWOTH) |||
        (if f.isDir = true then S_IFDIR ||| S_IXUSR ||| S_IXGRP ||| S_IXOTH
          else S_IFREG) ≠
        (S_IRUSR ||| S_IWUSR ||| S_IRGRP ||| S_IWGRP ||| S_IROTH ||| S_IWOTH) |||
        (if f.isDir = true then S_IFDIR else S_IFREG)
      rw [hd]
      decide

/-- C7 witness: the amended mode facts at the root node. -/
theorem C7_mode_amended_witness :
    (statOf rootNode).st_mode = (S_IRUSR ||| S_IWUSR ||| S_IRGRP ||| S_IWGRP |||
      S_IROTH ||| S_IWOTH) ||| (S_IFDIR ||| S_IXUSR ||| S_IXGRP ||| S_IXOTH) ∧
    (fstatOf rootNode).st_mode = (S_IRUSR ||| S_IWUSR ||| S_IRGRP ||| S_IWGRP |||
      S_IROTH ||| S_IWOTH) ||| S_IFDIR ∧
    (statOf rootNode).st_mode ≠ (fstatOf rootNode).st_mode :=
  (C7_mode_amended rootNode).2.1 rfl

/-- C10: if the node a path resolves to is currently open (its lock is
reading or writing), `fs_ramdisk_attach` on that path returns −1 and leaves
every node of the filesystem unchanged. -/
theorem C10_attach_busy (s : RState) (p : List Char) (B : List Nat)
    (size : Nat) {i : Nat} {f : RdFile}
    (hfind : ramdisk_find_path s 0 (stripSlash p) false = some i)
    (hl : flookup s.files i = some f)
    (hbusy : f.openfor = OPENFOR_READ ∨ f.openfor = OPENFOR_WRITE) :
    (fs_ramdisk_attach s p B size).1 = -1 ∧
    (fs_ramdisk_attach s p B size).2.files = s.files := by
  have hne : stripSlash p ≠ [] := by
    intro he
    rw [he] at hfind
    exact Option.noConfusion hfind
  have hlook : openLookup s (stripSlash p) attachMode = some (i, s) := by
    rw [openLookup, if_neg hne]
    have hfind2 : ramdisk_find_path s 0 (stripSlash p) attachMode.dir =
        some i := hfind
    simp only [hfind2]
  have hcases : ∃ s2, ramdisk_open s p attachMode = (none, s2) ∧
      s2.files = s.files := by
    rw [ramdisk_open,
      if_neg (by decide : ¬(attachMode.dir = true ∧ attachMode.rw ≠ RW.rdonly))]
    simp only [hlook]
    simp only [hl]
    by_cases hd : f.isDir = true
    · rw [if_pos ⟨hd, Or.inl (by decide)⟩]
      exact ⟨s, rfl, rfl⟩
    · rw [if_neg (fun hcon => hd hcon.1)]
      cases hfd : findFreeFd s with
      | none =>
        simp only [hfd]
        exact ⟨s, rfl, rfl⟩
      | some fd =>
        simp only [hfd]
        rcases hbusy with hR | hW
        · have hW2 : f.openfor ≠ OPENFOR_WRITE := by
            rw [hR]
            decide
          rw [openCommit, if_neg hW2,
            if_neg (by decide : ¬(attachMode.rw = RW.rdonly)), if_pos hR]
          refine ⟨_, rfl, ?_⟩
          rfl
        · rw [openCommit, if_pos hW]
          exact ⟨s, rfl, rfl⟩
  obtain ⟨s2, hopen, hfiles⟩ := hcases
  rw [fs_ramdisk_attach]
  simp only [hopen]
  exact ⟨trivial, hfiles⟩

/-- C10 witness: attaching over the busy file `f` fails and leaves the
node arena unchanged. -/
theorem C10_attach_busy_witness :
    (fs_ramdisk_attach cS10 ['f'] [9] 1).1 = -1 ∧
    (fs_ramdisk_attach cS10 ['f'] [9] 1).2.files = cS10.files :=
  C10_attach_busy cS10 ['f'] [9] 1 rfl rfl (Or.inr rfl)

theorem if_gt_min (a b : Nat) : (if a > b then b else a) = min a b := by
  split
  · omega
  · omega

/-- `ramdisk_write` on a valid file handle, as one equation. -/
theorem ramdisk_write_eq {s : RState} {fd : Nat} (buf : List Nat)
    (allocOk : Bool) {i : Nat} {f : RdFile}
    (hfd : fd < FS_RAMDISK_MAX_FILES)
    (hfile : (fhGet s fd).file = some i)
    (hdir : (fhGet s fd).dir = false)
    (hl : flookup s.files i = some f) :
    ramdisk_write s fd buf allocOk =
      if f.openfor = OPENFOR_WRITE then
        if (fhGet s fd).ptr + buf.length > f.datasize then
          if allocOk = true then
            writeCommit s fd i
              { f with
                data := reallocBytes f.data
                  ((fhGet s fd).ptr + buf.length + 4096),
                datasize := (fhGet s fd).ptr + buf.length + 4096 } buf
          else (-1, s)
        else writeCommit s fd i f buf
      else (-1, s) := by
  rw [ramdisk_write,
    if_pos (⟨hfd, by rw [hfile]; rfl, by rw [hdir]; exact Bool.false_ne_true⟩ :
      fd < FS_RAMDISK_MAX_FILES ∧ (fhGet s fd).file.isSome = true ∧
        ¬(fhGet s fd).dir = true)]
  simp only [hfile]
  simp only [hl]

/-- `ramdisk_read` on a valid file handle, as one equation. -/
theorem ramdisk_read_eq {s : RState} {fd : Nat} (bytes : Nat)
    {i : Nat} {f : RdFile}
    (hfd : fd < FS_RAMDISK_MAX_FILES)
    (hfile : (fhGet s fd).file = some i)
    (hdir : (fhGet s fd).dir = false)
    (hl : flookup s.files i = some f) :
    ramdisk_read s fd bytes =
      (Int.ofNat (if (fhGet s fd).ptr + bytes > f.size
          then f.size - (fhGet s fd).ptr else bytes),
        (f.data.drop (fhGet s fd).ptr).take
          (if (fhGet s fd).ptr + bytes > f.size
            then f.size - (fhGet s fd).ptr else bytes),
        setFh s fd { fhGet s fd with
          ptr := (fhGet s fd).ptr + (if (fhGet s fd).ptr + bytes > f.size
            then f.size - (fhGet s fd).ptr else bytes) }) := by
  rw [ramdisk_read,
    if_pos (⟨hfd, by rw [hfile]; rfl, by rw [hdir]; exact Bool.false_ne_true⟩ :
      fd < FS_RAMDISK_MAX_FILES ∧ (fhGet s fd).file.isSome = true ∧
        ¬(fhGet s fd).dir = true)]
  simp only [hfile]
  simp only [hl]

/-- `ramdisk_seek` on a valid file handle, as one equation. -/
theorem ramdisk_seek_eq {s : RState} {fd : Nat} (offset : Int)
    (whence : Nat) {i : Nat} {f : RdFile}
    (hfd : fd < FS_RAMDISK_MAX_FILES)
    (hfile : (fhGet s fd).file = some i)
    (hdir : (fhGet s fd).dir = false)
    (hl : flookup s.files i = some f) :
    ramdisk_seek s fd offset whence =
      match (if whence = 0 then
          (if offset < 0 then Except.error Errno.einval
            else Except.ok offset.toNat)
        else if whence = 1 then
          (if offset < 0 ∧ (-offset).toNat > (fhGet s fd).ptr then
            Except.error Errno.einval
            else Except.ok (((fhGet s fd).ptr : Int) + offset).toNat)
        else if whence = 2 then
          (if offset < 0 ∧ (-offset).toNat > f.size then
            Except.error Errno.einval
            else Except.ok ((f.size : Int) + offset).toNat)
        else Except.error Errno.einval : Except Errno Nat) with
      | Except.error e => (Except.error e, s)
      | Except.ok p0 =>
        (Except.ok (if p0 > f.size then f.size else p0),
          setFh s fd { fhGet s fd with
            ptr := if p0 > f.size then f.size else p0 }) := by
  have hcond : ¬(fd ≥ FS_RAMDISK_MAX_FILES ∨
      (fhGet s fd).file.isNone = true ∨ (fhGet s fd).dir = true) := by
    intro hcon
    rcases hcon with h | h | h
    · omega
    · rw [hfile] at h
      exact Bool.noConfusion h
    · rw [hdir] at h
      exact Bool.noConfusion h
  rw [ramdisk_seek, if_neg hcond]
  simp only [hfile]
  simp only [hl]

/-- C3: `ramdisk_write` on a valid file handle whose node is open for
writing copies the bytes at the cursor, advances the cursor, raises the
logical size to the cursor when passed, returns the byte count, and grows
the buffer to cursor+count+4096 when the capacity is exceeded; a failed
allocation, a node not open for writing, or an invalid handle returns −1
with the state unchanged. -/
theorem C3_write_behavior (s : RState) (fd : Nat) (buf : List Nat)
    (allocOk : Bool) {i : Nat} {f : RdFile}
    (hfd : fd < FS_RAMDISK_MAX_FILES)
    (hfile : (fhGet s fd).file = some i)
    (hdir : (fhGet s fd).dir = false)
    (hl : flookup s.files i = some f) :
    (f.openfor ≠ OPENFOR_WRITE → ramdisk_write s fd buf allocOk = (-1, s)) ∧
    (f.openfor = OPENFOR_WRITE →
      ((fhGet s fd).ptr + buf.length > f.datasize → allocOk = false →
        ramdisk_write s fd buf allocOk = (-1, s)) ∧
      ((fhGet s fd).ptr + buf.length ≤ f.datasize →
        ramdisk_write s fd buf allocOk = (Int.ofNat buf.length,
          setFh (setNode s i
            { f with
              data := memcpyAt f.data (fhGet s fd).ptr buf,
              size := if f.size < (fhGet s fd).ptr + buf.length
                then (fhGet s fd).ptr + buf.length else f.size }) fd
            { fhGet s fd with ptr := (fhGet s fd).ptr + buf.length })) ∧
      ((fhGet s fd).ptr + buf.length > f.datasize → allocOk = true →
        ramdisk_write s fd buf allocOk = (Int.ofNat buf.length,
          setFh (setNode s i
            { f with
              data := memcpyAt
                (reallocBytes f.data ((fhGet s fd).ptr + buf.length + 4096))
                (fhGet s fd).ptr buf,
              datasize := (fhGet s fd).ptr + buf.length + 4096,
              size := if f.size < (fhGet s fd).ptr + buf.length
                then (fhGet s fd).ptr + buf.length else f.size }) fd
            { fhGet s fd with ptr := (fhGet s fd).ptr + buf.length }))) ∧
    (∀ (s2 : RState) (fd2 : Nat),
      ¬(fd2 < FS_RAMDISK_MAX_FILES ∧ (fhGet s2 fd2).file.isSome = true ∧
        ¬(fhGet s2 fd2).dir = true) →
      ramdisk_write s2 fd2 buf allocOk = (-1, s2)) := by
  have heq := ramdisk_write_eq buf allocOk hfd hfile hdir hl
  refine ⟨?_, ?_, ?_⟩
  · intro hW
    rw [heq, if_neg hW]
  · intro hW
    refine ⟨?_, ?_, ?_⟩
    · intro hgrow hfail
      rw [heq, if_pos hW, if_pos hgrow,
        if_neg (by rw [hfail]; exact Bool.false_ne_true)]
    · intro hfit
      rw [heq, if_pos hW,
        if_neg (by omega : ¬((fhGet s fd).ptr + buf.length > f.datasize))]
      rfl
    · intro hgrow hok
      rw [heq, if_pos hW, if_pos hgrow, if_pos hok]
      rfl
  · intro s2 fd2 hbad
    rw [ramdisk_write, if_neg hbad]

/-- C3 witness: a 2-byte write at cursor 1 into the 10-byte buffer of the
writable file of `cS3`. -/
theorem C3_write_behavior_witness :
    ramdisk_write cS3 1 [7, 8] true = (Int.ofNat 2,
      setFh (setNode cS3 1
        { cWrFile with
          data := memcpyAt cWrFile.data (fhGet cS3 1).ptr [7, 8],
          size := if cWrFile.size < (fhGet cS3 1).ptr + 2
            then (fhGet cS3 1).ptr + 2 else cWrFile.size }) 1
        { fhGet cS3 1 with ptr := (fhGet cS3 1).ptr + 2 }) :=
  ((C3_write_behavior cS3 1 [7, 8] true (by decide) rfl rfl rfl).2.1
    rfl).2.1 (by decide)

/-- C5: `ramdisk_seek` computes the new cursor from the whence base plus
the offset, rejects negative results (and unknown whence values) with
`EINVAL`, clamps the computed cursor to the logical size, and a seek past
end-of-file therefore succeeds with the cursor at the logical size, after
which a read returns 0 bytes. -/
theorem C5_seek_clamp (s : RState) (fd : Nat) {i : Nat} {f : RdFile}
    (hfd : fd < FS_RAMDISK_MAX_FILES)
    (hfile : (fhGet s fd).file = some i)
    (hdir : (fhGet s fd).dir = false)
    (hlen : s.fh.length = FS_RAMDISK_MAX_FILES)
    (hl : flookup s.files i = some f) :
    (∀ offset : Int, offset < 0 →
      ramdisk_seek s fd offset 0 = (Except.error Errno.einval, s)) ∧
    (∀ offset : Int, 0 ≤ offset →
      ramdisk_seek s fd offset 0 =
        (Except.ok (min offset.toNat f.size),
          setFh s fd { fhGet s fd with ptr := min offset.toNat f.size })) ∧
    (∀ offset : Int, ¬(offset < 0 ∧ (-offset).toNat > (fhGet s fd).ptr) →
      ramdisk_seek s fd offset 1 =
        (Except.ok (min (((fhGet s fd).ptr : Int) + offset).toNat f.size),
          setFh s fd { fhGet s fd with
            ptr := min (((fhGet s fd).ptr : Int) + offset).toNat f.size })) ∧
    (∀ offset : Int, ¬(offset < 0 ∧ (-offset).toNat > f.size) →
      ramdisk_seek s fd offset 2 =
        (Except.ok (min ((f.size : Int) + offset).toNat f.size),
          setFh s fd { fhGet s fd with
            ptr := min ((f.size : Int) + offset).toNat f.size })) ∧
    (∀ offset : Int, offset < 0 → (-offset).toNat > (fhGet s fd).ptr →
      ramdisk_seek s fd offset 1 = (Except.error Errno.einval, s)) ∧
    (∀ offset : Int, offset < 0 → (-offset).toNat > f.size →
      ramdisk_seek s fd offset 2 = (Except.error Errno.einval, s)) ∧
    (∀ (offset : Int) (w : Nat), w ≠ 0 → w ≠ 1 → w ≠ 2 →
      ramdisk_seek s fd offset w = (Except.error Errno.einval, s)) ∧
    (∀ (offset : Int) (bytes : Nat), 0 ≤ offset → f.size ≤ offset.toNat →
      (ramdisk_seek s fd offset 0).1 = Except.ok f.size ∧
      (ramdisk_read (ramdisk_seek s fd offset 0).2 fd bytes).1 =
        Int.ofNat 0 ∧
      (ramdisk_read (ramdisk_seek s fd offset 0).2 fd bytes).2.1 = []) := by
  have hlt : fd < s.fh.length := by
    rw [hlen]
    exact hfd
  have hset : ∀ offset : Int, 0 ≤ offset →
      ramdisk_seek s fd offset 0 =
        (Except.ok (min offset.toNat f.size),
          setFh s fd { fhGet s fd with ptr := min offset.toNat f.size }) := by
    intro offset hpos
    rw [ramdisk_seek_eq offset 0 hfd hfile hdir hl,
      if_pos rfl, if_neg (by omega : ¬offset < 0)]
    show (Except.ok (if offset.toNat > f.size then f.size else offset.toNat),
      setFh s fd { fhGet s fd with
        ptr := if offset.toNat > f.size then f.size else offset.toNat }) = _
    rw [if_gt_min]
  refine ⟨?_, hset, ?_, ?_, ?_, ?_, ?_, ?_⟩
  · intro offset hneg
    rw [ramdisk_seek_eq offset 0 hfd hfile hdir hl,
      if_pos rfl, if_pos hneg]
  · intro offset hok
    rw [ramdisk_seek_eq offset 1 hfd hfile hdir hl,
      if_neg (by omega : ¬(1 : Nat) = 0), if_pos rfl, if_neg hok]
    show (Except.ok (if (((fhGet s fd).ptr : Int) + offset).toNat > f.size
        then f.size else (((fhGet s fd).ptr : Int) + offset).toNat),
      setFh s fd { fhGet s fd with
        ptr := if (((fhGet s fd).ptr : Int) + offset).toNat > f.size
          then f.size else (((fhGet s fd).ptr : Int) + offset).toNat }) = _
    rw [if_gt_min]
  · intro offset hok
    rw [ramdisk_seek_eq offset 2 hfd hfile hdir hl,
      if_neg (by omega : ¬(2 : Nat) = 0), if_neg (by omega : ¬(2 : Nat) = 1),
      if_pos rfl, if_neg hok]
    show (Except.ok (if ((f.size : Int) + offset).toNat > f.size
        then f.size else ((f.size : Int) + offset).toNat),
      setFh s fd { fhGet s fd with
        ptr := if ((f.size : Int) + offset).toNat > f.size
          then f.size else ((f.size : Int) + offset).toNat }) = _
    rw [if_gt_min]
  · intro offset hneg hbig
    rw [ramdisk_seek_eq offset 1 hfd hfile hdir hl,
      if_neg (by omega : ¬(1 : Nat) = 0), if_pos rfl, if_pos ⟨hneg, hbig⟩]
  · intro offset hneg hbig
    rw [ramdisk_seek_eq offset 2 hfd hfile hdir hl,
      if_neg (by omega : ¬(2 : Nat) = 0), if_neg (by omega : ¬(2 : Nat) = 1),
      if_pos rfl, if_pos ⟨hneg, hbig⟩]
  · intro offset w hw0 hw1 hw2
    rw [ramdisk_seek_eq offset w hfd hfile hdir hl,
      if_neg hw0, if_neg hw1, if_neg hw2]
  · intro offset bytes hpos hge
    have hmin : min offset.toNat f.size = f.size := Nat.min_eq_right hge
    rw [hset offset hpos, hmin]
    have hfile2 : (fhGet (setFh s fd { fhGet s fd with ptr := f.size })
        fd).file = some i := by
      rw [fhGet_setFh_self hlt]
      exact hfile
    have hdir2 : (fhGet (setFh s fd { fhGet s fd with ptr := f.size })
        fd).dir = false := by
      rw [fhGet_setFh_self hlt]
      exact hdir
    have hl2 : flookup (setFh s fd
        { fhGet s fd with ptr := f.size }).files i = some f := hl
    have hptr2 : (fhGet (setFh s fd { fhGet s fd with ptr := f.size })
        fd).ptr = f.size := by
      rw [fhGet_setFh_self hlt]
    refine ⟨rfl, ?_, ?_⟩
    · rw [ramdisk_read_eq bytes hfd hfile2 hdir2 hl2, hptr2]
      have hn : (if f.size + bytes > f.size then f.size - f.size
          else bytes) = 0 := by
        split
        · omega
        · omega
      rw [hn]
    · rw [ramdisk_read_eq bytes hfd hfile2 hdir2 hl2, hptr2]
      have hn : (if f.size + bytes > f.size then f.size - f.size
          else bytes) = 0 := by
        split
        · omega
        · omega
      rw [hn]
      rfl

/-- C5 witness: seeking to 10 in the size-3 file of `cS6` caps the cursor
at 3 and the following read returns no bytes. -/
theorem C5_seek_clamp_witness :
    (ramdisk_seek cS6 1 10 0).1 = Except.ok cSmallFile.size ∧
    (ramdisk_read (ramdisk_seek cS6 1 10 0).2 1 5).1 = Int.ofNat 0 ∧
    (ramdisk_read (ramdisk_seek cS6 1 10 0).2 1 5).2.1 = [] :=
  (C5_seek_clamp cS6 1 (by decide) rfl rfl rfl rfl).2.2.2.2.2.2.2
    10 5 (by decide) (by decide)

/-- C6: `ramdisk_stat` reports the allocation capacity (`datasize`) as the
size of a file and −1 for directories, while `ramdisk_total` on a valid
open file handle returns the logical size. -/
theorem C6_stat_capacity (s : RState) :
    (∀ (path : List Char) (i : Nat) (f : RdFile),
      ¬(path = [] ∨ path = ['/']) →
      ramdisk_find_path s 0 path false = some i →
      flookup s.files i = some f →
      ramdisk_stat s path = Except.ok (statOf f) ∧
      (f.isDir = false → (statOf f).st_size = Int.ofNat f.datasize) ∧
      (f.isDir = true → (statOf f).st_size = -1)) ∧
    (ramdisk_stat s [] = Except.ok rootStat ∧
      ramdisk_stat s ['/'] = Except.ok rootStat ∧ rootStat.st_size = -1) ∧
    (∀ (fd i : Nat) (f : RdFile),
      fd < FS_RAMDISK_MAX_FILES → (fhGet s fd).file = some i →
      (fhGet s fd).dir = false → flookup s.files i = some f →
      ramdisk_total s fd = Int.ofNat f.size) := by
  refine ⟨?_, ⟨rfl, rfl, rfl⟩, ?_⟩
  · intro path i f hpath hfind hlk
    refine ⟨?_, ?_, ?_⟩
    · rw [ramdisk_stat, if_neg hpath]
      simp only [hfind]
      simp only [hlk]
    · intro hdd
      show (if f.isDir = true then (-1 : Int) else Int.ofNat f.datasize) =
        Int.ofNat f.datasize
      rw [hdd]
      rfl
    · intro hdd
      show (if f.isDir = true then (-1 : Int) else Int.ofNat f.datasize) =
        -1
      rw [hdd]
      rfl
  · intro fd i f hfd hfile hdir hlk
    rw [ramdisk_total,
      if_pos (⟨hfd, by rw [hfile]; rfl,
        by rw [hdir]; exact Bool.false_ne_true⟩ :
        fd < FS_RAMDISK_MAX_FILES ∧ (fhGet s fd).file.isSome = true ∧
          ¬(fhGet s fd).dir = true)]
    simp only [hfile]
    simp only [hlk]

/-- C6 witness: the file of `cS6` has logical size 3 in a 10-byte buffer;
stat reports 10, total reports 3. -/
theorem C6_stat_capacity_witness :
    ramdisk_stat cS6 ['f'] = Except.ok (statOf cSmallFile) ∧
    (statOf cSmallFile).st_size = Int.ofNat cSmallFile.datasize ∧
    ramdisk_total cS6 1 = Int.ofNat cSmallFile.size :=
  ⟨((C6_stat_capacity cS6).1 ['f'] 1 cSmallFile (by decide) rfl rfl).1,
   ((C6_stat_capacity cS6).1 ['f'] 1 cSmallFile (by decide) rfl rfl).2.1 rfl,
   (C6_stat_capacity cS6).2.2 1 1 cSmallFile (by decide) rfl rfl rfl⟩

/-- C9: a writable non-directory open of a missing slash-free path with a
full handle table creates the file node, then fails with null — but the
node stays linked under the root, resolvable by later lookups, as a fresh
empty file (capacity 1024, logical size 0, unused). -/
theorem C9_create_leak (s : RState) (fn0 : List Char) (mode : OMode)
    (hr : Reachable s) (hwr : mode.rw ≠ RW.rdonly) (hnd : mode.dir = false)
    (hne : stripSlash fn0 ≠ []) (hsl : '/' ∉ stripSlash fn0)
    (hnf : ramdisk_find_path s 0 (stripSlash fn0) false = none)
    (hfull : findFreeFd s = none) :
    ∃ s2,
      ramdisk_open s fn0 mode = (none, s2) ∧
      ramdisk_find_path s2 0 (stripSlash fn0) false = some s.nextId ∧
      flookup s2.files s.nextId = some (mkNewFile (stripSlash fn0)) ∧
      (mkNewFile (stripSlash fn0)).size = 0 ∧
      (mkNewFile (stripSlash fn0)).datasize = 1024 ∧
      (mkNewFile (stripSlash fn0)).usage = 0 := by
  have hs : Inv s := inv_reachable hr
  have hcreate : ∃ s2, ramdisk_create_file s 0 (stripSlash fn0) false =
      some (s.nextId, s2) := by
    obtain ⟨r, hroot, hrootd⟩ := hs.root
    have hgp : ramdisk_get_parent s 0 (stripSlash fn0) =
        some (0, stripSlash fn0) := by
      rw [ramdisk_get_parent, lastSlashSplit_eq_none.2 hsl]
    rw [ramdisk_create_file]
    simp only [hgp]
    simp only [hroot]
    exact ⟨_, rfl⟩
  obtain ⟨s2, hcreate⟩ := hcreate
  obtain ⟨hj, hfh, hnid, hlj, hrootlink, hfp2, hothers, hinv2⟩ :=
    create_file_spec hs hne hnf hcreate
  refine ⟨s2, ?_, hfp2, hlj, rfl, rfl, rfl⟩
  have hstupid : ¬(mode.dir = true ∧ mode.rw ≠ RW.rdonly) := by
    intro hcon
    have h1 := hcon.1
    rw [hnd] at h1
    exact Bool.noConfusion h1
  rw [ramdisk_open, if_neg hstupid]
  have hlook : openLookup s (stripSlash fn0) mode = some (s.nextId, s2) := by
    rw [openLookup, if_neg hne]
    have hnf2 : ramdisk_find_path s 0 (stripSlash fn0) mode.dir = none := by
      rw [hnd]
      exact hnf
    simp only [hnf2]
    rw [if_pos ⟨hwr, by rw [hnd]; exact Bool.false_ne_true⟩]
    have hcreate2 : ramdisk_create_file s 0 (stripSlash fn0) mode.dir =
        some (s.nextId, s2) := by
      rw [hnd]
      exact hcreate
    exact hcreate2
  simp only [hlook]
  simp only [hlj]
  rw [if_neg (fun hcon => Bool.noConfusion hcon.1)]
  have hff : findFreeFd s2 = none := by
    have hext : findFreeFd s2 = findFreeFd s := by
      apply findFreeFd_ext
      intro fd
      rw [show fhGet s2 fd = fhGet s fd from by rw [fhGet, fhGet, hfh]]
    rw [hext]
    exact hfull
  simp only [hff]

set_option maxRecDepth 100000 in
/-- C9 witness: with files `a`–`g` holding all seven handle slots, opening
the missing `h` for writing fails yet leaves a resolvable fresh node. -/
theorem C9_create_leak_witness :
    ∃ s2,
      ramdisk_open c9s ['h'] cW = (none, s2) ∧
      ramdisk_find_path s2 0 (stripSlash ['h']) false = some c9s.nextId ∧
      flookup s2.files c9s.nextId = some (mkNewFile (stripSlash ['h'])) ∧
      (mkNewFile (stripSlash ['h'])).size = 0 ∧
      (mkNewFile (stripSlash ['h'])).datasize = 1024 ∧
      (mkNewFile (stripSlash ['h'])).usage = 0 :=
  C9_create_leak c9s ['h'] cW
    (Reachable.step (Op.o_open ['g'] cW) (Reachable.step (Op.o_open ['f'] cW)
      (Reachable.step (Op.o_open ['e'] cW) (Reachable.step (Op.o_open ['d'] cW)
        (Reachable.step (Op.o_open ['c'] cW) (Reachable.step (Op.o_open ['b'] cW)
          (Reachable.step (Op.o_open ['a'] cW) Reachable.init)))))))
    (by decide) rfl (by decide) (by decide) rfl rfl

/-- `LIST_NEXT` after the unique occurrence of `c`: the head of the tail. -/
theorem listNext_append {pre : List Nat} {c : Nat} (cs : List Nat)
    (hc : c ∉ pre) : listNext (pre ++ c :: cs) c = cs.head? := by
  induction pre with
  | nil =>
    show listNext (c :: cs) c = cs.head?
    rw [listNext, if_pos rfl]
  | cons a rest ih =>
    have ha : a ≠ c := fun he => hc (he ▸ List.mem_cons_self a rest)
    show listNext (a :: (rest ++ c :: cs)) c = cs.head?
    rw [listNext, if_neg ha]
    exact ih (fun hm => hc (List.mem_cons_of_mem a hm))

theorem filterMap_length_of_isSome {α β : Type} {F : α → Option β} :
    ∀ {l : List α}, (∀ c ∈ l, (F c).isSome = true) →
      (l.filterMap F).length = l.length := by
  intro l h
  induction l with
  | nil => rfl
  | cons a as ih =>
    rw [List.filterMap_cons]
    cases hfa : F a with
    | none =>
      have h2 := h a (List.mem_cons_self a as)
      rw [hfa] at h2
      exact Bool.noConfusion h2
    | some b =>
      show (b :: as.filterMap F).length = as.length + 1
      rw [List.length_cons,
        ih (fun c hc => h c (List.mem_cons_of_mem a hc))]

/-- Running `ramdisk_readdir` over the remaining suffix `t` of the
directory's child list yields exactly its entries, after which the next
call fails with `EBADF`. -/
theorem readdirRun_spec {d : Nat} {df : RdFile} :
    ∀ (t pre : List Nat) (s : RState) (fd : Nat),
      fd < FS_RAMDISK_MAX_FILES →
      (fhGet s fd).file = some d →
      (fhGet s fd).dir = true →
      s.fh.length = FS_RAMDISK_MAX_FILES →
      flookup s.files d = some df →
      df.children.Nodup →
      (∀ c ∈ df.children, (flookup s.files c).isSome = true) →
      df.children = pre ++ t →
      (fhGet s fd).dptr = t.head? →
      ∃ sEnd,
        readdirRun t.length s fd =
          (t.filterMap (fun c => (flookup s.files c).map direntOf), sEnd) ∧
        (ramdisk_readdir sEnd fd).1 = Except.error Errno.ebadf := by
  intro t
  induction t with
  | nil =>
    intro pre s fd hfd hfile hdir hlen hld hnodup hlive hsplit hdptr
    refine ⟨s, rfl, ?_⟩
    have hbad : ¬(fd < FS_RAMDISK_MAX_FILES ∧
        (fhGet s fd).file.isSome = true ∧
        (fhGet s fd).dptr.isSome = true ∧ (fhGet s fd).dir = true) := by
      intro hcon
      have h2 := hcon.2.2.1
      rw [hdptr] at h2
      exact Bool.noConfusion h2
    rw [ramdisk_readdir, if_neg hbad]
  | cons c cs ih =>
    intro pre s fd hfd hfile hdir hlen hld hnodup hlive hsplit hdptr
    have hlt : fd < s.fh.length := by
      rw [hlen]
      exact hfd
    have hcmem : c ∈ df.children := by
      rw [hsplit]
      exact List.mem_append.2 (Or.inr (List.mem_cons_self c cs))
    have hcl := hlive c hcmem
    cases hgc : flookup s.files c with
    | none =>
      rw [hgc] at hcl
      exact Bool.noConfusion hcl
    | some g =>
      have hdptr2 : (fhGet s fd).dptr = some c := by
        rw [hdptr]
        rfl
      have hstep : ramdisk_readdir s fd = (Except.ok (direntOf g),
          setFh s fd { fhGet s fd with
            dptr := listNext df.children c, dirent := direntOf g }) := by
        rw [ramdisk_readdir, if_pos ⟨hfd, by rw [hfile]; rfl,
          by rw [hdptr2]; rfl, hdir⟩]
        simp only [hfile, hdptr2]
        simp only [hgc, hld]
      have hnext : listNext df.children c = cs.head? := by
        rw [hsplit]
        apply listNext_append
        intro hcpre
        rw [hsplit] at hnodup
        exact (List.nodup_append.1 hnodup).2.2 hcpre
          (List.mem_cons_self c cs)
      have hfile2 : (fhGet (setFh s fd { fhGet s fd with
          dptr := listNext df.children c, dirent := direntOf g }) fd).file =
          some d := by
        rw [fhGet_setFh_self hlt]
        exact hfile
      have hdir2 : (fhGet (setFh s fd { fhGet s fd with
          dptr := listNext df.children c, dirent := direntOf g }) fd).dir =
          true := by
        rw [fhGet_setFh_self hlt]
        exact hdir
      have hlen2 : (setFh s fd { fhGet s fd with
          dptr := listNext df.children c, dirent := direntOf g
            }).fh.length = FS_RAMDISK_MAX_FILES := by
        show (s.fh.set fd _).length = FS_RAMDISK_MAX_FILES
        rw [List.length_set]
        exact hlen
      have hld2 : flookup (setFh s fd { fhGet s fd with
          dptr := listNext df.children c, dirent := direntOf g }).files d =
          some df := hld
      have hlive2 : ∀ c2 ∈ df.children,
          (flookup (setFh s fd { fhGet s fd with
            dptr := listNext df.children c,
            dirent := direntOf g }).files c2).isSome = true := hlive
      have hdptr3 : (fhGet (setFh s fd { fhGet s fd with
          dptr := listNext df.children c, dirent := direntOf g }) fd).dptr =
          cs.head? := by
        rw [fhGet_setFh_self hlt]
        exact hnext
      obtain ⟨sEnd, hrun, herr⟩ := ih (pre ++ [c])
        (setFh s fd { fhGet s fd with
          dptr := listNext df.children c, dirent := direntOf g }) fd
        hfd hfile2 hdir2 hlen2 hld2 hnodup hlive2
        (by rw [hsplit, List.append_cons]) hdptr3
      have hfiles2 : (setFh s fd { fhGet s fd with
          dptr := listNext df.children c,
          dirent := direntOf g }).files = s.files := rfl
      simp only [hfiles2] at hrun
      refine ⟨sEnd, ?_, herr⟩
      show readdirRun (cs.length + 1) s fd = _
      rw [readdirRun]
      simp only [hstep]
      rw [hrun]
      rw [List.filterMap_cons]
      simp only [hgc, Option.map_some']

/-- C8: on a directory handle, after a `rewinddir`, successive `readdir`
calls yield each child of the directory exactly once — name, directory
bit, and −1 or the logical size — and the call after the last child fails
with the bad-handle error. -/
theorem C8_readdir_enumerates (s : RState) (fd d : Nat) (hr : Reachable s)
    (hfd : fd < FS_RAMDISK_MAX_FILES)
    (hfile : (fhGet s fd).file = some d)
    (hdir : (fhGet s fd).dir = true) :
    ∃ df sEnd,
      flookup s.files d = some df ∧
      readdirRun df.children.length (ramdisk_rewinddir s fd).2 fd =
        (df.children.filterMap (fun c => (flookup s.files c).map direntOf),
          sEnd) ∧
      (df.children.filterMap
        (fun c => (flookup s.files c).map direntOf)).length =
        df.children.length ∧
      (ramdisk_readdir sEnd fd).1 = Except.error Errno.ebadf := by
  have hs : Inv s := inv_reachable hr
  have hlen : s.fh.length = FS_RAMDISK_MAX_FILES := hs.table.1
  have hlt : fd < s.fh.length := by
    rw [hlen]
    exact hfd
  obtain ⟨df, hld, hdd⟩ := hs.handles (fhGet s fd) (fhGet_mem hlt) d hfile
  obtain ⟨hno0, hlive, hnodup⟩ := hs.children (d, df) (flookup_mem hld)
  have hcond : ¬(fd ≥ FS_RAMDISK_MAX_FILES ∨
      (fhGet s fd).file.isNone = true ∨ ¬(fhGet s fd).dir = true) := by
    intro hcon
    rcases hcon with h | h | h
    · omega
    · rw [hfile] at h
      exact Bool.noConfusion h
    · exact h hdir
  have hrw : ramdisk_rewinddir s fd = (Except.ok (),
      setFh s fd { fhGet s fd with dptr := df.children.head? }) := by
    rw [ramdisk_rewinddir, if_neg hcond]
    simp only [hfile]
    simp only [hld]
  have hfile0 : (fhGet (setFh s fd { fhGet s fd with
      dptr := df.children.head? }) fd).file = some d := by
    rw [fhGet_setFh_self hlt]
    exact hfile
  have hdir0 : (fhGet (setFh s fd { fhGet s fd with
      dptr := df.children.head? }) fd).dir = true := by
    rw [fhGet_setFh_self hlt]
    exact hdir
  have hlen0 : (setFh s fd { fhGet s fd with
      dptr := df.children.head? }).fh.length = FS_RAMDISK_MAX_FILES := by
    show (s.fh.set fd _).length = FS_RAMDISK_MAX_FILES
    rw [List.length_set]
    exact hlen
  have hld0 : flookup (setFh s fd { fhGet s fd with
      dptr := df.children.head? }).files d = some df := hld
  have hlive0 : ∀ c ∈ df.children,
      (flookup (setFh s fd { fhGet s fd with
        dptr := df.children.head? }).files c).isSome = true := hlive
  have hdptr0 : (fhGet (setFh s fd { fhGet s fd with
      dptr := df.children.head? }) fd).dptr = df.children.head? := by
    rw [fhGet_setFh_self hlt]
  obtain ⟨sEnd, hrun, herr⟩ := readdirRun_spec df.children []
    (setFh s fd { fhGet s fd with dptr := df.children.head? }) fd
    hfd hfile0 hdir0 hlen0 hld0 hnodup hlive0 (List.nil_append _).symm
    hdptr0
  have hfiles0 : (setFh s fd { fhGet s fd with
      dptr := df.children.head? }).files = s.files := rfl
  simp only [hfiles0] at hrun
  refine ⟨df, sEnd, hld, ?_, ?_, herr⟩
  · rw [hrw]
    exact hrun
  · apply filterMap_length_of_isSome
    intro c hc
    cases hgc : flookup s.files c with
    | none =>
      have h2 := hlive c hc
      rw [hgc] at h2
      exact Bool.noConfusion h2
    | some g => rfl

set_option maxRecDepth 100000 in
/-- C8 witness: enumerating the root directory of `c8s` (one child `a`)
through the directory handle at slot 1. -/
theorem C8_readdir_enumerates_witness :
    ∃ df sEnd,
      flookup c8s.files 0 = some df ∧
      readdirRun df.children.length (ramdisk_rewinddir c8s 1).2 1 =
        (df.children.filterMap (fun c => (flookup c8s.files c).map direntOf),
          sEnd) ∧
      (df.children.filterMap
        (fun c => (flookup c8s.files c).map direntOf)).length =
        df.children.length ∧
      (ramdisk_readdir sEnd 1).1 = Except.error Errno.ebadf :=
  C8_readdir_enumerates c8s 1 0
    (Reachable.step (Op.o_open ['/'] cDirMode)
      (Reachable.step (Op.o_close 1)
        (Reachable.step (Op.o_open ['a'] cW) Reachable.init)))
    (by decide) rfl rfl

end Ramdisk
